import Mathlib

/-! Juggler: a shallow embedding of `internal/juggler/juggler.go`, of the
handlers of `internal/web/server.go` and of `internal/config/config.go`.

The Go type `Juggler` is a record guarded by one reader/writer lock; every
method body runs with the lock held, so each method is one atomic transition
of the record.  The embedding below is a state-passing translation of those
method bodies.

* `map[int]*Ball` is an association list from keys to ball records.  Every
  `*Ball` is stored only in the map, so a write through the pointer found by
  `j.balls[k]` is an update of the entry at key `k`.
* Go `int` is modelled by `Int`.  The only arithmetic that can leave the
  64-bit range for inputs the program accepts is the conversion of minutes to
  a `time.Duration`; it wraps explicitly (`wrap64`).
* `time.Time` is an `Int` (nanoseconds on the program clock, the zero
  `time.Time` being `0`), `time.Now()` is a parameter `now`.
* `rand.Intn(6)` is a parameter of type `Fin 6`.
* A nil-pointer dereference (a key missing from `balls`) is the result `none`.
* The goroutines spawned by `eg.Go` are kept in `World.timers`, one entry per
  live `flyBall` task, holding the `ballID` the task captured.
-/

namespace juggler

/-! ## Data model -/

/-- Ball represents a juggling ball (`type Ball struct`). -/
structure Ball where
  ID : Int
  Status : String
  FlightTime : Int
  Elapsed : Int
  StartTime : Int
deriving DecidableEq, Repr

/-- Juggler manages the juggling process (`type Juggler struct`, lock omitted). -/
structure Juggler where
  balls : List (Int × Ball)
  ballsInHand : List Int
  ballsInAir : List Int
  nextBallID : Int
  totalBalls : Int
  jugglingTime : Int
  startTime : Int
  finished : Bool
deriving DecidableEq, Repr

/-- Map read `m[k]`: the ball stored at key `k`, `none` when the key is absent
(Go yields a nil `*Ball`). -/
def getBall (k : Int) : List (Int × Ball) → Option Ball
  | [] => none
  | (k', b) :: m => if k' = k then some b else getBall k m

/-- Map write `m[k] = b`, also used for a write through the pointer `m[k]`:
replaces the entry at `k`, or adds one when `k` is absent. -/
def setBall (k : Int) (b : Ball) : List (Int × Ball) → List (Int × Ball)
  | [] => [(k, b)]
  | (k', b') :: m => if k' = k then (k, b) :: m else (k', b') :: setBall k b m

/-- The keys of the ball map. -/
def keys (m : List (Int × Ball)) : List Int := m.map Prod.fst

/-- Signed 64-bit wrap-around of an integer (`int64` arithmetic). -/
def wrap64 (x : Int) : Int := (x + 2 ^ 63) % 2 ^ 64 - 2 ^ 63

/-- The constant `time.Minute`, in nanoseconds. -/
def minute : Int := 60000000000

/-- The expression `time.Duration(jugglingTimeMinutes) * time.Minute`. -/
def minutesToDuration (jugglingTimeMinutes : Int) : Int :=
  wrap64 (jugglingTimeMinutes * minute)

/-- The ball literal `&Ball{ID: id, Status: "in_hand"}`; the other fields are
zero values. -/
def newBall (id : Int) : Ball :=
  { ID := id, Status := "in_hand", FlightTime := 0, Elapsed := 0, StartTime := 0 }

/-- The loop `for i := 0; i < totalBalls; i++ { ... }` shared by `NewJuggler`
and `Reset`, run for the given number of iterations. -/
def addBalls : Nat → Juggler → Juggler
  | 0, j => j
  | n + 1, j =>
    addBalls n
      { j with
        balls := setBall j.nextBallID (newBall j.nextBallID) j.balls
        ballsInHand := j.ballsInHand ++ [j.nextBallID]
        nextBallID := j.nextBallID + 1 }

/-- NewJuggler creates a new juggler. -/
def NewJuggler (totalBalls jugglingTimeMinutes now : Int) : Juggler :=
  let j : Juggler :=
    { balls := []
      ballsInHand := []
      ballsInAir := []
      nextBallID := 1
      totalBalls := totalBalls
      jugglingTime := minutesToDuration jugglingTimeMinutes
      startTime := now
      finished := true }
  if totalBalls > 0 then addBalls totalBalls.toNat j else j

/-- GetStats returns current juggling statistics: the two queue lengths and a
copy of every ball record.  Go iterates the map in an unspecified order; the
snapshot here lists the records in the order of the association list, and
statements about it do not depend on that order. -/
def GetStats (j : Juggler) : Nat × Nat × List Ball :=
  (j.ballsInHand.length, j.ballsInAir.length, j.balls.map Prod.snd)

/-- Result of one `ThrowBall` call: the new state, the returned boolean and the
ball id captured by the flight task handed to `eg.Go`, if one was spawned. -/
structure ThrowResult where
  j : Juggler
  ok : Bool
  spawned : Option Int
deriving DecidableEq, Repr

/-- ThrowBall throws a ball into the air.  `r` is the value of `rand.Intn(6)`,
`now` the value of `time.Now()`.  `none` is the nil dereference of
`j.balls[ballID]`. -/
def ThrowBall (j : Juggler) (now : Int) (r : Fin 6) : Option ThrowResult :=
  match j.ballsInHand with
  | [] => some { j := j, ok := false, spawned := none }
  | ballID :: rest =>
    match getBall ballID j.balls with
    | none => none
    | some ball =>
      some
        { j :=
            { j with
              ballsInHand := rest
              ballsInAir := j.ballsInAir ++ [ballID]
              balls :=
                setBall ballID
                  { ball with
                    Status := "in_flight"
                    FlightTime := (r.val : Int) + 5
                    Elapsed := 0
                    StartTime := now }
                  j.balls }
          ok := true
          spawned := some ballID }

/-- The search loop of `catchBall`: drops the first element equal to `ballID`
and stops (`break`); a list without `ballID` is returned as it is. -/
def removeFirst (ballID : Int) : List Int → List Int
  | [] => []
  | id :: rest => if id = ballID then rest else id :: removeFirst ballID rest

/-- The function catchBall catches a ball and puts it back in hand.  `none` is
the nil dereference of `j.balls[ballID]`. -/
def catchBall (j : Juggler) (ballID : Int) : Option Juggler :=
  match getBall ballID j.balls with
  | none => none
  | some ball =>
    some
      { j with
        ballsInAir := removeFirst ballID j.ballsInAir
        ballsInHand := j.ballsInHand ++ [ballID]
        balls := setBall ballID { ball with Status := "in_hand", Elapsed := 0 } j.balls }

/-- The `case <-ticker.C` branch of `flyBall`: one tick of the flight timer of
`ballID`.  The boolean tells whether the task returned (the ball was caught).
`none` is the nil dereference of `j.balls[ballID]`. -/
def flyBallTick (j : Juggler) (ballID : Int) : Option (Juggler × Bool) :=
  match getBall ballID j.balls with
  | none => none
  | some ball =>
    let ball' : Ball := { ball with Elapsed := ball.Elapsed + 1 }
    let j' : Juggler := { j with balls := setBall ballID ball' j.balls }
    if ball'.Elapsed ≥ ball'.FlightTime then
      (catchBall j' ballID).map fun j'' => (j'', true)
    else some (j', false)

/-- The two cases of the `select` in `flyBall`. -/
inductive FlyEvent where
  | ctxDone
  | tickerC
deriving DecidableEq, Repr

/-- One iteration of the loop of `flyBall`.  On `ctx.Done()` the task returns
`ctx.Err()` and touches nothing.  Every caller in the repository passes
`context.Background()`, which is never done. -/
def flyBall (j : Juggler) (ballID : Int) : FlyEvent → Option (Juggler × Bool)
  | .ctxDone => some (j, true)
  | .tickerC => flyBallTick j ballID

/-- The flight task of `ballID` run for at most `n` ticks: stops at the tick on
which the task returns. -/
def flyBallTicks : Nat → Juggler → Int → Option (Juggler × Bool)
  | 0, j, _ => some (j, false)
  | n + 1, j, ballID =>
    match flyBallTick j ballID with
    | none => none
    | some (j', true) => some (j', true)
    | some (j', false) => flyBallTicks n j' ballID

/-- The expression `time.Since(j.startTime)` at clock value `now`.  The
saturation of `Time.Sub` at the ends of the `int64` range is left out: clock
values of a run are far from them. -/
def since (j : Juggler) (now : Int) : Int := now - j.startTime

/-- IsJugglingTimeOver checks if juggling time is over. -/
def IsJugglingTimeOver (j : Juggler) (now : Int) : Bool :=
  decide (since j now ≥ j.jugglingTime)

/-- AllBallsInHand checks if all balls are in hand (none in air). -/
def AllBallsInHand (j : Juggler) : Bool := j.ballsInAir.length == 0

/-- SetFinished marks juggling as finished. -/
def SetFinished (j : Juggler) : Juggler := { j with finished := true }

/-- IsFinished checks if juggling is finished. -/
def IsFinished (j : Juggler) : Bool := j.finished

/-- GetStartTime returns the start time of juggling. -/
def GetStartTime (j : Juggler) : Int := j.startTime

/-- GetTotalBalls returns the total number of balls. -/
def GetTotalBalls (j : Juggler) : Int := j.totalBalls

/-- GetJugglingTime returns the juggling time duration. -/
def GetJugglingTime (j : Juggler) : Int := j.jugglingTime

/-- Reset resets the juggler to initial state with new configuration. -/
def Reset (_j : Juggler) (totalBalls jugglingTimeMinutes now : Int) : Juggler :=
  addBalls totalBalls.toNat
    { balls := []
      ballsInHand := []
      ballsInAir := []
      nextBallID := 1
      totalBalls := totalBalls
      jugglingTime := minutesToDuration jugglingTimeMinutes
      startTime := now
      finished := false }

/-- IsRunning checks if the juggler is currently running. -/
def IsRunning (j : Juggler) (now : Int) : Bool :=
  !j.finished && decide (since j now < j.jugglingTime)

/-- Stop stops the juggling process. -/
def Stop (j : Juggler) : Juggler := { j with finished := true }

/-- Outcome of a loop that has no bound in the source. -/
inductive Run (α : Type) where
  | done (a : α)
  | panic
  | outOfFuel
deriving Repr

/-- The inner loop of `Start`: `for { if j.ThrowBall(ctx, eg) { thrownCount++ }
else { break } }`.  `clock i` and `draw i` are the values of `time.Now()` and
`rand.Intn(6)` in the call made when `thrownCount = i`.  Returns the state, the
final `thrownCount` and the ball ids of the spawned flight tasks. -/
def throwLoop : Nat → Juggler → (Nat → Int) → (Nat → Fin 6) → Nat → List Int →
    Run (Juggler × Nat × List Int)
  | 0, _, _, _, _, _ => .outOfFuel
  | fuel + 1, j, clock, draw, thrownCount, spawned =>
    match ThrowBall j (clock thrownCount) (draw thrownCount) with
    | none => .panic
    | some res =>
      if res.ok then
        throwLoop fuel res.j clock draw (thrownCount + 1) (spawned ++ res.spawned.toList)
      else .done (res.j, thrownCount, spawned)

/-- Result of one tick of the throw scheduler. -/
structure SchedResult where
  j : Juggler
  stopped : Bool
  thrownCount : Nat
  spawned : List Int
deriving Repr

/-- The `case <-throwTicker.C` branch of the goroutine of `Start`: one tick of
the throw scheduler at clock value `now`.  `stopped` tells whether the
goroutine returned.  The inner loop gets one unit of fuel per ball in hand and
one for the failing call that ends it. -/
def schedulerTick (j : Juggler) (now : Int) (clock : Nat → Int) (draw : Nat → Fin 6) :
    Run SchedResult :=
  if IsFinished j || IsJugglingTimeOver j now then
    .done { j := SetFinished j, stopped := true, thrownCount := 0, spawned := [] }
  else
    match throwLoop (j.ballsInHand.length + 1) j clock draw 0 [] with
    | .done (j', thrownCount, spawned) =>
      .done { j := j', stopped := false, thrownCount := thrownCount, spawned := spawned }
    | .panic => .panic
    | .outOfFuel => .outOfFuel

/-! ## The juggler together with its live flight tasks -/

/-- The shared juggler and the flight tasks that are still running, each given
by the ball id it captured when `ThrowBall` spawned it. -/
structure World where
  j : Juggler
  timers : List Int
deriving DecidableEq, Repr

/-- Operations that run within one generation.  `sched` is a whole tick of
the throw scheduler run without interruption; a tick interleaved with other
tasks, which take the lock between two of its `ThrowBall` calls, is a sequence
of `throw` steps. -/
inductive GenAction where
  | throw (now : Int) (r : Fin 6)
  | tick (ballID : Int)
  | sched (now : Int) (clock : Nat → Int) (draw : Nat → Fin 6)
  | stop

/-- One operation of a generation applied to the world.  `none` when the
operation panics, or when `tick` names a ball id no live flight task holds. -/
def genStep (w : World) : GenAction → Option World
  | .throw now r =>
    match ThrowBall w.j now r with
    | none => none
    | some res => some { j := res.j, timers := w.timers ++ res.spawned.toList }
  | .tick ballID =>
    if ballID ∈ w.timers then
      match flyBallTick w.j ballID with
      | none => none
      | some (j', true) => some { j := j', timers := w.timers.erase ballID }
      | some (j', false) => some { j := j', timers := w.timers }
    else none
  | .sched now clock draw =>
    match schedulerTick w.j now clock draw with
    | .done res => some { j := res.j, timers := w.timers ++ res.spawned }
    | .panic => none
    | .outOfFuel => none
  | .stop => some { j := Stop w.j, timers := w.timers }

/-- Operations of the whole program: those of a generation, and `Reset`, which
leaves the running flight tasks alone. -/
inductive Action where
  | gen (a : GenAction)
  | reset (totalBalls jugglingTimeMinutes now : Int)

/-- One operation applied to the world. -/
def step (w : World) : Action → Option World
  | .gen a => genStep w a
  | .reset n t now => some { j := Reset w.j n t now, timers := w.timers }

/-- A sequence of generation operations, stopping at the first that fails. -/
def genRun (w : World) : List GenAction → Option World
  | [] => some w
  | a :: as =>
    match genStep w a with
    | none => none
    | some w' => genRun w' as

/-- A sequence of operations, stopping at the first that fails. -/
def run (w : World) : List Action → Option World
  | [] => some w
  | a :: as =>
    match step w a with
    | none => none
    | some w' => run w' as

/-- The world right after `Reset(n, t)` when no flight task of an earlier
generation is left. -/
def freshWorld (j : Juggler) (n t now : Int) : World :=
  { j := Reset j n t now, timers := [] }

/-! ## Definitions used in the statements -/

/-- The ids handed out by `n` iterations of the ball loop starting at `first`. -/
def freshIds (first : Int) (n : Nat) : List Int :=
  (List.range n).map fun (i : Nat) => first + (i : Int)

/-- The record of a ball after the four field writes of `ThrowBall`. -/
def thrownBall (ball : Ball) (now : Int) (r : Fin 6) : Ball :=
  { ball with Status := "in_flight", FlightTime := (r.val : Int) + 5, Elapsed := 0, StartTime := now }

/-- The state after a successful `ThrowBall` that took `id` from the head of
the in-hand queue, `rest` being the remainder of that queue. -/
def thrown (j : Juggler) (id : Int) (rest : List Int) (ball : Ball) (now : Int) (r : Fin 6) :
    Juggler :=
  { j with
    ballsInHand := rest
    ballsInAir := j.ballsInAir ++ [id]
    balls := setBall id (thrownBall ball now r) j.balls }

/-- Every id waiting in the in-hand queue is a key of the ball map. -/
def HandKnown (j : Juggler) : Prop := ∀ k ∈ j.ballsInHand, k ∈ keys j.balls

instance (j : Juggler) : Decidable (HandKnown j) := by
  unfold HandKnown
  infer_instance

/-- The state after a tick that does not end the flight. -/
def ticked (j : Juggler) (ballID : Int) (b : Ball) : Juggler :=
  { j with balls := setBall ballID { b with Elapsed := b.Elapsed + 1 } j.balls }

/-- The state after a tick that ends the flight. -/
def caught (j : Juggler) (ballID : Int) (b : Ball) : Juggler :=
  { j with
    ballsInAir := removeFirst ballID j.ballsInAir
    ballsInHand := j.ballsInHand ++ [ballID]
    balls := setBall ballID { b with Status := "in_hand", Elapsed := 0 } j.balls }

/-- A juggler with ball 1 one tick before the end of its flight and ball 2 in
hand. -/
def lastTickJuggler : Juggler :=
  { balls :=
      [(1, { ID := 1, Status := "in_flight", FlightTime := 5, Elapsed := 4, StartTime := 0 }),
        (2, newBall 2)]
    ballsInHand := [2]
    ballsInAir := [1]
    nextBallID := 3
    totalBalls := 2
    jugglingTime := minute
    startTime := 0
    finished := false }

/-- What holds of the juggler and its live flight tasks throughout one
generation: the keys of the ball map are distinct, the two queues together
list every key exactly once, there is one live flight task per ball in the
air, the number of balls is the configured one, and the record of every ball
agrees with the queue it is in. -/
structure GenInv (w : World) : Prop where
  keysNodup : (keys w.j.balls).Nodup
  queues : (w.j.ballsInHand ++ w.j.ballsInAir).Perm (keys w.j.balls)
  tasks : w.timers.Perm w.j.ballsInAir
  total : (keys w.j.balls).length = w.j.totalBalls.toNat
  hand : ∀ k ∈ w.j.ballsInHand, ∀ b, getBall k w.j.balls = some b →
    b.Status = "in_hand" ∧ b.Elapsed = 0
  air : ∀ k ∈ w.j.ballsInAir, ∀ b, getBall k w.j.balls = some b →
    b.Status = "in_flight" ∧ 0 ≤ b.Elapsed ∧ b.Elapsed < b.FlightTime ∧
      5 ≤ b.FlightTime ∧ b.FlightTime ≤ 10

/-- The world after `Reset(1, 1)`, one `ThrowBall` and a second `Reset(1, 1)`:
the flight task of the first generation is still alive. -/
def orphanWorld : World :=
  { j := Reset (NewJuggler 0 0 0) 1 1 0, timers := [1] }

/-- The world after `Reset(2, 1)`, two `ThrowBall` calls and `Reset(1, 1)`: the
flight tasks of balls 1 and 2 of the first generation are still alive. -/
def strandedWorld : World :=
  { j := Reset (NewJuggler 0 0 0) 1 1 0, timers := [1, 2] }

/-- The world `demoRun` ends in. -/
def demoWorld : World :=
  { j :=
      { balls :=
          [(1, { ID := 1, Status := "in_flight", FlightTime := 5, Elapsed := 1, StartTime := 1 }),
            (2, { ID := 2, Status := "in_hand", FlightTime := 5, Elapsed := 0, StartTime := 1 }),
            (3, { ID := 3, Status := "in_flight", FlightTime := 5, Elapsed := 0, StartTime := 1 })]
        ballsInHand := [2]
        ballsInAir := [1, 3]
        nextBallID := 4
        totalBalls := 3
        jugglingTime := 120000000000
        startTime := 0
        finished := true }
    timers := [1, 3] }

/-- A run of one generation of three balls: a scheduler tick throws all three
for 5 seconds, ball 2 flies to the end and is caught, ball 1 ticks once, and
the juggler is stopped. -/
def demoRun : List GenAction :=
  [.sched 1 (fun _ => 1) (fun _ => 0), .tick 2, .tick 2, .tick 2, .tick 2, .tick 2, .tick 1,
    .stop]

/-! ## The start handler of the control surface (`internal/web/server.go`) -/

/-- StartRequest represents the request to start juggling. -/
structure StartRequest where
  TotalBalls : Int
  TimeMinutes : Int
deriving DecidableEq, Repr

/-- What `HandleStart` reads of an `http.Request`: the method, and the outcome
of `json.NewDecoder(r.Body).Decode(&req)`, `none` when the decoder returns an
error. -/
structure Request where
  Method : String
  body : Option StartRequest
deriving DecidableEq, Repr

/-- What a handler writes: the status code, the `status` entry of the JSON
object (`none` for the plain-text answers of `http.Error`) and the message. -/
structure Response where
  code : Nat
  status : Option String
  message : String
deriving DecidableEq, Repr

/-- Server represents the web server. -/
structure Server where
  juggler : Juggler
  port : Int
deriving DecidableEq, Repr

/-- Outcome of `HandleStart`: the answer, the server with its juggler after the
call, and whether `s.juggler.Start()` was called, which spawns one more throw
scheduler. -/
structure StartOutcome where
  resp : Response
  server : Server
  started : Bool
deriving DecidableEq, Repr

/-- The constant `http.MethodPost`. -/
def MethodPost : String := "POST"

/-- The constant `http.StatusOK`. -/
def StatusOK : Nat := 200

/-- The constant `http.StatusBadRequest`. -/
def StatusBadRequest : Nat := 400

/-- The constant `http.StatusMethodNotAllowed`. -/
def StatusMethodNotAllowed : Nat := 405

/-- HandleStart handles requests to start juggling; `now` is the value of
`time.Now()` inside `Reset`. -/
def HandleStart (s : Server) (r : Request) (now : Int) : StartOutcome :=
  if r.Method ≠ MethodPost then
    { resp := { code := StatusMethodNotAllowed, status := none, message := "Method not allowed" }
      server := s
      started := false }
  else
    match r.body with
    | none =>
      { resp := { code := StatusBadRequest, status := none, message := "Invalid request body" }
        server := s
        started := false }
    | some req =>
      if req.TotalBalls ≤ 0 ∨ req.TimeMinutes ≤ 0 then
        { resp :=
            { code := StatusBadRequest
              status := none
              message := "Balls and time must be positive" }
          server := s
          started := false }
      else
        { resp :=
            { code := StatusOK
              status := some "started"
              message :=
                "Juggling started with " ++ toString req.TotalBalls ++ " balls for " ++
                  toString req.TimeMinutes ++ " minutes" }
          server := { s with juggler := Reset s.juggler req.TotalBalls req.TimeMinutes now }
          started := true }

/-! ## The other handlers of the control surface -/

/-- The constant `time.Second`, in nanoseconds. -/
def second : Int := 1000000000

/-- Rounding of a rational to an integer, ties to the even one: the rounding
of the significand in IEEE 754 arithmetic (round to nearest even), the only
rounding mode of Go. -/
def roundHalfEven (y : ℚ) : Int :=
  let q : Int := Int.floor y
  let r : ℚ := y - q
  if r < 1 / 2 then q else if 1 / 2 < r then q + 1 else if q % 2 = 0 then q else q + 1

/-- The `float64` nearest to the real number `x`: a significand of 53 bits,
rounded to nearest even.  With `2 ^ k ≤ |x| < 2 ^ (k + 1)` the spacing of the
format is `2 ^ (k - 52)`.  The exponent is not bounded here: every value the
conversions below meet lies between `1e-9` and `2 ^ 64` in size, far from the
subnormal range and from overflow. -/
def roundFloat64 (x : ℚ) : ℚ :=
  if x = 0 then 0
  else
    let e : Int := Int.log 2 (abs x) - 52
    let m : Int := roundHalfEven (abs x / (2 : ℚ) ^ e)
    if x < 0 then -((m : ℚ) * (2 : ℚ) ^ e) else (m : ℚ) * (2 : ℚ) ^ e

/-- The conversion `int(f)` of a `float64`: the fraction is discarded
(truncation toward zero). -/
def truncate (f : ℚ) : Int := if 0 ≤ f then Int.floor f else Int.ceil f

/-- Seconds returns the duration as a floating point number of seconds
(`time.Duration.Seconds` of the standard library):
`sec := d / Second; nsec := d % Second; return float64(sec) + float64(nsec)/1e9`.
Each conversion, the division and the sum round to `float64`. -/
def Seconds (d : Int) : ℚ :=
  let sec : Int := Int.tdiv d second
  let nsec : Int := Int.tmod d second
  roundFloat64 (roundFloat64 sec + roundFloat64 (roundFloat64 nsec / roundFloat64 1000000000))

/-- Minutes returns the duration as a floating point number of minutes
(`time.Duration.Minutes` of the standard library):
`min := d / Minute; nsec := d % Minute; return float64(min) + float64(nsec)/(60*1e9)`. -/
def Minutes (d : Int) : ℚ :=
  let min : Int := Int.tdiv d minute
  let nsec : Int := Int.tmod d minute
  roundFloat64 (roundFloat64 min + roundFloat64 (roundFloat64 nsec / roundFloat64 60000000000))

/-- The expression `int(d.Seconds())` of `HandleStats`: the `float64` sum of
`Seconds()`, truncated toward zero.  Below `2 ^ 24` seconds this is the whole
number of seconds in `d`; from `2 ^ 24` seconds on the sum has too few
fraction bits left and a duration in the last nanoseconds of a second rounds up
to the next second. -/
def durationSeconds (d : Int) : Int := truncate (Seconds d)

/-- The expression `int(d.Minutes())`.  `Minutes()` adds `float64(d / Minute)`
and `float64(d % Minute) / 6e10` and `int` truncates toward zero; this is the
truncated quotient.  The float sum yields it whenever `d` is a whole number of
minutes, and otherwise unless `d` is so close below a whole minute that the
sum rounds up to it. -/
def durationMinutes (d : Int) : Int := Int.tdiv d minute

/-- StatsResponse represents the JSON response for stats. -/
structure StatsResponse where
  InHand : Nat
  InAir : Nat
  Balls : List Ball
  TimeElapsed : Int
  IsFinished : Bool
  IsRunning : Bool
  TotalBalls : Int
  TotalTime : Int
deriving DecidableEq, Repr

/-- HandleStats serves the stats API endpoint.  The handler reads the clock
three times: `now₁` in the first `IsRunning()`, `now₂` in `time.Since`, `now₃`
in the second `IsRunning()`. -/
def HandleStats (s : Server) (now₁ now₂ now₃ : Int) : StatsResponse :=
  let stats := GetStats s.juggler
  let timeElapsed : Int :=
    if IsRunning s.juggler now₁ then durationSeconds (now₂ - GetStartTime s.juggler) else 0
  { InHand := stats.1
    InAir := stats.2.1
    Balls := stats.2.2
    TimeElapsed := timeElapsed
    IsFinished := IsFinished s.juggler
    IsRunning := IsRunning s.juggler now₃
    TotalBalls := GetTotalBalls s.juggler
    TotalTime := durationMinutes (GetJugglingTime s.juggler) }

/-- HandleStop handles requests to stop juggling. -/
def HandleStop (s : Server) (method : String) : Response × Server :=
  if method ≠ MethodPost then
    ({ code := StatusMethodNotAllowed, status := none, message := "Method not allowed" }, s)
  else
    ({ code := StatusOK, status := some "stopped", message := "Juggling stopped" },
      { s with juggler := Stop s.juggler })

/-! ## Configuration (`internal/config/config.go`) -/

/-- Config holds the application configuration. -/
structure Config where
  WebPort : Int
deriving DecidableEq, Repr

/-- DefaultConfig returns the default configuration. -/
def DefaultConfig : Config := { WebPort := 8080 }

/-- The two errors of `strconv.Atoi`. -/
inductive AtoiError where
  | errSyntax
  | errRange
deriving DecidableEq, Repr

/-- Value of a run of decimal digits read after the value `acc`; `none` when a
character is not a digit. -/
def parseDigits : List Char → Nat → Option Nat
  | [], acc => some acc
  | c :: cs, acc =>
    if '0' ≤ c ∧ c ≤ '9' then parseDigits cs (acc * 10 + (c.toNat - 48)) else none

/-- The library function `strconv.Atoi` on a 64-bit platform: an optional sign
`+` or `-`, then one or more decimal digits and nothing else, else
`ErrSyntax`; a value outside the `int64` range is `ErrRange`. -/
def Atoi (s : String) : Except AtoiError Int :=
  match s.data with
  | [] => .error .errSyntax
  | c :: cs =>
    match (if c = '-' ∨ c = '+' then cs else c :: cs) with
    | [] => .error .errSyntax
    | d :: ds =>
      match parseDigits (d :: ds) 0 with
      | none => .error .errSyntax
      | some n =>
        if c = '-' then
          if n ≤ 9223372036854775808 then .ok (-(n : Int)) else .error .errRange
        else
          if n ≤ 9223372036854775807 then .ok (n : Int) else .error .errRange

/-- The error of `LoadFromArgs`, `fmt.Errorf("wrong port format: %v", err)`,
kept as the wrapped cause. -/
inductive LoadError where
  | wrongPortFormat (cause : AtoiError)
deriving DecidableEq, Repr

/-- LoadFromArgs parses command line arguments and returns configuration.  The
test `len(args) >= 2` followed by the read of `args[1]` is the match on a list
with at least two elements. -/
def LoadFromArgs (args : List String) : Except LoadError Config :=
  let config : Config := { WebPort := 8080 }
  match args with
  | _ :: arg :: _ =>
    match Atoi arg with
    | .error err => .error (.wrongPortFormat err)
    | .ok port => .ok { config with WebPort := port }
  | _ => .ok config

/-- Validate validates the configuration; `none` is the nil error. -/
def Validate (c : Config) : Option String :=
  if c.WebPort ≤ 0 ∨ c.WebPort > 65535 then some "port must be between 1 and 65535" else none

/-! ## The process: server, flight tasks and throw schedulers -/

/-- The running program: the server with its juggler, the live flight tasks and
the number of live throw-scheduler goroutines, one per call of
`Juggler.Start()` that has not returned yet. -/
structure Process where
  server : Server
  timers : List Int
  schedulers : Nat
deriving DecidableEq, Repr

/-- What can happen to the process: a request to `/api/start`, a request to
`/api/stop`, a tick of one of the live throw schedulers, a tick of a live
flight task. -/
inductive Event where
  | startRequest (r : Request) (now : Int)
  | stopRequest (method : String)
  | schedulerTick (now : Int) (clock : Nat → Int) (draw : Nat → Fin 6)
  | timerTick (ballID : Int)

/-- One event applied to the process.  `HandleStart` calls `Start()`, which
spawns a scheduler goroutine; a scheduler goroutine ends only at a tick of its
own that takes the `SetFinished` branch.  `none` when the event panics or
names a task that is not alive. -/
def processStep (p : Process) : Event → Option Process
  | .startRequest r now =>
    let out := HandleStart p.server r now
    some
      { server := out.server
        timers := p.timers
        schedulers := if out.started then p.schedulers + 1 else p.schedulers }
  | .stopRequest method =>
    some { p with server := (HandleStop p.server method).2 }
  | .schedulerTick now clock draw =>
    if p.schedulers = 0 then none
    else
      match schedulerTick p.server.juggler now clock draw with
      | .done res =>
        some
          { server := { p.server with juggler := res.j }
            timers := p.timers ++ res.spawned
            schedulers := if res.stopped then p.schedulers - 1 else p.schedulers }
      | .panic => none
      | .outOfFuel => none
  | .timerTick ballID =>
    match genStep { j := p.server.juggler, timers := p.timers } (.tick ballID) with
    | none => none
    | some w =>
      some { server := { p.server with juggler := w.j }, timers := w.timers,
             schedulers := p.schedulers }

/-- A sequence of events, stopping at the first that fails. -/
def processRun (p : Process) : List Event → Option Process
  | [] => some p
  | e :: es =>
    match processStep p e with
    | none => none
    | some p' => processRun p' es

/-- The process `NewApp` sets up: `NewJuggler(0, 0)` behind a server, no task
alive. -/
def NewApp (cfg : Config) (now : Int) : Process :=
  { server := { juggler := NewJuggler 0 0 now, port := cfg.WebPort }
    timers := []
    schedulers := 0 }

/-! ## Snapshots along a run -/

/-- The results of `GetStats` called before each operation of a run and after
the last one. -/
def snapshots (w : World) : List GenAction → Option (List (Nat × Nat × List Ball))
  | [] => some [GetStats w.j]
  | a :: as =>
    match genStep w a with
    | none => none
    | some w' => (snapshots w' as).map fun l => GetStats w.j :: l

/-- The partition invariant: the two queues have no duplicates, share no id and
together hold exactly the keys of the ball map, which are distinct, and the
status of every ball says which queue it is in. -/
def Partition (j : Juggler) : Prop :=
  j.ballsInHand.Nodup ∧ j.ballsInAir.Nodup ∧ List.Disjoint j.ballsInHand j.ballsInAir ∧
    (keys j.balls).Nodup ∧
    (∀ k, k ∈ keys j.balls ↔ (k ∈ j.ballsInHand ∨ k ∈ j.ballsInAir)) ∧
    ∀ k b, getBall k j.balls = some b →
      (b.Status = "in_hand" ↔ k ∈ j.ballsInHand) ∧ (b.Status = "in_flight" ↔ k ∈ j.ballsInAir)

/-- Ticks the flight task of `ballID` still has to make: `FlightTime - Elapsed`
while the ball is in the air, 0 otherwise. -/
def remaining (j : Juggler) (ballID : Int) : Nat :=
  if ballID ∈ j.ballsInAir then
    match getBall ballID j.balls with
    | some b => (b.FlightTime - b.Elapsed).toNat
    | none => 0
  else 0

/-- Number of ticks of the flight task of `ballID` in a run. -/
def tickCount (ballID : Int) : List GenAction → Nat
  | [] => 0
  | .tick k :: as => (if k = ballID then 1 else 0) + tickCount ballID as
  | _ :: as => tickCount ballID as

/-- Whether an operation is a direct `ThrowBall` call. -/
def isThrow : GenAction → Bool
  | .throw _ _ => true
  | _ => false

/-- What a `ThrowBall` call returns and does to the balls and the queues: the
boolean, the spawned flight task, the ball map and the two queues. -/
def throwEffect (res : ThrowResult) :
    Bool × Option Int × List (Int × Ball) × List Int × List Int :=
  (res.ok, res.spawned, res.j.balls, res.j.ballsInHand, res.j.ballsInAir)

/-! ## The ball map -/

theorem getBall_setBall_self (k : Int) (b : Ball) (m : List (Int × Ball)) :
    getBall k (setBall k b m) = some b := by
  induction m with
  | nil => simp [setBall, getBall]
  | cons p m ih =>
    obtain ⟨k', b'⟩ := p
    by_cases h : k' = k
    · simp [setBall, getBall, h]
    · simp [setBall, getBall, h, ih]

theorem getBall_setBall_ne {k k' : Int} (h : k' ≠ k) (b : Ball) (m : List (Int × Ball)) :
    getBall k' (setBall k b m) = getBall k' m := by
  induction m with
  | nil => simp [setBall, getBall, h.symm]
  | cons p m ih =>
    obtain ⟨k₀, b₀⟩ := p
    by_cases h₀ : k₀ = k
    · subst h₀
      simp [setBall, getBall, h.symm]
    · by_cases h₁ : k₀ = k'
      · subst h₁
        simp [setBall, getBall, h]
      · simp [setBall, getBall, h₀, h₁, ih]

theorem getBall_ne_none_iff (k : Int) (m : List (Int × Ball)) :
    getBall k m ≠ none ↔ k ∈ keys m := by
  induction m with
  | nil => simp [getBall, keys]
  | cons p m ih =>
    obtain ⟨k', b'⟩ := p
    by_cases h : k' = k
    · simp [getBall, keys, h]
    · have h' : ¬ k = k' := fun e => h e.symm
      simpa [getBall, keys, h, h'] using ih

theorem getBall_eq_none_iff (k : Int) (m : List (Int × Ball)) :
    getBall k m = none ↔ k ∉ keys m := by
  rw [← getBall_ne_none_iff]
  simp

theorem exists_getBall_of_mem_keys {k : Int} {m : List (Int × Ball)} (h : k ∈ keys m) :
    ∃ b, getBall k m = some b := by
  cases hb : getBall k m with
  | none => exact absurd hb ((getBall_ne_none_iff k m).2 h)
  | some b => exact ⟨b, rfl⟩

theorem mem_keys_of_getBall {k : Int} {b : Ball} {m : List (Int × Ball)}
    (h : getBall k m = some b) : k ∈ keys m :=
  (getBall_ne_none_iff k m).1 (by simp [h])

theorem setBall_of_not_mem {k : Int} (b : Ball) {m : List (Int × Ball)} (h : k ∉ keys m) :
    setBall k b m = m ++ [(k, b)] := by
  induction m with
  | nil => simp [setBall]
  | cons p m ih =>
    obtain ⟨k', b'⟩ := p
    simp only [keys, List.map_cons, List.mem_cons, not_or] at h
    have h' : ¬ k' = k := fun e => h.1 e.symm
    have := ih (by simpa [keys] using h.2)
    simp [setBall, h', this]

theorem keys_setBall_of_mem {k : Int} (b : Ball) {m : List (Int × Ball)} (h : k ∈ keys m) :
    keys (setBall k b m) = keys m := by
  induction m with
  | nil => simp [keys] at h
  | cons p m ih =>
    obtain ⟨k', b'⟩ := p
    by_cases hk : k' = k
    · simp [setBall, keys, hk]
    · have hm : k ∈ keys m := by
        simp only [keys, List.map_cons, List.mem_cons] at h
        rcases h with h | h
        · exact absurd h.symm hk
        · simpa [keys] using h
      have := ih hm
      simp only [keys] at this
      simp [setBall, keys, hk, this]

theorem length_setBall_of_mem {k : Int} (b : Ball) {m : List (Int × Ball)} (h : k ∈ keys m) :
    (setBall k b m).length = m.length := by
  have := congrArg List.length (keys_setBall_of_mem b h)
  simpa [keys] using this

theorem mem_of_getBall {k : Int} {b : Ball} {m : List (Int × Ball)}
    (h : getBall k m = some b) : (k, b) ∈ m := by
  induction m with
  | nil => simp [getBall] at h
  | cons p m ih =>
    obtain ⟨k', b'⟩ := p
    by_cases hk : k' = k
    · simp [getBall, hk] at h
      simp [hk, h]
    · simp [getBall, hk] at h
      exact List.mem_cons_of_mem _ (ih h)

theorem getBall_of_mem {k : Int} {b : Ball} {m : List (Int × Ball)}
    (hnd : (keys m).Nodup) (h : (k, b) ∈ m) : getBall k m = some b := by
  induction m with
  | nil => simp at h
  | cons p m ih =>
    obtain ⟨k', b'⟩ := p
    simp only [keys, List.map_cons, List.nodup_cons] at hnd
    rcases List.mem_cons.1 h with h | h
    · cases h
      simp [getBall]
    · have hk : k ∈ keys m := List.mem_map.2 ⟨(k, b), h, rfl⟩
      have hne : ¬ k' = k := fun e => hnd.1 (by simpa [keys, e] using hk)
      simp only [getBall, hne, if_false]
      exact ih hnd.2 h

theorem removeFirst_eq_erase (k : Int) (l : List Int) : removeFirst k l = l.erase k := by
  induction l with
  | nil => rfl
  | cons a l ih =>
    by_cases h : a = k
    · simp [removeFirst, h]
    · simp [removeFirst, h, List.erase_cons_tail, ih]

/-! ## Reset and the initial queue -/

theorem freshIds_zero (a : Int) : freshIds a 0 = [] := rfl

theorem freshIds_succ (a : Int) (n : Nat) :
    freshIds a (n + 1) = a :: freshIds (a + 1) n := by
  unfold freshIds
  rw [List.range_succ_eq_map]
  simp only [List.map_cons, List.map_map]
  refine congrArg₂ _ (by simp) (List.map_congr_left fun i _ => ?_)
  simp only [Function.comp, Nat.cast_succ]
  ring

theorem length_freshIds (a : Int) (n : Nat) : (freshIds a n).length = n := by
  simp [freshIds]

theorem mem_freshIds {a k : Int} {n : Nat} :
    k ∈ freshIds a n ↔ a ≤ k ∧ k < a + n := by
  simp only [freshIds, List.mem_map, List.mem_range]
  constructor
  · rintro ⟨i, hi, rfl⟩
    omega
  · rintro ⟨h1, h2⟩
    refine ⟨(k - a).toNat, ?_, ?_⟩ <;> omega

theorem nodup_freshIds (a : Int) (n : Nat) : (freshIds a n).Nodup := by
  unfold freshIds
  refine List.Nodup.map ?_ (List.nodup_range n)
  intro x y h
  simpa using h

theorem addBalls_eq (n : Nat) (j : Juggler) (h : ∀ k ∈ keys j.balls, k < j.nextBallID) :
    addBalls n j =
      { j with
        balls := j.balls ++ (freshIds j.nextBallID n).map fun k => (k, newBall k)
        ballsInHand := j.ballsInHand ++ freshIds j.nextBallID n
        nextBallID := j.nextBallID + n } := by
  induction n generalizing j with
  | zero =>
    cases j
    simp [addBalls, freshIds_zero]
  | succ n ih =>
    have hnot : j.nextBallID ∉ keys j.balls := fun hm => lt_irrefl _ (h _ hm)
    rw [addBalls, ih]
    · cases j
      simp only [setBall_of_not_mem _ hnot, freshIds_succ, List.map_cons, List.append_assoc,
        List.singleton_append, Nat.cast_succ]
      simp only [Juggler.mk.injEq, and_true, true_and]
      ring
    · intro k hk
      simp only [setBall_of_not_mem _ hnot, keys, List.map_append, List.map_cons, List.map_nil,
        List.mem_append, List.mem_singleton] at hk
      rcases hk with hk | hk
      · have := h k (by simpa [keys] using hk)
        show k < j.nextBallID + 1
        omega
      · show k < j.nextBallID + 1
        omega

/-- The state `Reset` produces, written out. -/
theorem Reset_eq (j : Juggler) (n t now : Int) :
    Reset j n t now =
      { balls := (freshIds 1 n.toNat).map fun k => (k, newBall k)
        ballsInHand := freshIds 1 n.toNat
        ballsInAir := []
        nextBallID := 1 + (n.toNat : Int)
        totalBalls := n
        jugglingTime := minutesToDuration t
        startTime := now
        finished := false } := by
  unfold Reset
  rw [addBalls_eq]
  · simp
  · intro k hk
    simp [keys] at hk

theorem keys_Reset (j : Juggler) (n t now : Int) :
    keys (Reset j n t now).balls = freshIds 1 n.toNat := by
  rw [Reset_eq]
  simp [keys, Function.comp_def]

theorem getBall_Reset {j : Juggler} {n t now k : Int} {b : Ball}
    (h : getBall k (Reset j n t now).balls = some b) : b = newBall k := by
  have hm := mem_of_getBall h
  rw [Reset_eq] at hm
  simp only [List.mem_map] at hm
  obtain ⟨k', _, hk'⟩ := hm
  cases hk'
  rfl

/-! ## Claims C1, C2, C3 and C8 -/

/-- C1: for every `n ≥ 0`, every duration `t`, every clock value and every
prior state, `GetStats` right after `Reset(n, t)` reports `inHand = n`,
`inAir = 0`, exactly `n` ball records, every record with status `in_hand`. -/
theorem C1_reset_stats (j : Juggler) (n t now : Int) (hn : 0 ≤ n) :
    ((GetStats (Reset j n t now)).1 : Int) = n ∧
      (GetStats (Reset j n t now)).2.1 = 0 ∧
      (((GetStats (Reset j n t now)).2.2).length : Int) = n ∧
      ∀ b ∈ (GetStats (Reset j n t now)).2.2, b.Status = "in_hand" := by
  rw [Reset_eq]
  simp only [GetStats, length_freshIds, List.length_map, List.length_nil, List.map_map]
  refine ⟨Int.toNat_of_nonneg hn, trivial, Int.toNat_of_nonneg hn, ?_⟩
  intro b hb
  simp only [List.mem_map, Function.comp] at hb
  obtain ⟨k, _, rfl⟩ := hb
  rfl

/-- Witness for C1: `Reset(3, 2)` on a juggler built by `NewJuggler(5, 1)`. -/
theorem C1_reset_stats_witness :
    (0 : Int) ≤ 3 ∧
      (((GetStats (Reset (NewJuggler 5 1 0) 3 2 7)).1 : Int) = 3 ∧
        (GetStats (Reset (NewJuggler 5 1 0) 3 2 7)).2.1 = 0 ∧
        (((GetStats (Reset (NewJuggler 5 1 0) 3 2 7)).2.2).length : Int) = 3 ∧
        ∀ b ∈ (GetStats (Reset (NewJuggler 5 1 0) 3 2 7)).2.2, b.Status = "in_hand") :=
  ⟨by decide, C1_reset_stats (NewJuggler 5 1 0) 3 2 7 (by decide)⟩

theorem ThrowBall_nil {j : Juggler} (now : Int) (r : Fin 6) (h : j.ballsInHand = []) :
    ThrowBall j now r = some { j := j, ok := false, spawned := none } := by
  simp only [ThrowBall, h]

theorem ThrowBall_cons {j : Juggler} {now : Int} {r : Fin 6} {id : Int} {rest : List Int}
    {ball : Ball} (h : j.ballsInHand = id :: rest) (hb : getBall id j.balls = some ball) :
    ThrowBall j now r =
      some { j := thrown j id rest ball now r, ok := true, spawned := some id } := by
  simp only [ThrowBall, h, hb, thrownBall, thrown]

/-- C2: on a state with at least one ball in hand (the queued ids naming balls
of the map), for every clock value and every random draw, `ThrowBall` returns
true, the in-hand count drops by exactly 1, the in-air count grows by exactly
1, the number of ball records is unchanged, and the thrown ball, the head of
the in-hand queue, is in the snapshot with status `in_flight` and a
`FlightTime` between 5 and 10. -/
theorem C2_throwBall_success (j : Juggler) (now : Int) (r : Fin 6)
    (hne : j.ballsInHand ≠ []) (hk : HandKnown j) :
    ∃ res id b, ThrowBall j now r = some res ∧ res.ok = true ∧
      (GetStats res.j).1 + 1 = (GetStats j).1 ∧
      (GetStats res.j).2.1 = (GetStats j).2.1 + 1 ∧
      ((GetStats res.j).2.2).length = ((GetStats j).2.2).length ∧
      j.ballsInHand.head? = some id ∧ res.spawned = some id ∧
      getBall id res.j.balls = some b ∧ b ∈ (GetStats res.j).2.2 ∧
      b.Status = "in_flight" ∧ 5 ≤ b.FlightTime ∧ b.FlightTime ≤ 10 := by
  cases hh : j.ballsInHand with
  | nil => exact absurd hh hne
  | cons id rest =>
    have hid : id ∈ keys j.balls := hk id (by simp [hh])
    obtain ⟨b₀, hb₀⟩ := exists_getBall_of_mem_keys hid
    have hr : (r.val : Int) < 6 := by exact_mod_cast r.isLt
    have hr0 : (0 : Int) ≤ (r.val : Int) := Int.natCast_nonneg _
    refine ⟨_, id, thrownBall b₀ now r, ThrowBall_cons hh hb₀, rfl, ?_, ?_, ?_, rfl, rfl,
      getBall_setBall_self _ _ _,
      List.mem_map.2 ⟨_, mem_of_getBall (getBall_setBall_self _ _ _), rfl⟩, rfl, ?_, ?_⟩
    · simp [GetStats, hh, thrown]
    · simp [GetStats, thrown]
    · simp [GetStats, thrown, length_setBall_of_mem _ hid]
    · show (5 : Int) ≤ (r.val : Int) + 5
      omega
    · show (r.val : Int) + 5 ≤ 10
      omega

/-- Witness for C2: a throw with draw 4 right after `Reset(3, 2)`. -/
theorem C2_throwBall_success_witness :
    (Reset (NewJuggler 3 2 0) 3 2 0).ballsInHand ≠ [] ∧
      HandKnown (Reset (NewJuggler 3 2 0) 3 2 0) ∧
      ∃ res id b, ThrowBall (Reset (NewJuggler 3 2 0) 3 2 0) 1 4 = some res ∧ res.ok = true ∧
        (GetStats res.j).1 + 1 = (GetStats (Reset (NewJuggler 3 2 0) 3 2 0)).1 ∧
        (GetStats res.j).2.1 = (GetStats (Reset (NewJuggler 3 2 0) 3 2 0)).2.1 + 1 ∧
        ((GetStats res.j).2.2).length = ((GetStats (Reset (NewJuggler 3 2 0) 3 2 0)).2.2).length ∧
        (Reset (NewJuggler 3 2 0) 3 2 0).ballsInHand.head? = some id ∧ res.spawned = some id ∧
        getBall id res.j.balls = some b ∧ b ∈ (GetStats res.j).2.2 ∧
        b.Status = "in_flight" ∧ 5 ≤ b.FlightTime ∧ b.FlightTime ≤ 10 :=
  ⟨by decide, by decide,
    C2_throwBall_success (Reset (NewJuggler 3 2 0) 3 2 0) 1 4 (by decide) (by decide)⟩

/-- C3: on a state whose in-hand queue is empty, `ThrowBall` returns false and
hands back the very same state, so `GetStats` is unchanged, and no flight
task is spawned: the set of live flight tasks is unchanged as well. -/
theorem C3_throwBall_empty (j : Juggler) (timers : List Int) (now : Int) (r : Fin 6)
    (h : j.ballsInHand = []) :
    ∃ res, ThrowBall j now r = some res ∧ res.ok = false ∧ res.j = j ∧
      GetStats res.j = GetStats j ∧ res.spawned = none ∧
      genStep { j := j, timers := timers } (.throw now r) = some { j := j, timers := timers } := by
  refine ⟨{ j := j, ok := false, spawned := none }, ?_, rfl, rfl, rfl, rfl, ?_⟩
  · simp only [ThrowBall, h]
  · simp only [genStep, ThrowBall, h, Option.toList, List.append_nil]

/-- Witness for C3: `ThrowBall` right after `Reset(0, 2)`, one old flight task
still alive. -/
theorem C3_throwBall_empty_witness :
    (Reset (NewJuggler 0 2 0) 0 2 0).ballsInHand = [] ∧
      ∃ res, ThrowBall (Reset (NewJuggler 0 2 0) 0 2 0) 3 5 = some res ∧ res.ok = false ∧
        res.j = Reset (NewJuggler 0 2 0) 0 2 0 ∧
        GetStats res.j = GetStats (Reset (NewJuggler 0 2 0) 0 2 0) ∧ res.spawned = none ∧
        genStep { j := Reset (NewJuggler 0 2 0) 0 2 0, timers := [7] } (.throw 3 5) =
          some { j := Reset (NewJuggler 0 2 0) 0 2 0, timers := [7] } :=
  ⟨by decide, C3_throwBall_empty (Reset (NewJuggler 0 2 0) 0 2 0) [7] 3 5 (by decide)⟩

/-- C8: for every state and every clock value, after `Stop` the juggler is not
running and is finished, and a second `Stop` changes nothing. -/
theorem C8_stop_idempotent (s : Juggler) (now : Int) :
    IsRunning (Stop s) now = false ∧ IsFinished (Stop s) = true ∧ Stop (Stop s) = Stop s := by
  refine ⟨?_, rfl, rfl⟩
  simp [IsRunning, Stop]

/-! ## One tick of a flight timer -/

theorem setBall_setBall (k : Int) (b₁ b₂ : Ball) (m : List (Int × Ball)) :
    setBall k b₂ (setBall k b₁ m) = setBall k b₂ m := by
  induction m with
  | nil => simp [setBall]
  | cons p m ih =>
    obtain ⟨k', b'⟩ := p
    by_cases h : k' = k
    · simp [setBall, h]
    · simp [setBall, h, ih]

theorem setBall_eq_self {k : Int} {b : Ball} {m : List (Int × Ball)}
    (h : getBall k m = some b) : setBall k b m = m := by
  induction m with
  | nil => simp [getBall] at h
  | cons p m ih =>
    obtain ⟨k', b'⟩ := p
    by_cases hk : k' = k
    · simp [getBall, hk] at h
      simp [setBall, hk, h]
    · simp [getBall, hk] at h
      simp [setBall, hk, ih h]

theorem flyBallTick_continue {j : Juggler} {k : Int} {b : Ball}
    (hb : getBall k j.balls = some b) (h : b.Elapsed + 1 < b.FlightTime) :
    flyBallTick j k = some (ticked j k b, false) := by
  have h' : ¬ b.FlightTime ≤ b.Elapsed + 1 := not_le.2 h
  simp [flyBallTick, hb, h', ticked]

theorem flyBallTick_catch {j : Juggler} {k : Int} {b : Ball}
    (hb : getBall k j.balls = some b) (h : b.FlightTime ≤ b.Elapsed + 1) :
    flyBallTick j k = some (caught j k b, true) := by
  simp [flyBallTick, hb, h, catchBall, getBall_setBall_self, setBall_setBall, caught]

/-- C6: one tick of the flight timer of a ball `k` that is in flight with
record `b`.  When `b.Elapsed + 1 < b.FlightTime` the task goes on, both queues
are the same and only `Elapsed` of `k` changes, to `b.Elapsed + 1`.  When
`b.Elapsed + 1 ≥ b.FlightTime` the task returns, one occurrence of `k` is taken
out of the in-air queue, `k` is appended at the end of the in-hand queue, and
the record of `k` gets status `in_hand` and `Elapsed = 0`.  In both cases the
key set and the record of every other ball are unchanged. -/
theorem C6_flight_timer_tick (j : Juggler) (k : Int) (b : Ball)
    (hb : getBall k j.balls = some b) (hair : k ∈ j.ballsInAir) :
    (b.Elapsed + 1 < b.FlightTime →
      ∃ j', flyBallTick j k = some (j', false) ∧
        j'.ballsInHand = j.ballsInHand ∧ j'.ballsInAir = j.ballsInAir ∧
        getBall k j'.balls = some { b with Elapsed := b.Elapsed + 1 } ∧
        keys j'.balls = keys j.balls ∧
        ∀ k', k' ≠ k → getBall k' j'.balls = getBall k' j.balls) ∧
    (b.Elapsed + 1 ≥ b.FlightTime →
      ∃ j', flyBallTick j k = some (j', true) ∧
        j'.ballsInHand = j.ballsInHand ++ [k] ∧
        j'.ballsInAir = j.ballsInAir.erase k ∧
        (k :: j'.ballsInAir).Perm j.ballsInAir ∧
        getBall k j'.balls = some { b with Status := "in_hand", Elapsed := 0 } ∧
        keys j'.balls = keys j.balls ∧
        ∀ k', k' ≠ k → getBall k' j'.balls = getBall k' j.balls) := by
  have hk : k ∈ keys j.balls := mem_keys_of_getBall hb
  constructor
  · intro h
    exact ⟨_, flyBallTick_continue hb h, rfl, rfl, getBall_setBall_self _ _ _,
      keys_setBall_of_mem _ hk, fun k' hne => getBall_setBall_ne hne _ _⟩
  · intro h
    refine ⟨_, flyBallTick_catch hb h, rfl, removeFirst_eq_erase _ _, ?_,
      getBall_setBall_self _ _ _, keys_setBall_of_mem _ hk,
      fun k' hne => getBall_setBall_ne hne _ _⟩
    show (k :: removeFirst k j.ballsInAir).Perm j.ballsInAir
    rw [removeFirst_eq_erase]
    exact (List.perm_cons_erase hair).symm

/-- Witness for C6: the fifth tick of a ball thrown for 5 seconds. -/
theorem C6_flight_timer_tick_witness :
    getBall 1 lastTickJuggler.balls =
        some { ID := 1, Status := "in_flight", FlightTime := 5, Elapsed := 4, StartTime := 0 } ∧
      (1 : Int) ∈ lastTickJuggler.ballsInAir ∧
      ∃ j', flyBallTick lastTickJuggler 1 = some (j', true) ∧
        j'.ballsInHand = [2, 1] ∧ j'.ballsInAir = [] ∧
        getBall 1 j'.balls =
          some { ID := 1, Status := "in_hand", FlightTime := 5, Elapsed := 0, StartTime := 0 } ∧
        getBall 2 j'.balls = getBall 2 lastTickJuggler.balls := by
  refine ⟨by decide, by decide, ?_⟩
  obtain ⟨j', h1, h2, h3, _, h5, _, h7⟩ :=
    (C6_flight_timer_tick lastTickJuggler 1
      { ID := 1, Status := "in_flight", FlightTime := 5, Elapsed := 4, StartTime := 0 }
      (by decide) (by decide)).2 (by decide)
  exact ⟨j', h1, h2, h3, h5, h7 2 (by decide)⟩

/-! ## A whole flight -/

theorem flyBallTicks_succ_continue {j j' : Juggler} {k : Int} (n : Nat)
    (h : flyBallTick j k = some (j', false)) :
    flyBallTicks (n + 1) j k = flyBallTicks n j' k := by
  simp [flyBallTicks, h]

theorem flyBallTicks_succ_catch {j j' : Juggler} {k : Int} (n : Nat)
    (h : flyBallTick j k = some (j', true)) :
    flyBallTicks (n + 1) j k = some (j', true) := by
  simp [flyBallTicks, h]

/-- The flight task of a ball that has `n + 1` ticks to go: the first `n` ticks
only count, every run of more than `n` ticks ends with the catch. -/
theorem flyBallTicks_spec (k : Int) (n : Nat) :
    ∀ (j : Juggler) (b : Ball), getBall k j.balls = some b →
      b.FlightTime = b.Elapsed + n + 1 → ∀ m : Nat,
      (m ≤ n → flyBallTicks m j k =
        some ({ j with balls := setBall k { b with Elapsed := b.Elapsed + m } j.balls }, false)) ∧
      (n < m → flyBallTicks m j k = some (caught j k b, true)) := by
  induction n with
  | zero =>
    intro j b hb hft m
    cases m with
    | zero =>
      refine ⟨fun _ => ?_, fun h => absurd h (lt_irrefl _)⟩
      cases j
      simp only [flyBallTicks, Nat.cast_zero, add_zero]
      rw [setBall_eq_self hb]
    | succ m =>
      refine ⟨fun h => absurd h (by omega), fun _ => ?_⟩
      exact flyBallTicks_succ_catch m (flyBallTick_catch hb (by simp at hft; omega))
  | succ n ih =>
    intro j b hb hft m
    cases m with
    | zero =>
      refine ⟨fun _ => ?_, fun h => absurd h (by omega)⟩
      cases j
      simp only [flyBallTicks, Nat.cast_zero, add_zero]
      rw [setBall_eq_self hb]
    | succ m =>
      have hlt : b.Elapsed + 1 < b.FlightTime := by
        rw [hft]
        push_cast
        omega
      have hstep := flyBallTicks_succ_continue m (flyBallTick_continue hb hlt)
      have hb' : getBall k (ticked j k b).balls = some { b with Elapsed := b.Elapsed + 1 } :=
        getBall_setBall_self _ _ _
      have hft' : ({ b with Elapsed := b.Elapsed + 1 } : Ball).FlightTime =
          ({ b with Elapsed := b.Elapsed + 1 } : Ball).Elapsed + n + 1 := by
        show b.FlightTime = b.Elapsed + 1 + n + 1
        rw [hft]
        push_cast
        ring
      obtain ⟨h1, h2⟩ := ih (ticked j k b) _ hb' hft' m
      constructor
      · intro hm
        rw [hstep, h1 (by omega)]
        simp only [ticked, setBall_setBall, Nat.cast_succ, add_assoc, add_comm (1 : Int)]
      · intro hm
        rw [hstep, h2 (by omega)]
        simp only [ticked, caught, setBall_setBall]

theorem ThrowBall_spawned {j : Juggler} {now : Int} {r : Fin 6} {res : ThrowResult} {id : Int}
    (h : ThrowBall j now r = some res) (hid : res.spawned = some id) :
    ∃ rest ball, j.ballsInHand = id :: rest ∧ getBall id j.balls = some ball ∧
      res = { j := thrown j id rest ball now r, ok := true, spawned := some id } := by
  cases hh : j.ballsInHand with
  | nil =>
    rw [ThrowBall_nil now r hh] at h
    cases h
    cases hid
  | cons id' rest =>
    cases hb : getBall id' j.balls with
    | none => simp [ThrowBall, hh, hb] at h
    | some ball =>
      rw [ThrowBall_cons hh hb] at h
      cases h
      cases hid
      exact ⟨rest, ball, rfl, hb, rfl⟩

/-- C7: a ball thrown by `ThrowBall` gets a flight duration `d` with
`5 ≤ d ≤ 10` and `Elapsed = 0`.  After `k < d` ticks of its own timer the task
is still running and the ball is in flight with `Elapsed = k`; every run of
`d` ticks or more stops at the `d`-th tick, the task has returned and the ball
is in hand with status `in_hand` and `Elapsed = 0`.  In particular, after
`Reset(1, 2)` and one `ThrowBall`, ten ticks always end with `inHand = 1`,
`inAir = 0` and the single ball record in hand with `Elapsed = 0`. -/
theorem C7_flight_duration (j : Juggler) (now : Int) (r : Fin 6) (res : ThrowResult) (id : Int)
    (hthrow : ThrowBall j now r = some res) (hid : res.spawned = some id) :
    (∃ d : Nat, 5 ≤ d ∧ d ≤ 10 ∧
      (∃ b, getBall id res.j.balls = some b ∧ b.FlightTime = d ∧ b.Elapsed = 0) ∧
      (∀ k : Nat, k < d → ∃ jk b, flyBallTicks k res.j id = some (jk, false) ∧
        getBall id jk.balls = some b ∧ b.Status = "in_flight" ∧ b.Elapsed = k ∧
        jk.ballsInHand = res.j.ballsInHand ∧ jk.ballsInAir = res.j.ballsInAir ∧
        id ∈ jk.ballsInAir) ∧
      (∀ m : Nat, d ≤ m → ∃ jd b, flyBallTicks m res.j id = some (jd, true) ∧
        getBall id jd.balls = some b ∧ b.Status = "in_hand" ∧ b.Elapsed = 0 ∧
        jd.ballsInHand = res.j.ballsInHand ++ [id] ∧
        jd.ballsInAir = res.j.ballsInAir.erase id)) ∧
    (∀ (j₀ : Juggler) (now₀ now₁ : Int) (r₁ : Fin 6),
      ∃ res₁ jd b, ThrowBall (Reset j₀ 1 2 now₀) now₁ r₁ = some res₁ ∧ res₁.ok = true ∧
        flyBallTicks 10 res₁.j 1 = some (jd, true) ∧ GetStats jd = (1, 0, [b]) ∧
        b.Status = "in_hand" ∧ b.Elapsed = 0) := by
  constructor
  · obtain ⟨rest, ball, hh, hb, rfl⟩ := ThrowBall_spawned hthrow hid
    have hr : r.val < 6 := r.isLt
    have hget : getBall id (thrown j id rest ball now r).balls =
        some (thrownBall ball now r) := getBall_setBall_self _ _ _
    have hft : (thrownBall ball now r).FlightTime =
        (thrownBall ball now r).Elapsed + ((r.val + 4 : Nat) : Int) + 1 := by
      show (r.val : Int) + 5 = 0 + ((r.val + 4 : Nat) : Int) + 1
      push_cast
      ring
    refine ⟨r.val + 5, by omega, by omega, ⟨_, hget, ?_, rfl⟩, ?_, ?_⟩
    · show (r.val : Int) + 5 = ((r.val + 5 : Nat) : Int)
      push_cast
      ring
    · intro k hk
      have h := (flyBallTicks_spec id (r.val + 4) _ _ hget hft k).1 (by omega)
      refine ⟨_, _, h, getBall_setBall_self _ _ _, rfl, ?_, rfl, rfl, ?_⟩
      · show (0 : Int) + (k : Int) = k
        ring
      · show id ∈ j.ballsInAir ++ [id]
        simp
    · intro m hm
      have h := (flyBallTicks_spec id (r.val + 4) _ _ hget hft m).2 (by omega)
      exact ⟨_, _, h, getBall_setBall_self _ _ _, rfl, rfl, rfl, removeFirst_eq_erase _ _⟩
  · intro j₀ now₀ now₁ r₁
    have hr : r₁.val < 6 := r₁.isLt
    have hh : (Reset j₀ 1 2 now₀).ballsInHand = [1] := by
      rw [Reset_eq]
      rfl
    have hb : getBall 1 (Reset j₀ 1 2 now₀).balls = some (newBall 1) := by
      rw [Reset_eq]
      rfl
    have hbs : (Reset j₀ 1 2 now₀).balls = [(1, newBall 1)] := by
      rw [Reset_eq]
      rfl
    have hair : (Reset j₀ 1 2 now₀).ballsInAir = [] := by
      rw [Reset_eq]
    have hget : getBall 1 (thrown (Reset j₀ 1 2 now₀) 1 [] (newBall 1) now₁ r₁).balls =
        some (thrownBall (newBall 1) now₁ r₁) := getBall_setBall_self _ _ _
    have hft : (thrownBall (newBall 1) now₁ r₁).FlightTime =
        (thrownBall (newBall 1) now₁ r₁).Elapsed + ((r₁.val + 4 : Nat) : Int) + 1 := by
      show (r₁.val : Int) + 5 = 0 + ((r₁.val + 4 : Nat) : Int) + 1
      push_cast
      ring
    have h := (flyBallTicks_spec 1 (r₁.val + 4) _ _ hget hft 10).2 (by omega)
    refine ⟨_, _, { thrownBall (newBall 1) now₁ r₁ with Status := "in_hand", Elapsed := 0 },
      ThrowBall_cons hh hb, rfl, h, ?_, rfl, rfl⟩
    simp [GetStats, caught, thrown, hbs, hair, setBall, removeFirst]

/-- Witness for C7: the first throw after `Reset(1, 2)`, with draw 2. -/
theorem C7_flight_duration_witness :
    ThrowBall (Reset (NewJuggler 1 2 0) 1 2 0) 0 2 =
        some
          { j := thrown (Reset (NewJuggler 1 2 0) 1 2 0) 1 [] (newBall 1) 0 2
            ok := true
            spawned := some 1 } ∧
      ∃ d : Nat, 5 ≤ d ∧ d ≤ 10 ∧
        (∀ m : Nat, d ≤ m → ∃ jd b,
          flyBallTicks m (thrown (Reset (NewJuggler 1 2 0) 1 2 0) 1 [] (newBall 1) 0 2) 1 =
            some (jd, true) ∧
          getBall 1 jd.balls = some b ∧ b.Status = "in_hand" ∧ b.Elapsed = 0) := by
  refine ⟨by decide, ?_⟩
  obtain ⟨d, h5, h10, _, _, hd⟩ :=
    (C7_flight_duration (Reset (NewJuggler 1 2 0) 1 2 0) 0 2
      { j := thrown (Reset (NewJuggler 1 2 0) 1 2 0) 1 [] (newBall 1) 0 2
        ok := true
        spawned := some 1 } 1 (by decide) rfl).1
  refine ⟨d, h5, h10, fun m hm => ?_⟩
  obtain ⟨jd, b, h1, h2, h3, h4, _, _⟩ := hd m hm
  exact ⟨jd, b, h1, h2, h3, h4⟩

/-! ## The invariant of one generation -/

theorem GenInv.nodup {w : World} (h : GenInv w) :
    (w.j.ballsInHand ++ w.j.ballsInAir).Nodup :=
  h.queues.nodup_iff.2 h.keysNodup

theorem GenInv_fresh (j : Juggler) (n t now : Int) : GenInv (freshWorld j n t now) := by
  refine ⟨?_, ?_, ?_, ?_, ?_, ?_⟩
  · show (keys (Reset j n t now).balls).Nodup
    rw [keys_Reset]
    exact nodup_freshIds _ _
  · show ((Reset j n t now).ballsInHand ++ (Reset j n t now).ballsInAir).Perm
      (keys (Reset j n t now).balls)
    rw [keys_Reset, Reset_eq]
    simp
  · show List.Perm [] (Reset j n t now).ballsInAir
    rw [Reset_eq]
  · show (keys (Reset j n t now).balls).length = (Reset j n t now).totalBalls.toNat
    rw [keys_Reset, Reset_eq, length_freshIds]
  · intro k _ b hb
    have hb' : getBall k (Reset j n t now).balls = some b := hb
    rw [getBall_Reset hb']
    exact ⟨rfl, rfl⟩
  · intro k hk
    have hk' : k ∈ (Reset j n t now).ballsInAir := hk
    rw [Reset_eq] at hk'
    simp at hk'

theorem GenInv_throw {w : World} (h : GenInv w) {id : Int} {rest : List Int} {ball : Ball}
    (now : Int) (r : Fin 6) (hh : w.j.ballsInHand = id :: rest)
    (hb : getBall id w.j.balls = some ball) :
    GenInv { j := thrown w.j id rest ball now r, timers := w.timers ++ [id] } := by
  have hnd := h.nodup
  rw [hh] at hnd
  have hnd' : id ∉ rest ++ w.j.ballsInAir ∧ (rest ++ w.j.ballsInAir).Nodup := by
    simpa using hnd
  have hidr : id ∉ rest := fun hm => hnd'.1 (List.mem_append_left _ hm)
  have hida : id ∉ w.j.ballsInAir := fun hm => hnd'.1 (List.mem_append_right _ hm)
  have hidk : id ∈ keys w.j.balls := mem_keys_of_getBall hb
  have hkeys : keys (setBall id (thrownBall ball now r) w.j.balls) = keys w.j.balls :=
    keys_setBall_of_mem _ hidk
  have hq := h.queues
  rw [hh] at hq
  refine ⟨?_, ?_, ?_, ?_, ?_, ?_⟩
  · show (keys (setBall id (thrownBall ball now r) w.j.balls)).Nodup
    rw [hkeys]
    exact h.keysNodup
  · show (rest ++ (w.j.ballsInAir ++ [id])).Perm
      (keys (setBall id (thrownBall ball now r) w.j.balls))
    rw [hkeys, ← List.append_assoc]
    exact (List.perm_append_singleton id _).trans hq
  · show (w.timers ++ [id]).Perm (w.j.ballsInAir ++ [id])
    exact List.Perm.append_right [id] h.tasks
  · show (keys (setBall id (thrownBall ball now r) w.j.balls)).length = w.j.totalBalls.toNat
    rw [hkeys]
    exact h.total
  · intro k hk b hkb
    have hk' : k ∈ rest := hk
    have hne : k ≠ id := fun e => hidr (e ▸ hk')
    have hkb' : getBall k (setBall id (thrownBall ball now r) w.j.balls) = some b := hkb
    rw [getBall_setBall_ne hne] at hkb'
    exact h.hand k (by rw [hh]; exact List.mem_cons_of_mem _ hk') b hkb'
  · intro k hk b hkb
    have hk' : k ∈ w.j.ballsInAir ++ [id] := hk
    have hkb' : getBall k (setBall id (thrownBall ball now r) w.j.balls) = some b := hkb
    by_cases hne : k = id
    · subst hne
      rw [getBall_setBall_self] at hkb'
      cases hkb'
      have hr : (r.val : Int) < 6 := by exact_mod_cast r.isLt
      have hr0 : (0 : Int) ≤ (r.val : Int) := Int.natCast_nonneg _
      refine ⟨rfl, le_refl _, ?_, ?_, ?_⟩
      · show (0 : Int) < (r.val : Int) + 5
        omega
      · show (5 : Int) ≤ (r.val : Int) + 5
        omega
      · show (r.val : Int) + 5 ≤ 10
        omega
    · rw [getBall_setBall_ne hne] at hkb'
      have hka : k ∈ w.j.ballsInAir := by
        rcases List.mem_append.1 hk' with hm | hm
        · exact hm
        · exact absurd (List.mem_singleton.1 hm) hne
      exact h.air k hka b hkb'

theorem GenInv_ticked {w : World} (h : GenInv w) {k : Int} {b : Ball}
    (hk : k ∈ w.j.ballsInAir) (hb : getBall k w.j.balls = some b)
    (hlt : b.Elapsed + 1 < b.FlightTime) :
    GenInv { j := ticked w.j k b, timers := w.timers } := by
  have hnd := h.nodup
  have hkk : k ∈ keys w.j.balls := mem_keys_of_getBall hb
  have hkeys : keys (setBall k { b with Elapsed := b.Elapsed + 1 } w.j.balls) = keys w.j.balls :=
    keys_setBall_of_mem _ hkk
  have hkh : k ∉ w.j.ballsInHand := fun hm =>
    (List.disjoint_of_nodup_append hnd) hm hk
  refine ⟨?_, ?_, h.tasks, ?_, ?_, ?_⟩
  · show (keys (setBall k { b with Elapsed := b.Elapsed + 1 } w.j.balls)).Nodup
    rw [hkeys]
    exact h.keysNodup
  · show (w.j.ballsInHand ++ w.j.ballsInAir).Perm
      (keys (setBall k { b with Elapsed := b.Elapsed + 1 } w.j.balls))
    rw [hkeys]
    exact h.queues
  · show (keys (setBall k { b with Elapsed := b.Elapsed + 1 } w.j.balls)).length =
      w.j.totalBalls.toNat
    rw [hkeys]
    exact h.total
  · intro k' hk' b' hb'
    have hk'' : k' ∈ w.j.ballsInHand := hk'
    have hne : k' ≠ k := fun e => hkh (e ▸ hk'')
    have hb'' : getBall k' (setBall k { b with Elapsed := b.Elapsed + 1 } w.j.balls) = some b' :=
      hb'
    rw [getBall_setBall_ne hne] at hb''
    exact h.hand k' hk'' b' hb''
  · intro k' hk' b' hb'
    have hk'' : k' ∈ w.j.ballsInAir := hk'
    have hb'' : getBall k' (setBall k { b with Elapsed := b.Elapsed + 1 } w.j.balls) = some b' :=
      hb'
    by_cases hne : k' = k
    · subst hne
      rw [getBall_setBall_self] at hb''
      cases hb''
      obtain ⟨h1, h2, _, h4, h5⟩ := h.air k' hk b hb
      refine ⟨h1, ?_, hlt, h4, h5⟩
      show 0 ≤ b.Elapsed + 1
      omega
    · rw [getBall_setBall_ne hne] at hb''
      exact h.air k' hk'' b' hb''

theorem GenInv_caught {w : World} (h : GenInv w) {k : Int} {b : Ball}
    (hk : k ∈ w.j.ballsInAir) (hb : getBall k w.j.balls = some b) :
    GenInv { j := caught w.j k b, timers := w.timers.erase k } := by
  have hnd := h.nodup
  have hkk : k ∈ keys w.j.balls := mem_keys_of_getBall hb
  have hkeys : keys (setBall k { b with Status := "in_hand", Elapsed := 0 } w.j.balls) =
      keys w.j.balls := keys_setBall_of_mem _ hkk
  have hkh : k ∉ w.j.ballsInHand := fun hm =>
    (List.disjoint_of_nodup_append hnd) hm hk
  have hair : w.j.ballsInAir.Nodup := (List.nodup_append.1 hnd).2.1
  refine ⟨?_, ?_, ?_, ?_, ?_, ?_⟩
  · show (keys (setBall k { b with Status := "in_hand", Elapsed := 0 } w.j.balls)).Nodup
    rw [hkeys]
    exact h.keysNodup
  · show ((w.j.ballsInHand ++ [k]) ++ removeFirst k w.j.ballsInAir).Perm
      (keys (setBall k { b with Status := "in_hand", Elapsed := 0 } w.j.balls))
    rw [hkeys, removeFirst_eq_erase, List.append_assoc, List.singleton_append]
    exact (List.Perm.append_left _ (List.perm_cons_erase hk).symm).trans h.queues
  · show (w.timers.erase k).Perm (removeFirst k w.j.ballsInAir)
    rw [removeFirst_eq_erase]
    exact List.Perm.erase k h.tasks
  · show (keys (setBall k { b with Status := "in_hand", Elapsed := 0 } w.j.balls)).length =
      w.j.totalBalls.toNat
    rw [hkeys]
    exact h.total
  · intro k' hk' b' hb'
    have hk'' : k' ∈ w.j.ballsInHand ++ [k] := hk'
    have hb'' : getBall k' (setBall k { b with Status := "in_hand", Elapsed := 0 } w.j.balls) =
        some b' := hb'
    by_cases hne : k' = k
    · subst hne
      rw [getBall_setBall_self] at hb''
      cases hb''
      exact ⟨rfl, rfl⟩
    · rw [getBall_setBall_ne hne] at hb''
      have hkh' : k' ∈ w.j.ballsInHand := by
        rcases List.mem_append.1 hk'' with hm | hm
        · exact hm
        · exact absurd (List.mem_singleton.1 hm) hne
      exact h.hand k' hkh' b' hb''
  · intro k' hk' b' hb'
    have hk'' : k' ∈ removeFirst k w.j.ballsInAir := hk'
    rw [removeFirst_eq_erase, hair.mem_erase_iff] at hk''
    have hb'' : getBall k' (setBall k { b with Status := "in_hand", Elapsed := 0 } w.j.balls) =
        some b' := hb'
    rw [getBall_setBall_ne hk''.1] at hb''
    exact h.air k' hk''.2 b' hb''

theorem GenInv_finished {w : World} (h : GenInv w) (f : Bool) :
    GenInv { j := { w.j with finished := f }, timers := w.timers } :=
  ⟨h.keysNodup, h.queues, h.tasks, h.total, h.hand, h.air⟩

theorem ThrowBall_cases {j : Juggler} {now : Int} {r : Fin 6} {res : ThrowResult}
    (h : ThrowBall j now r = some res) :
    (j.ballsInHand = [] ∧ res = { j := j, ok := false, spawned := none }) ∨
      ∃ id rest ball, j.ballsInHand = id :: rest ∧ getBall id j.balls = some ball ∧
        res = { j := thrown j id rest ball now r, ok := true, spawned := some id } := by
  cases hh : j.ballsInHand with
  | nil =>
    rw [ThrowBall_nil now r hh] at h
    cases h
    exact Or.inl ⟨rfl, rfl⟩
  | cons id rest =>
    cases hb : getBall id j.balls with
    | none => simp [ThrowBall, hh, hb] at h
    | some ball =>
      rw [ThrowBall_cons hh hb] at h
      cases h
      exact Or.inr ⟨id, rest, ball, rfl, hb, rfl⟩

theorem flyBallTick_cases {j j' : Juggler} {k : Int} {f : Bool}
    (h : flyBallTick j k = some (j', f)) :
    ∃ b, getBall k j.balls = some b ∧
      ((b.Elapsed + 1 < b.FlightTime ∧ j' = ticked j k b ∧ f = false) ∨
        (b.FlightTime ≤ b.Elapsed + 1 ∧ j' = caught j k b ∧ f = true)) := by
  cases hb : getBall k j.balls with
  | none => simp [flyBallTick, hb] at h
  | some b =>
    refine ⟨b, rfl, ?_⟩
    by_cases hlt : b.Elapsed + 1 < b.FlightTime
    · rw [flyBallTick_continue hb hlt] at h
      cases h
      exact Or.inl ⟨hlt, rfl, rfl⟩
    · have hle : b.FlightTime ≤ b.Elapsed + 1 := not_lt.1 hlt
      rw [flyBallTick_catch hb hle] at h
      cases h
      exact Or.inr ⟨hle, rfl, rfl⟩

/-- Induction over the throw loop of the scheduler: a property of the state and
of the tasks spawned so far that every successful `ThrowBall` keeps holds when
the loop ends. -/
theorem throwLoop_induction (P : Juggler → List Int → Prop)
    (hstep : ∀ (j : Juggler) (sp : List Int) (now : Int) (r : Fin 6) (id : Int)
      (rest : List Int) (ball : Ball), P j sp → j.ballsInHand = id :: rest →
      getBall id j.balls = some ball → P (thrown j id rest ball now r) (sp ++ [id]))
    (clock : Nat → Int) (draw : Nat → Fin 6) :
    ∀ (fuel : Nat) (j : Juggler) (c : Nat) (sp : List Int) (out : Juggler × Nat × List Int),
      P j sp → throwLoop fuel j clock draw c sp = .done out → P out.1 out.2.2 := by
  intro fuel
  induction fuel with
  | zero =>
    intro j c sp out _ h
    simp [throwLoop] at h
  | succ fuel ih =>
    intro j c sp out hP h
    cases hT : ThrowBall j (clock c) (draw c) with
    | none => simp [throwLoop, hT] at h
    | some res =>
      rcases ThrowBall_cases hT with ⟨_, rfl⟩ | ⟨id, rest, ball, hh, hb, rfl⟩
      · simp [throwLoop, hT] at h
        cases h
        exact hP
      · simp only [throwLoop, hT, if_true, Option.toList] at h
        exact ih _ _ _ out (hstep j sp _ _ id rest ball hP hh hb) h

theorem schedulerTick_stop {j : Juggler} {now : Int} (clock : Nat → Int) (draw : Nat → Fin 6)
    (h : (IsFinished j || IsJugglingTimeOver j now) = true) :
    schedulerTick j now clock draw =
      .done { j := SetFinished j, stopped := true, thrownCount := 0, spawned := [] } := by
  simp only [schedulerTick, h, if_true]

theorem schedulerTick_go {j : Juggler} {now : Int} (clock : Nat → Int) (draw : Nat → Fin 6)
    (h : (IsFinished j || IsJugglingTimeOver j now) = false) :
    schedulerTick j now clock draw =
      match throwLoop (j.ballsInHand.length + 1) j clock draw 0 [] with
      | .done (j', thrownCount, spawned) =>
        .done { j := j', stopped := false, thrownCount := thrownCount, spawned := spawned }
      | .panic => .panic
      | .outOfFuel => .outOfFuel := by
  simp only [schedulerTick, h, Bool.false_eq_true, if_false]

theorem genStep_inv {w w' : World} (a : GenAction) (h : GenInv w)
    (hs : genStep w a = some w') : GenInv w' := by
  cases a with
  | throw now r =>
    cases hT : ThrowBall w.j now r with
    | none => simp [genStep, hT] at hs
    | some res =>
      simp only [genStep, hT, Option.some.injEq] at hs
      subst hs
      rcases ThrowBall_cases hT with ⟨_, rfl⟩ | ⟨id, rest, ball, hh, hb, rfl⟩
      · simpa [Option.toList] using h
      · exact GenInv_throw h now r hh hb
  | tick k =>
    by_cases hm : k ∈ w.timers
    · have hk : k ∈ w.j.ballsInAir := h.tasks.subset hm
      cases hF : flyBallTick w.j k with
      | none => simp [genStep, hm, hF] at hs
      | some p =>
        obtain ⟨j', f⟩ := p
        obtain ⟨b, hb, hc | hc⟩ := flyBallTick_cases hF
        · obtain ⟨hlt, rfl, rfl⟩ := hc
          simp only [genStep, hm, if_true, hF, Option.some.injEq] at hs
          subst hs
          exact GenInv_ticked h hk hb hlt
        · obtain ⟨_, rfl, rfl⟩ := hc
          simp only [genStep, hm, if_true, hF, Option.some.injEq] at hs
          subst hs
          exact GenInv_caught h hk hb
    · simp [genStep, hm] at hs
  | sched now clock draw =>
    cases hfin : (IsFinished w.j || IsJugglingTimeOver w.j now) with
    | true =>
      simp only [genStep, schedulerTick_stop _ _ hfin, Option.some.injEq] at hs
      subst hs
      simpa [SetFinished] using GenInv_finished h true
    | false =>
      cases hL : throwLoop (w.j.ballsInHand.length + 1) w.j clock draw 0 [] with
      | done out =>
        obtain ⟨j', c, sp⟩ := out
        simp only [genStep, schedulerTick_go _ _ hfin, hL, Option.some.injEq] at hs
        subst hs
        exact throwLoop_induction
          (fun j sp => GenInv { j := j, timers := w.timers ++ sp })
          (fun j sp now r id rest ball hP hh hb => by
            have := GenInv_throw hP now r hh hb
            simpa [List.append_assoc] using this)
          clock draw _ w.j 0 [] (j', c, sp) (by simpa using h) hL
      | panic => simp [genStep, schedulerTick_go _ _ hfin, hL] at hs
      | outOfFuel => simp [genStep, schedulerTick_go _ _ hfin, hL] at hs
  | stop =>
    simp only [genStep, Option.some.injEq] at hs
    subst hs
    simpa [Stop] using GenInv_finished h true

theorem genRun_inv {w w' : World} (acts : List GenAction) (h : GenInv w)
    (hr : genRun w acts = some w') : GenInv w' := by
  induction acts generalizing w with
  | nil =>
    simp only [genRun, Option.some.injEq] at hr
    exact hr ▸ h
  | cons a acts ih =>
    cases hs : genStep w a with
    | none => simp [genRun, hs] at hr
    | some w₁ =>
      simp only [genRun, hs] at hr
      exact ih (genStep_inv a h hs) hr

theorem genStep_totalBalls {w w' : World} (a : GenAction) (hs : genStep w a = some w') :
    w'.j.totalBalls = w.j.totalBalls := by
  cases a with
  | throw now r =>
    cases hT : ThrowBall w.j now r with
    | none => simp [genStep, hT] at hs
    | some res =>
      simp only [genStep, hT, Option.some.injEq] at hs
      subst hs
      rcases ThrowBall_cases hT with ⟨_, rfl⟩ | ⟨id, rest, ball, _, _, rfl⟩ <;> rfl
  | tick k =>
    by_cases hm : k ∈ w.timers
    · cases hF : flyBallTick w.j k with
      | none => simp [genStep, hm, hF] at hs
      | some p =>
        obtain ⟨j', f⟩ := p
        obtain ⟨b, _, hc | hc⟩ := flyBallTick_cases hF
        · obtain ⟨_, rfl, rfl⟩ := hc
          simp only [genStep, hm, if_true, hF, Option.some.injEq] at hs
          subst hs
          rfl
        · obtain ⟨_, rfl, rfl⟩ := hc
          simp only [genStep, hm, if_true, hF, Option.some.injEq] at hs
          subst hs
          rfl
    · simp [genStep, hm] at hs
  | sched now clock draw =>
    cases hfin : (IsFinished w.j || IsJugglingTimeOver w.j now) with
    | true =>
      simp only [genStep, schedulerTick_stop _ _ hfin, Option.some.injEq] at hs
      subst hs
      rfl
    | false =>
      cases hL : throwLoop (w.j.ballsInHand.length + 1) w.j clock draw 0 [] with
      | done out =>
        obtain ⟨j', c, sp⟩ := out
        simp only [genStep, schedulerTick_go _ _ hfin, hL, Option.some.injEq] at hs
        subst hs
        exact throwLoop_induction (fun j _ => j.totalBalls = w.j.totalBalls)
          (fun j sp now r id rest ball hP _ _ => hP) clock draw _ w.j 0 [] (j', c, sp) rfl hL
      | panic => simp [genStep, schedulerTick_go _ _ hfin, hL] at hs
      | outOfFuel => simp [genStep, schedulerTick_go _ _ hfin, hL] at hs
  | stop =>
    simp only [genStep, Option.some.injEq] at hs
    subst hs
    rfl

theorem genRun_totalBalls {w w' : World} (acts : List GenAction)
    (hr : genRun w acts = some w') : w'.j.totalBalls = w.j.totalBalls := by
  induction acts generalizing w with
  | nil =>
    simp only [genRun, Option.some.injEq] at hr
    rw [← hr]
  | cons a acts ih =>
    cases hs : genStep w a with
    | none => simp [genRun, hs] at hr
    | some w₁ =>
      simp only [genRun, hs] at hr
      rw [ih hr, genStep_totalBalls a hs]

/-- Counting the records of a given status: when the ids in `l` are exactly the
keys whose record has status `s`, the snapshot has `l.length` such records. -/
theorem countP_status (m : List (Int × Ball)) (l : List Int) (s : String)
    (hm : (keys m).Nodup) (hl : l.Nodup) (hsub : ∀ k ∈ l, k ∈ keys m)
    (hiff : ∀ k b, getBall k m = some b → (b.Status = s ↔ k ∈ l)) :
    (m.map Prod.snd).countP (fun b => b.Status == s) = l.length := by
  have hnd : ((m.filter fun p => p.2.Status == s).map Prod.fst).Nodup :=
    hm.sublist (List.Sublist.map _ (List.filter_sublist _))
  have hperm : ((m.filter fun p => p.2.Status == s).map Prod.fst).Perm l := by
    refine (List.perm_ext_iff_of_nodup hnd hl).2 fun k => ?_
    constructor
    · intro hk
      obtain ⟨⟨k', b⟩, hp, rfl⟩ := List.mem_map.1 hk
      obtain ⟨hin, hst⟩ := List.mem_filter.1 hp
      exact (hiff k' b (getBall_of_mem hm hin)).1 (by simpa using hst)
    · intro hk
      obtain ⟨b, hb⟩ := exists_getBall_of_mem_keys (hsub k hk)
      refine List.mem_map.2 ⟨(k, b), List.mem_filter.2 ⟨mem_of_getBall hb, ?_⟩, rfl⟩
      simpa using (hiff k b hb).2 hk
  rw [List.countP_map, List.countP_eq_length_filter, ← hperm.length_eq, List.length_map]
  rfl

/-- C4: conservation.  In every state reached from `Reset(n, t)` with `n ≥ 0`
and no flight task left from before, by any sequence of `ThrowBall` calls,
ticks of the flight tasks spawned by them, scheduler ticks and `Stop`, the two
queue lengths reported by `GetStats` add up to `GetTotalBalls()`, which is
still `n`. -/
theorem C4_conservation (j₀ : Juggler) (n t now : Int) (hn : 0 ≤ n) (acts : List GenAction)
    (w : World) (hrun : genRun (freshWorld j₀ n t now) acts = some w) :
    ((GetStats w.j).1 : Int) + ((GetStats w.j).2.1 : Int) = GetTotalBalls w.j ∧
      GetTotalBalls w.j = n := by
  have hinv := genRun_inv acts (GenInv_fresh j₀ n t now) hrun
  have htot : w.j.totalBalls = n := by
    rw [genRun_totalBalls acts hrun]
    show (Reset j₀ n t now).totalBalls = n
    rw [Reset_eq]
  refine ⟨?_, htot⟩
  have hlen := hinv.queues.length_eq
  rw [hinv.total, htot, List.length_append] at hlen
  show ((w.j.ballsInHand.length : Nat) : Int) + ((w.j.ballsInAir.length : Nat) : Int) =
    w.j.totalBalls
  rw [htot]
  omega

/-- C5: partition.  In every state reached within one generation (`Reset`,
then `ThrowBall` calls, ticks of the flight tasks they spawned, scheduler ticks
and `Stop`) the in-hand and in-air queues have no duplicates, share no id, and
together hold exactly the keys of the ball map; a ball has status `in_hand`
iff its id is in the in-hand queue and `in_flight` iff its id is in the in-air
queue; so the snapshot has `inHand` records with status `in_hand` and `inAir`
records with status `in_flight`. -/
theorem C5_partition (j₀ : Juggler) (n t now : Int) (acts : List GenAction)
    (w : World) (hrun : genRun (freshWorld j₀ n t now) acts = some w) :
    w.j.ballsInHand.Nodup ∧ w.j.ballsInAir.Nodup ∧
      List.Disjoint w.j.ballsInHand w.j.ballsInAir ∧
      (keys w.j.balls).Nodup ∧
      (∀ k, k ∈ keys w.j.balls ↔ (k ∈ w.j.ballsInHand ∨ k ∈ w.j.ballsInAir)) ∧
      (∀ k b, getBall k w.j.balls = some b →
        (b.Status = "in_hand" ↔ k ∈ w.j.ballsInHand) ∧
          (b.Status = "in_flight" ↔ k ∈ w.j.ballsInAir)) ∧
      ((GetStats w.j).2.2).countP (fun b => b.Status == "in_hand") = (GetStats w.j).1 ∧
      ((GetStats w.j).2.2).countP (fun b => b.Status == "in_flight") = (GetStats w.j).2.1 := by
  have hinv := genRun_inv acts (GenInv_fresh j₀ n t now) hrun
  have hnd := hinv.nodup
  obtain ⟨hh, ha, hdis⟩ := List.nodup_append.1 hnd
  have hmem : ∀ k, k ∈ keys w.j.balls ↔ (k ∈ w.j.ballsInHand ∨ k ∈ w.j.ballsInAir) := fun k => by
    rw [← hinv.queues.mem_iff, List.mem_append]
  have hst : ∀ k b, getBall k w.j.balls = some b →
      (b.Status = "in_hand" ↔ k ∈ w.j.ballsInHand) ∧
        (b.Status = "in_flight" ↔ k ∈ w.j.ballsInAir) := by
    intro k b hb
    rcases (hmem k).1 (mem_keys_of_getBall hb) with hk | hk
    · have h1 := (hinv.hand k hk b hb).1
      refine ⟨⟨fun _ => hk, fun _ => h1⟩, ⟨fun h2 => ?_, fun hk' => absurd hk' (fun hk' => hdis hk hk')⟩⟩
      rw [h1] at h2
      exact absurd h2 (by decide)
    · have h1 := (hinv.air k hk b hb).1
      refine ⟨⟨fun h2 => ?_, fun hk' => absurd hk (fun hk => hdis hk' hk)⟩, ⟨fun _ => hk, fun _ => h1⟩⟩
      rw [h1] at h2
      exact absurd h2 (by decide)
  refine ⟨hh, ha, hdis, hinv.keysNodup, hmem, hst, ?_, ?_⟩
  · exact countP_status _ _ _ hinv.keysNodup hh (fun k hk => (hmem k).2 (Or.inl hk))
      (fun k b hb => (hst k b hb).1)
  · exact countP_status _ _ _ hinv.keysNodup ha (fun k hk => (hmem k).2 (Or.inr hk))
      (fun k b hb => (hst k b hb).2)

theorem demoRun_eq : genRun (freshWorld (NewJuggler 3 2 0) 3 2 0) demoRun = some demoWorld := by
  decide

/-- Witness for C4: the state at the end of `demoRun`. -/
theorem C4_conservation_witness :
    (0 : Int) ≤ 3 ∧ genRun (freshWorld (NewJuggler 3 2 0) 3 2 0) demoRun = some demoWorld ∧
      ((GetStats demoWorld.j).1 : Int) + ((GetStats demoWorld.j).2.1 : Int) =
        GetTotalBalls demoWorld.j ∧
      GetTotalBalls demoWorld.j = 3 :=
  ⟨by decide, demoRun_eq,
    C4_conservation (NewJuggler 3 2 0) 3 2 0 (by decide) demoRun demoWorld demoRun_eq⟩

/-- Witness for C5: the state at the end of `demoRun`. -/
theorem C5_partition_witness :
    genRun (freshWorld (NewJuggler 3 2 0) 3 2 0) demoRun = some demoWorld ∧
      ((GetStats demoWorld.j).2.2).countP (fun b => b.Status == "in_hand") =
        (GetStats demoWorld.j).1 ∧
      ((GetStats demoWorld.j).2.2).countP (fun b => b.Status == "in_flight") =
        (GetStats demoWorld.j).2.1 :=
  ⟨demoRun_eq,
    (C5_partition (NewJuggler 3 2 0) 3 2 0 demoRun demoWorld demoRun_eq).2.2.2.2.2.2⟩

/-! ## Flight tasks that outlive a `Reset` -/

theorem orphanWorld_eq :
    run { j := NewJuggler 0 0 0, timers := [] }
      [.reset 1 1 0, .gen (.throw 0 0), .reset 1 1 0] = some orphanWorld := by
  decide

/-- C9, evaluated on the code: after `Reset(1, 1)`, `ThrowBall` and a second
`Reset(1, 1)`, the flight task of the first generation is still alive; its
next tick finds the new ball 1, which has `FlightTime = 0`, and catches it:
`GetStats` reports `inHand = 1` before the tick and `inHand = 2` after it, the
in-hand queue going from `[1]` to `[1, 1]`. -/
theorem C9_orphan_tick_changes_stats :
    (1 : Int) ∈ orphanWorld.timers ∧
      GetStats orphanWorld.j = (1, 0, [newBall 1]) ∧
      orphanWorld.j.ballsInHand = [1] ∧
      ∃ w', step orphanWorld (.gen (.tick 1)) = some w' ∧
        GetStats w'.j = (2, 0, [newBall 1]) ∧ w'.j.ballsInHand = [1, 1] ∧ w'.timers = [] := by
  refine ⟨by decide, by decide, by decide, ?_⟩
  refine ⟨{ j := { orphanWorld.j with ballsInHand := [1, 1] }, timers := [] }, ?_, ?_, ?_, ?_⟩ <;>
    decide

theorem strandedWorld_eq :
    run { j := NewJuggler 0 0 0, timers := [] }
      [.reset 2 1 0, .gen (.throw 0 0), .gen (.throw 0 0), .reset 1 1 0] =
        some strandedWorld := by
  decide

/-- C10, evaluated on the code: after `Reset(2, 1)`, two `ThrowBall` calls and
`Reset(1, 1)`, the flight task of the old ball 2 is still alive while the ball
map has the single key 1; the lookup `j.balls[2]` of its next tick finds no
ball and the tick ends in the nil dereference. -/
theorem C10_orphan_tick_nil_dereference :
    (2 : Int) ∈ strandedWorld.timers ∧
      keys strandedWorld.j.balls = [1] ∧
      getBall 2 strandedWorld.j.balls = none ∧
      flyBallTick strandedWorld.j 2 = none ∧
      step strandedWorld (.gen (.tick 2)) = none := by
  refine ⟨?_, ?_, ?_, ?_, ?_⟩ <;> decide

/-! ## The in-hand queue names balls of the map in every state the program reaches -/

theorem HandKnown_thrown {j : Juggler} (h : HandKnown j) {id : Int} {rest : List Int}
    {ball : Ball} (now : Int) (r : Fin 6) (hh : j.ballsInHand = id :: rest)
    (hb : getBall id j.balls = some ball) : HandKnown (thrown j id rest ball now r) := by
  intro k hk
  have hk' : k ∈ rest := hk
  show k ∈ keys (setBall id (thrownBall ball now r) j.balls)
  rw [keys_setBall_of_mem _ (mem_keys_of_getBall hb)]
  exact h k (by rw [hh]; exact List.mem_cons_of_mem _ hk')

theorem HandKnown_Reset (j : Juggler) (n t now : Int) : HandKnown (Reset j n t now) := by
  intro k hk
  rw [keys_Reset]
  rw [Reset_eq] at hk
  exact hk

theorem HandKnown_NewJuggler (n t now : Int) : HandKnown (NewJuggler n t now) := by
  unfold NewJuggler
  by_cases hn : n > 0
  · simp only [hn, if_true]
    rw [addBalls_eq _ _ (by intro k hk; simp [keys] at hk)]
    intro k hk
    simpa [keys, Function.comp_def] using hk
  · simp only [hn, if_false]
    intro k hk
    simp at hk

theorem step_handKnown {w w' : World} (a : Action) (h : HandKnown w.j)
    (hs : step w a = some w') : HandKnown w'.j := by
  cases a with
  | reset n t now =>
    simp only [step, Option.some.injEq] at hs
    subst hs
    exact HandKnown_Reset w.j n t now
  | gen a =>
    cases a with
    | throw now r =>
      cases hT : ThrowBall w.j now r with
      | none => simp [step, genStep, hT] at hs
      | some res =>
        simp only [step, genStep, hT, Option.some.injEq] at hs
        subst hs
        rcases ThrowBall_cases hT with ⟨_, rfl⟩ | ⟨id, rest, ball, hh, hb, rfl⟩
        · exact h
        · exact HandKnown_thrown h now r hh hb
    | tick k =>
      by_cases hm : k ∈ w.timers
      · cases hF : flyBallTick w.j k with
        | none => simp [step, genStep, hm, hF] at hs
        | some p =>
          obtain ⟨j', f⟩ := p
          obtain ⟨b, hb, hc | hc⟩ := flyBallTick_cases hF
          · obtain ⟨_, rfl, rfl⟩ := hc
            simp only [step, genStep, hm, if_true, hF, Option.some.injEq] at hs
            subst hs
            intro k' hk'
            show k' ∈ keys (setBall k { b with Elapsed := b.Elapsed + 1 } w.j.balls)
            rw [keys_setBall_of_mem _ (mem_keys_of_getBall hb)]
            exact h k' hk'
          · obtain ⟨_, rfl, rfl⟩ := hc
            simp only [step, genStep, hm, if_true, hF, Option.some.injEq] at hs
            subst hs
            intro k' hk'
            have hk'' : k' ∈ w.j.ballsInHand ++ [k] := hk'
            show k' ∈ keys (setBall k { b with Status := "in_hand", Elapsed := 0 } w.j.balls)
            rw [keys_setBall_of_mem _ (mem_keys_of_getBall hb)]
            rcases List.mem_append.1 hk'' with hm' | hm'
            · exact h k' hm'
            · rw [List.mem_singleton.1 hm']
              exact mem_keys_of_getBall hb
      · simp [step, genStep, hm] at hs
    | sched now clock draw =>
      cases hfin : (IsFinished w.j || IsJugglingTimeOver w.j now) with
      | true =>
        simp only [step, genStep, schedulerTick_stop _ _ hfin, Option.some.injEq] at hs
        subst hs
        exact h
      | false =>
        cases hL : throwLoop (w.j.ballsInHand.length + 1) w.j clock draw 0 [] with
        | done out =>
          obtain ⟨j', c, sp⟩ := out
          simp only [step, genStep, schedulerTick_go _ _ hfin, hL, Option.some.injEq] at hs
          subst hs
          exact throwLoop_induction (fun j _ => HandKnown j)
            (fun j sp now r id rest ball hP hh hb => HandKnown_thrown hP now r hh hb)
            clock draw _ w.j 0 [] (j', c, sp) h hL
        | panic => simp [step, genStep, schedulerTick_go _ _ hfin, hL] at hs
        | outOfFuel => simp [step, genStep, schedulerTick_go _ _ hfin, hL] at hs
    | stop =>
      simp only [step, genStep, Option.some.injEq] at hs
      subst hs
      exact h

/-- Operations of the program, `Reset` and ticks of flight tasks of earlier
generations included, keep the in-hand ids among the keys of the ball map. -/
theorem run_handKnown (acts : List Action) :
    ∀ (w w' : World), HandKnown w.j → run w acts = some w' → HandKnown w'.j := by
  induction acts with
  | nil =>
    intro w w' h hr
    simp only [run, Option.some.injEq] at hr
    exact hr ▸ h
  | cons a acts ih =>
    intro w w' h hr
    cases hs : step w a with
    | none => simp [run, hs] at hr
    | some w₁ =>
      simp only [run, hs] at hr
      exact ih w₁ w' (step_handKnown a h hs) hr

/-- Every state the program reaches from a juggler built by `NewJuggler` has its
in-hand ids among the keys of the ball map. -/
theorem reachable_handKnown (n t now : Int) (acts : List Action) (w : World)
    (hr : run { j := NewJuggler n t now, timers := [] } acts = some w) : HandKnown w.j :=
  run_handKnown acts _ w (HandKnown_NewJuggler n t now) hr

/-! ## The operations of a generation always return -/

/-- The throw loop of the scheduler ends without a nil dereference, and within
the fuel `schedulerTick` gives it, on every state whose in-hand ids are keys of
the ball map. -/
theorem throwLoop_done (clock : Nat → Int) (draw : Nat → Fin 6) :
    ∀ (fuel : Nat) (j : Juggler) (c : Nat) (sp : List Int), HandKnown j →
      j.ballsInHand.length < fuel → ∃ out, throwLoop fuel j clock draw c sp = .done out := by
  intro fuel
  induction fuel with
  | zero =>
    intro j c sp _ hlt
    exact absurd hlt (Nat.not_lt_zero _)
  | succ fuel ih =>
    intro j c sp hk hlt
    cases hh : j.ballsInHand with
    | nil =>
      exact ⟨(j, c, sp), by simp [throwLoop, ThrowBall_nil _ _ hh]⟩
    | cons id rest =>
      obtain ⟨ball, hb⟩ := exists_getBall_of_mem_keys (hk id (by simp [hh]))
      have hlen : (thrown j id rest ball (clock c) (draw c)).ballsInHand.length < fuel := by
        show rest.length < fuel
        rw [hh] at hlt
        simp only [List.length_cons] at hlt
        omega
      obtain ⟨out, hout⟩ :=
        ih (thrown j id rest ball (clock c) (draw c)) (c + 1) (sp ++ [id])
          (HandKnown_thrown hk _ _ hh hb) hlen
      exact ⟨out, by simp only [throwLoop, ThrowBall_cons hh hb, if_true, Option.toList, hout]⟩

/-- A tick of the throw scheduler always returns on a state whose in-hand ids
are keys of the ball map: no nil dereference, and the fuel is enough. -/
theorem schedulerTick_done (j : Juggler) (now : Int) (clock : Nat → Int) (draw : Nat → Fin 6)
    (hk : HandKnown j) : ∃ res, schedulerTick j now clock draw = .done res := by
  cases hfin : (IsFinished j || IsJugglingTimeOver j now) with
  | true => exact ⟨_, schedulerTick_stop clock draw hfin⟩
  | false =>
    obtain ⟨⟨j', c, sp⟩, hout⟩ :=
      throwLoop_done clock draw (j.ballsInHand.length + 1) j 0 [] hk (Nat.lt_succ_self _)
    exact ⟨_, by rw [schedulerTick_go clock draw hfin, hout]⟩

/-- Within one generation no operation fails: every `ThrowBall`, every tick of
a live flight task, every scheduler tick and every `Stop` yields a state. -/
theorem genStep_progress {w : World} (h : GenInv w) (a : GenAction)
    (ha : ∀ k, a = .tick k → k ∈ w.timers) : ∃ w', genStep w a = some w' := by
  have hk : HandKnown w.j := fun k hk =>
    h.queues.subset (List.mem_append_left _ hk)
  cases a with
  | throw now r =>
    cases hh : w.j.ballsInHand with
    | nil =>
      simp only [genStep, ThrowBall_nil _ _ hh]
      exact ⟨_, rfl⟩
    | cons id rest =>
      obtain ⟨ball, hb⟩ := exists_getBall_of_mem_keys (hk id (by simp [hh]))
      simp only [genStep, ThrowBall_cons hh hb]
      exact ⟨_, rfl⟩
  | tick k =>
    have hm : k ∈ w.timers := ha k rfl
    have hkeys : k ∈ keys w.j.balls :=
      h.queues.subset (List.mem_append_right _ (h.tasks.subset hm))
    obtain ⟨b, hb⟩ := exists_getBall_of_mem_keys hkeys
    by_cases hlt : b.Elapsed + 1 < b.FlightTime
    · simp only [genStep, hm, if_true, flyBallTick_continue hb hlt]
      exact ⟨_, rfl⟩
    · simp only [genStep, hm, if_true, flyBallTick_catch hb (not_lt.1 hlt)]
      exact ⟨_, rfl⟩
  | sched now clock draw =>
    obtain ⟨res, hres⟩ := schedulerTick_done w.j now clock draw hk
    simp only [genStep, hres]
    exact ⟨_, rfl⟩
  | stop => exact ⟨_, rfl⟩

/-! ## The start handler -/

theorem HandleStart_not_post {s : Server} {r : Request} (now : Int) (h : r.Method ≠ "POST") :
    HandleStart s r now =
      { resp := { code := 405, status := none, message := "Method not allowed" }
        server := s
        started := false } := by
  simp [HandleStart, MethodPost, StatusMethodNotAllowed, h]

theorem HandleStart_bad_body {s : Server} {r : Request} (now : Int) (h : r.Method = "POST")
    (hb : r.body = none) :
    HandleStart s r now =
      { resp := { code := 400, status := none, message := "Invalid request body" }
        server := s
        started := false } := by
  simp [HandleStart, MethodPost, StatusBadRequest, h, hb]

theorem HandleStart_nonpositive {s : Server} {r : Request} {req : StartRequest} (now : Int)
    (h : r.Method = "POST") (hb : r.body = some req)
    (hv : req.TotalBalls ≤ 0 ∨ req.TimeMinutes ≤ 0) :
    HandleStart s r now =
      { resp := { code := 400, status := none, message := "Balls and time must be positive" }
        server := s
        started := false } := by
  simp [HandleStart, MethodPost, StatusBadRequest, h, hb, hv]

theorem HandleStart_accept {s : Server} {r : Request} {req : StartRequest} (now : Int)
    (h : r.Method = "POST") (hb : r.body = some req)
    (h1 : 0 < req.TotalBalls) (h2 : 0 < req.TimeMinutes) :
    HandleStart s r now =
      { resp :=
          { code := 200
            status := some "started"
            message :=
              "Juggling started with " ++ toString req.TotalBalls ++ " balls for " ++
                toString req.TimeMinutes ++ " minutes" }
        server := { s with juggler := Reset s.juggler req.TotalBalls req.TimeMinutes now }
        started := true } := by
  have hv : ¬ (req.TotalBalls ≤ 0 ∨ req.TimeMinutes ≤ 0) := by
    intro hv
    rcases hv with hv | hv <;> omega
  simp [HandleStart, MethodPost, StatusOK, h, hb, hv]

theorem totalBalls_Reset (j : Juggler) (n t now : Int) : (Reset j n t now).totalBalls = n := by
  rw [Reset_eq]

/-- C11: `HandleStart` answers 200 with status `started` iff the method is POST,
the body decodes and both `total_balls` and `time_minutes` are positive.  A
method other than POST is answered 405; a POST whose body does not decode, or
has `total_balls ≤ 0` or `time_minutes ≤ 0`, is answered 400.  Whenever the
answer is not 200 the server and its juggler are unchanged and `Start` is not
called.  On acceptance the juggler is `Reset(total_balls, time_minutes)` of the
old one, `Start` is called, and `GetTotalBalls()` is `total_balls`. -/
theorem C11_handleStart (s : Server) (r : Request) (now : Int) :
    (((HandleStart s r now).resp.code = 200 ∧
          (HandleStart s r now).resp.status = some "started") ↔
        (r.Method = "POST" ∧
          ∃ req, r.body = some req ∧ 0 < req.TotalBalls ∧ 0 < req.TimeMinutes)) ∧
      (r.Method ≠ "POST" → (HandleStart s r now).resp.code = 405) ∧
      (r.Method = "POST" →
        (r.body = none ∨
          ∃ req, r.body = some req ∧ (req.TotalBalls ≤ 0 ∨ req.TimeMinutes ≤ 0)) →
        (HandleStart s r now).resp.code = 400) ∧
      ((HandleStart s r now).resp.code ≠ 200 →
        (HandleStart s r now).server = s ∧ (HandleStart s r now).started = false) ∧
      (∀ req, r.Method = "POST" → r.body = some req → 0 < req.TotalBalls →
        0 < req.TimeMinutes →
        (HandleStart s r now).server.juggler =
            Reset s.juggler req.TotalBalls req.TimeMinutes now ∧
          (HandleStart s r now).started = true ∧
          GetTotalBalls (HandleStart s r now).server.juggler = req.TotalBalls) := by
  by_cases hm : r.Method = "POST"
  · cases hb : r.body with
    | none =>
      rw [HandleStart_bad_body now hm hb]
      refine ⟨⟨fun h => absurd h.1 (show ¬ (400 : Nat) = 200 by decide), fun h => ?_⟩, fun h => absurd hm h,
        fun _ _ => rfl, fun _ => ⟨rfl, rfl⟩, fun req _ h => by cases h⟩
      obtain ⟨_, req, h, _⟩ := h
      cases h
    | some req =>
      by_cases hv : req.TotalBalls ≤ 0 ∨ req.TimeMinutes ≤ 0
      · rw [HandleStart_nonpositive now hm hb hv]
        refine ⟨⟨fun h => absurd h.1 (show ¬ (400 : Nat) = 200 by decide), fun h => ?_⟩,
          fun h => absurd hm h, fun _ _ => rfl, fun _ => ⟨rfl, rfl⟩, fun req' _ h h1 h2 => ?_⟩
        · obtain ⟨_, req', h, h1, h2⟩ := h
          cases h
          rcases hv with hv | hv <;> omega
        · cases h
          rcases hv with hv | hv <;> omega
      · have h1 : 0 < req.TotalBalls := by
          by_contra hc
          exact hv (Or.inl (not_lt.1 hc))
        have h2 : 0 < req.TimeMinutes := by
          by_contra hc
          exact hv (Or.inr (not_lt.1 hc))
        rw [HandleStart_accept now hm hb h1 h2]
        refine ⟨⟨fun _ => ⟨hm, req, rfl, h1, h2⟩, fun _ => ⟨rfl, rfl⟩⟩, fun h => absurd hm h,
          fun _ h => ?_, fun h => absurd rfl h, fun req' _ h _ _ => ?_⟩
        · rcases h with h | ⟨req', h, hv'⟩
          · cases h
          · cases h
            exact absurd hv' hv
        · cases h
          exact ⟨rfl, rfl, totalBalls_Reset s.juggler _ _ now⟩
  · rw [HandleStart_not_post now hm]
    exact ⟨⟨fun h => absurd h.1 (show ¬ (405 : Nat) = 200 by decide), fun h => absurd h.1 hm⟩, fun _ => rfl,
      fun h => absurd h hm, fun _ => ⟨rfl, rfl⟩, fun req h => absurd h hm⟩

/-! ## Running, finished, time over -/

/-- C12: for every state and every clock value `now`, `IsRunning()` is true iff
the finished flag is false and `now - startTime < jugglingTime`; as a boolean
it is `(not IsFinished()) and (not IsJugglingTimeOver())` at the same instant. -/
theorem C12_isRunning (j : Juggler) (now : Int) :
    (IsRunning j now = true ↔ (j.finished = false ∧ now - j.startTime < j.jugglingTime)) ∧
      IsRunning j now = (!IsFinished j && !IsJugglingTimeOver j now) := by
  constructor
  · simp [IsRunning, since]
  · by_cases h : now - j.startTime < j.jugglingTime
    · cases hf : j.finished <;>
        simp [IsRunning, IsFinished, IsJugglingTimeOver, since, hf, h, not_le.2 h]
    · cases hf : j.finished <;>
        simp [IsRunning, IsFinished, IsJugglingTimeOver, since, hf, h, not_lt.1 h]

theorem minutesToDuration_zero : minutesToDuration 0 = 0 := by
  decide

/-- C13: for every `n`, after `Reset(n, 0)` at clock value `now` the generation is
expired at every instant `now₁ ≥ now`: `IsJugglingTimeOver()` is true and
`IsRunning()` is false. -/
theorem C13_reset_zero_duration (j : Juggler) (n now now₁ : Int) (h : now ≤ now₁) :
    IsJugglingTimeOver (Reset j n 0 now) now₁ = true ∧
      IsRunning (Reset j n 0 now) now₁ = false := by
  rw [Reset_eq]
  simp only [IsJugglingTimeOver, IsRunning, since, minutesToDuration_zero]
  constructor
  · simp only [decide_eq_true_eq]
    omega
  · have : ¬ now₁ - now < 0 := by omega
    simp [this]

/-- Witness for C13: `Reset(3, 0)` at clock value 5, read at clock value 9. -/
theorem C13_reset_zero_duration_witness :
    (5 : Int) ≤ 9 ∧
      IsJugglingTimeOver (Reset (NewJuggler 3 0 0) 3 0 5) 9 = true ∧
      IsRunning (Reset (NewJuggler 3 0 0) 3 0 5) 9 = false :=
  ⟨by decide, C13_reset_zero_duration (NewJuggler 3 0 0) 3 5 9 (by decide)⟩

theorem wrap64_of_fits {x : Int} (h1 : -9223372036854775808 ≤ x) (h2 : x ≤ 9223372036854775807) :
    wrap64 x = x := by
  unfold wrap64
  norm_num
  omega

/-- C14 as stated fails on the code: for `t = 153722868` minutes the product
`t * time.Minute` leaves the `int64` range and wraps to a negative duration, so
right after `Reset(3, t)` the time is already over and the juggler is not
running. -/
theorem C14_overflow_counterexample :
    (0 : Int) < 153722868 ∧
      GetJugglingTime (Reset (NewJuggler 0 0 0) 3 153722868 0) = -9223371993709551616 ∧
      IsJugglingTimeOver (Reset (NewJuggler 0 0 0) 3 153722868 0) 0 = true ∧
      IsRunning (Reset (NewJuggler 0 0 0) 3 153722868 0) 0 = false := by
  refine ⟨by decide, ?_, ?_, ?_⟩ <;> rw [Reset_eq] <;> decide

/-- C14, amended: for every `n` and every duration in minutes `t` with
`0 < t ≤ 153722867`, the largest number of minutes that fits a 64-bit
nanosecond duration, right after `Reset(n, t)` (clock equal to the reset
instant) `IsFinished()` is false, `IsJugglingTimeOver()` is false,
`IsRunning()` is true, and the target duration is `t * 60000000000`
nanoseconds. -/
theorem C14_reset_ready (j : Juggler) (n t now : Int) (h0 : 0 < t) (h1 : t ≤ 153722867) :
    IsFinished (Reset j n t now) = false ∧
      IsJugglingTimeOver (Reset j n t now) now = false ∧
      IsRunning (Reset j n t now) now = true ∧
      GetJugglingTime (Reset j n t now) = t * 60000000000 := by
  have hd : minutesToDuration t = t * 60000000000 := by
    unfold minutesToDuration minute
    exact wrap64_of_fits (by omega) (by omega)
  rw [Reset_eq]
  simp only [IsFinished, IsJugglingTimeOver, IsRunning, GetJugglingTime, since, hd, sub_self]
  have hpos : (0 : Int) < t * 60000000000 := by omega
  have hnot : ¬ (0 : Int) ≥ t * 60000000000 := by omega
  simp [hpos, hnot]

/-- Witness for C14, amended: `Reset(3, 10)` as in `TestJugglerTimeChecks`. -/
theorem C14_reset_ready_witness :
    (0 : Int) < 10 ∧ (10 : Int) ≤ 153722867 ∧
      IsFinished (Reset (NewJuggler 3 0 0) 3 10 4) = false ∧
      IsJugglingTimeOver (Reset (NewJuggler 3 0 0) 3 10 4) 4 = false ∧
      IsRunning (Reset (NewJuggler 3 0 0) 3 10 4) 4 = true ∧
      GetJugglingTime (Reset (NewJuggler 3 0 0) 3 10 4) = 10 * 60000000000 :=
  ⟨by decide, by decide, C14_reset_ready (NewJuggler 3 0 0) 3 10 4 (by decide) (by decide)⟩

/-- The state `NewJuggler` produces, written out. -/
theorem NewJuggler_eq (n t now : Int) :
    NewJuggler n t now =
      { balls := (freshIds 1 n.toNat).map fun k => (k, newBall k)
        ballsInHand := freshIds 1 n.toNat
        ballsInAir := []
        nextBallID := 1 + (n.toNat : Int)
        totalBalls := n
        jugglingTime := minutesToDuration t
        startTime := now
        finished := true } := by
  unfold NewJuggler
  by_cases hn : n > 0
  · simp only [hn, if_true]
    rw [addBalls_eq]
    · simp
    · intro k hk
      simp [keys] at hk
  · have h0 : n.toNat = 0 := Int.toNat_eq_zero.2 (not_lt.1 hn)
    simp [hn, h0, freshIds_zero]

/-- C15: for every `n ≥ 0` and every `t`, `NewJuggler(n, t)` records
`totalBalls = n`, has `n` balls in hand, none in the air and `n` ball records,
all with status `in_hand`, and is created inactive: `IsFinished()` is true and
`IsRunning()` is false at every clock value. -/
theorem C15_newJuggler (n t now : Int) (hn : 0 ≤ n) :
    GetTotalBalls (NewJuggler n t now) = n ∧
      ((GetStats (NewJuggler n t now)).1 : Int) = n ∧
      (GetStats (NewJuggler n t now)).2.1 = 0 ∧
      (((GetStats (NewJuggler n t now)).2.2).length : Int) = n ∧
      (∀ b ∈ (GetStats (NewJuggler n t now)).2.2, b.Status = "in_hand") ∧
      IsFinished (NewJuggler n t now) = true ∧
      ∀ now₁, IsRunning (NewJuggler n t now) now₁ = false := by
  rw [NewJuggler_eq]
  simp only [GetTotalBalls, GetStats, IsFinished, IsRunning, length_freshIds, List.length_map,
    List.length_nil, List.map_map]
  refine ⟨trivial, Int.toNat_of_nonneg hn, trivial, Int.toNat_of_nonneg hn, ?_, trivial, ?_⟩
  · intro b hb
    simp only [List.mem_map, Function.comp] at hb
    obtain ⟨k, _, rfl⟩ := hb
    rfl
  · intro now₁
    simp

/-- Witness for C15: `NewJuggler(3, 2)` as in `TestNewJuggler`. -/
theorem C15_newJuggler_witness :
    (0 : Int) ≤ 3 ∧
      GetTotalBalls (NewJuggler 3 2 0) = 3 ∧
      ((GetStats (NewJuggler 3 2 0)).1 : Int) = 3 ∧
      (GetStats (NewJuggler 3 2 0)).2.1 = 0 ∧
      (((GetStats (NewJuggler 3 2 0)).2.2).length : Int) = 3 ∧
      (∀ b ∈ (GetStats (NewJuggler 3 2 0)).2.2, b.Status = "in_hand") ∧
      IsFinished (NewJuggler 3 2 0) = true ∧
      ∀ now₁, IsRunning (NewJuggler 3 2 0) now₁ = false :=
  ⟨by decide, C15_newJuggler 3 2 0 (by decide)⟩

/-! ## Order of throws and of ids -/

/-- C16: `ThrowBall` is FIFO.  On a state whose in-hand queue is `h :: rest`,
ball `h` having a record, the call returns true, the in-hand queue becomes
`rest`, the in-air queue gets `h` appended at its end, the record of `h` gets
status `in_flight`, `Elapsed = 0`, a `FlightTime` of the draw plus 5 and the
current time as `StartTime`, exactly one flight task, for `h`, is spawned, and
the key set and the record of every other ball are unchanged. -/
theorem C16_throwBall_fifo (j : Juggler) (timers : List Int) (now : Int) (r : Fin 6)
    (h : Int) (rest : List Int) (ball : Ball)
    (hh : j.ballsInHand = h :: rest) (hb : getBall h j.balls = some ball) :
    ∃ res, ThrowBall j now r = some res ∧ res.ok = true ∧
      res.j.ballsInHand = rest ∧
      res.j.ballsInAir = j.ballsInAir ++ [h] ∧
      getBall h res.j.balls =
        some { ball with
          Status := "in_flight", FlightTime := (r.val : Int) + 5, Elapsed := 0, StartTime := now } ∧
      res.spawned = some h ∧
      genStep { j := j, timers := timers } (.throw now r) =
        some { j := res.j, timers := timers ++ [h] } ∧
      keys res.j.balls = keys j.balls ∧
      ∀ k, k ≠ h → getBall k res.j.balls = getBall k j.balls := by
  refine ⟨_, ThrowBall_cons hh hb, rfl, rfl, rfl, getBall_setBall_self _ _ _, rfl, ?_,
    keys_setBall_of_mem _ (mem_keys_of_getBall hb), fun k hk => getBall_setBall_ne hk _ _⟩
  simp only [genStep, ThrowBall_cons hh hb, Option.toList]

/-- Witness for C16: the first throw after `Reset(3, 2)`, one flight task
already alive. -/
theorem C16_throwBall_fifo_witness :
    (Reset (NewJuggler 3 2 0) 3 2 0).ballsInHand = 1 :: [2, 3] ∧
      getBall 1 (Reset (NewJuggler 3 2 0) 3 2 0).balls = some (newBall 1) ∧
      ∃ res, ThrowBall (Reset (NewJuggler 3 2 0) 3 2 0) 7 3 = some res ∧ res.ok = true ∧
        res.j.ballsInHand = [2, 3] ∧ res.j.ballsInAir = [1] ∧
        getBall 1 res.j.balls =
          some { ID := 1, Status := "in_flight", FlightTime := 8, Elapsed := 0, StartTime := 7 } ∧
        res.spawned = some 1 ∧
        getBall 2 res.j.balls = some (newBall 2) := by
  refine ⟨by decide, by decide, ?_⟩
  obtain ⟨res, h1, h2, h3, h4, h5, h6, _, _, h9⟩ :=
    C16_throwBall_fifo (Reset (NewJuggler 3 2 0) 3 2 0) [9] 7 3 1 [2, 3] (newBall 1)
      (by decide) (by decide)
  refine ⟨res, h1, h2, h3, ?_, ?_, h6, ?_⟩
  · rw [h4]
    decide
  · rw [h5]
    decide
  · rw [h9 2 (by decide)]
    decide

/-- C17: for every `n ≥ 0`, every `t` and every prior state, after `Reset(n, t)`
the keys of the ball map are exactly `1, ..., n`, each once, every ball's `ID`
is its key, the in-hand queue is `[1, 2, ..., n]` in that order, and
`nextBallID = n + 1`. -/
theorem C17_reset_sequential_ids (j : Juggler) (n t now : Int) (hn : 0 ≤ n) :
    (∀ k, k ∈ keys (Reset j n t now).balls ↔ (1 ≤ k ∧ k ≤ n)) ∧
      (keys (Reset j n t now).balls).Nodup ∧
      (∀ k b, getBall k (Reset j n t now).balls = some b → b.ID = k) ∧
      (Reset j n t now).ballsInHand =
        (List.range n.toNat).map (fun (i : Nat) => (i : Int) + 1) ∧
      (Reset j n t now).nextBallID = n + 1 := by
  refine ⟨fun k => ?_, ?_, fun k b hb => ?_, ?_, ?_⟩
  · rw [keys_Reset, mem_freshIds, Int.toNat_of_nonneg hn]
    omega
  · rw [keys_Reset]
    exact nodup_freshIds _ _
  · rw [getBall_Reset hb]
    rfl
  · rw [Reset_eq]
    show freshIds 1 n.toNat = _
    unfold freshIds
    exact List.map_congr_left fun i _ => add_comm _ _
  · rw [Reset_eq]
    show 1 + (n.toNat : Int) = n + 1
    rw [Int.toNat_of_nonneg hn]
    ring

/-- Witness for C17: `Reset(3, 2)` on a juggler that had five balls. -/
theorem C17_reset_sequential_ids_witness :
    (0 : Int) ≤ 3 ∧
      (Reset (NewJuggler 5 1 0) 3 2 0).ballsInHand =
        (List.range (3 : Int).toNat).map (fun (i : Nat) => (i : Int) + 1) ∧
      (Reset (NewJuggler 5 1 0) 3 2 0).nextBallID = 3 + 1 :=
  ⟨by decide,
    (C17_reset_sequential_ids (NewJuggler 5 1 0) 3 2 0 (by decide)).2.2.2.1,
    (C17_reset_sequential_ids (NewJuggler 5 1 0) 3 2 0 (by decide)).2.2.2.2⟩

/-- C18: in every state reached within one generation (`Reset`, then `ThrowBall`
calls, ticks of the flight tasks they spawned, scheduler ticks and `Stop`),
every record of the snapshot with status `in_flight` has
`0 ≤ Elapsed < FlightTime` and `5 ≤ FlightTime ≤ 10`, every record with status
`in_hand` has `Elapsed = 0`, and every record has one of these two statuses. -/
theorem C18_elapsed_invariant (j₀ : Juggler) (n t now : Int) (acts : List GenAction)
    (w : World) (hrun : genRun (freshWorld j₀ n t now) acts = some w) :
    ∀ b ∈ (GetStats w.j).2.2,
      (b.Status = "in_flight" →
        0 ≤ b.Elapsed ∧ b.Elapsed < b.FlightTime ∧ 5 ≤ b.FlightTime ∧ b.FlightTime ≤ 10) ∧
      (b.Status = "in_hand" → b.Elapsed = 0) ∧
      (b.Status = "in_hand" ∨ b.Status = "in_flight") := by
  have hinv := genRun_inv acts (GenInv_fresh j₀ n t now) hrun
  intro b hb
  obtain ⟨⟨k, b'⟩, hmem, rfl⟩ := List.mem_map.1 hb
  have hget : getBall k w.j.balls = some b' := getBall_of_mem hinv.keysNodup hmem
  have hk : k ∈ w.j.ballsInHand ++ w.j.ballsInAir :=
    hinv.queues.mem_iff.2 (mem_keys_of_getBall hget)
  rcases List.mem_append.1 hk with hk | hk
  · obtain ⟨h1, h2⟩ := hinv.hand k hk b' hget
    refine ⟨fun h => ?_, fun _ => h2, Or.inl h1⟩
    have h' : b'.Status = "in_flight" := h
    rw [h1] at h'
    exact absurd h' (by decide)
  · obtain ⟨h1, h2, h3, h4, h5⟩ := hinv.air k hk b' hget
    refine ⟨fun _ => ⟨h2, h3, h4, h5⟩, fun h => ?_, Or.inr h1⟩
    have h' : b'.Status = "in_hand" := h
    rw [h1] at h'
    exact absurd h' (by decide)

/-- Witness for C18: the state at the end of `demoRun`. -/
theorem C18_elapsed_invariant_witness :
    genRun (freshWorld (NewJuggler 3 2 0) 3 2 0) demoRun = some demoWorld ∧
      ∀ b ∈ (GetStats demoWorld.j).2.2,
        (b.Status = "in_flight" →
          0 ≤ b.Elapsed ∧ b.Elapsed < b.FlightTime ∧ 5 ≤ b.FlightTime ∧ b.FlightTime ≤ 10) ∧
        (b.Status = "in_hand" → b.Elapsed = 0) ∧
        (b.Status = "in_hand" ∨ b.Status = "in_flight") :=
  ⟨demoRun_eq, C18_elapsed_invariant (NewJuggler 3 2 0) 3 2 0 demoRun demoWorld demoRun_eq⟩

/-! ## One tick of the throw scheduler -/

theorem throwLoop_succ_thrown {j : Juggler} {clock : Nat → Int} {draw : Nat → Fin 6} {c : Nat}
    {id : Int} {rest : List Int} {ball : Ball} (fuel : Nat) (sp : List Int)
    (hh : j.ballsInHand = id :: rest) (hb : getBall id j.balls = some ball) :
    throwLoop (fuel + 1) j clock draw c sp =
      throwLoop fuel (thrown j id rest ball (clock c) (draw c)) clock draw (c + 1)
        (sp ++ [id]) := by
  simp only [throwLoop, ThrowBall_cons hh hb, if_true, Option.toList]

/-- The throw loop run on a state with in-hand queue `H`: it needs exactly one
unit of fuel, that is one `ThrowBall` call, per ball of `H` and one more for
the failing call, and throws the balls of `H` in order. -/
theorem throwLoop_drain (clock : Nat → Int) (draw : Nat → Fin 6) :
    ∀ (H : List Int) (j : Juggler) (c : Nat) (sp : List Int), j.ballsInHand = H →
      HandKnown j →
      ∃ j', throwLoop (H.length + 1) j clock draw c sp = .done (j', c + H.length, sp ++ H) ∧
        throwLoop H.length j clock draw c sp = .outOfFuel ∧
        j'.ballsInHand = [] ∧ j'.ballsInAir = j.ballsInAir ++ H ∧
        keys j'.balls = keys j.balls ∧
        (∀ k ∈ H, ∃ b, getBall k j'.balls = some b ∧ b.Status = "in_flight" ∧
          b.Elapsed = 0 ∧ 5 ≤ b.FlightTime ∧ b.FlightTime ≤ 10) ∧
        (∀ k, k ∉ H → getBall k j'.balls = getBall k j.balls) := by
  intro H
  induction H with
  | nil =>
    intro j c sp hh _
    refine ⟨j, ?_, rfl, hh, by simp, rfl, fun k hk => absurd hk (List.not_mem_nil k),
      fun _ _ => rfl⟩
    simp [throwLoop, ThrowBall_nil _ _ hh]
  | cons h rest ih =>
    intro j c sp hh hk
    obtain ⟨ball, hb⟩ := exists_getBall_of_mem_keys (hk h (by simp [hh]))
    obtain ⟨j', h1, h2, h3, h4, h5, h6, h7⟩ :=
      ih (thrown j h rest ball (clock c) (draw c)) (c + 1) (sp ++ [h]) rfl
        (HandKnown_thrown hk _ _ hh hb)
    have hr : (((draw c).val : Nat) : Int) < 6 := by exact_mod_cast (draw c).isLt
    have hr0 : (0 : Int) ≤ (((draw c).val : Nat) : Int) := Int.natCast_nonneg _
    refine ⟨j', ?_, ?_, h3, ?_, ?_, ?_, ?_⟩
    · rw [List.length_cons, throwLoop_succ_thrown _ _ hh hb, h1]
      simp [Nat.add_assoc, Nat.add_comm 1]
    · rw [List.length_cons, throwLoop_succ_thrown _ _ hh hb, h2]
    · rw [h4]
      show (j.ballsInAir ++ [h]) ++ rest = j.ballsInAir ++ h :: rest
      simp
    · rw [h5]
      exact keys_setBall_of_mem _ (mem_keys_of_getBall hb)
    · intro k hkm
      by_cases hkr : k ∈ rest
      · exact h6 k hkr
      · have hkh : k = h := by
          rcases List.mem_cons.1 hkm with e | e
          · exact e
          · exact absurd e hkr
        subst hkh
        rw [h7 k hkr]
        refine ⟨_, getBall_setBall_self _ _ _, rfl, rfl, ?_, ?_⟩
        · show (5 : Int) ≤ (((draw c).val : Nat) : Int) + 5
          omega
        · show (((draw c).val : Nat) : Int) + 5 ≤ 10
          omega
    · intro k hkm
      have hne : k ≠ h := fun e => hkm (by simp [e])
      have hkr : k ∉ rest := fun e => hkm (List.mem_cons_of_mem _ e)
      rw [h7 k hkr]
      exact getBall_setBall_ne hne _ _

/-- C19: one uninterrupted tick of the throw scheduler on a state that is not
finished and whose time is not over, with in-hand queue `H` (ids of balls of
the map) and in-air queue `A`.  The tick returns, the scheduler goes on,
`thrownCount` is `len(H)`; the loop needs `len(H) + 1` calls of `ThrowBall`
(`len(H)` calls do not end it) and a further call on the final state returns
false; the in-hand queue is empty, the in-air queue is `A` followed by `H`,
the spawned flight tasks are those of `H` in order, every ball of `H` is
`in_flight` with `Elapsed = 0` and `FlightTime` in `[5, 10]`, and the other
balls are unchanged. -/
theorem C19_scheduler_tick_drains (j : Juggler) (now : Int) (clock : Nat → Int)
    (draw : Nat → Fin 6) (hf : IsFinished j = false) (ht : IsJugglingTimeOver j now = false)
    (hk : HandKnown j) :
    ∃ res, schedulerTick j now clock draw = .done res ∧ res.stopped = false ∧
      res.thrownCount = j.ballsInHand.length ∧
      throwLoop j.ballsInHand.length j clock draw 0 [] = .outOfFuel ∧
      throwLoop (j.ballsInHand.length + 1) j clock draw 0 [] =
        .done (res.j, res.thrownCount, res.spawned) ∧
      (∀ now₁ r₁, ThrowBall res.j now₁ r₁ = some { j := res.j, ok := false, spawned := none }) ∧
      res.j.ballsInHand = [] ∧
      res.j.ballsInAir = j.ballsInAir ++ j.ballsInHand ∧
      res.spawned = j.ballsInHand ∧
      (∀ k ∈ j.ballsInHand, ∃ b, getBall k res.j.balls = some b ∧ b.Status = "in_flight" ∧
        b.Elapsed = 0 ∧ 5 ≤ b.FlightTime ∧ b.FlightTime ≤ 10) ∧
      (∀ k, k ∉ j.ballsInHand → getBall k res.j.balls = getBall k j.balls) := by
  have hfin : (IsFinished j || IsJugglingTimeOver j now) = false := by
    rw [hf, ht]
    rfl
  obtain ⟨j', h1, h2, h3, h4, _, h6, h7⟩ :=
    throwLoop_drain clock draw j.ballsInHand j 0 [] rfl hk
  simp only [Nat.zero_add, List.nil_append] at h1
  refine ⟨{ j := j', stopped := false, thrownCount := j.ballsInHand.length,
            spawned := j.ballsInHand }, ?_, rfl, rfl, h2, h1,
    fun now₁ r₁ => ThrowBall_nil now₁ r₁ h3, h3, h4, rfl, h6, h7⟩
  rw [schedulerTick_go clock draw hfin, h1]

/-- Witness for C19: the first scheduler tick after `Reset(3, 2)`, every draw
being 2. -/
theorem C19_scheduler_tick_drains_witness :
    IsFinished (Reset (NewJuggler 3 2 0) 3 2 0) = false ∧
      IsJugglingTimeOver (Reset (NewJuggler 3 2 0) 3 2 0) 1 = false ∧
      HandKnown (Reset (NewJuggler 3 2 0) 3 2 0) ∧
      ∃ res, schedulerTick (Reset (NewJuggler 3 2 0) 3 2 0) 1 (fun _ => 1) (fun _ => 2) =
          .done res ∧
        res.stopped = false ∧ res.thrownCount = 3 ∧ res.j.ballsInHand = [] ∧
        res.j.ballsInAir = [1, 2, 3] ∧ res.spawned = [1, 2, 3] := by
  refine ⟨by decide, by decide, by decide, ?_⟩
  obtain ⟨res, h1, h2, h3, _, _, _, h7, h8, h9, _, _⟩ :=
    C19_scheduler_tick_drains (Reset (NewJuggler 3 2 0) 3 2 0) 1 (fun _ => 1) (fun _ => 2)
      (by decide) (by decide) (by decide)
  refine ⟨res, h1, h2, ?_, h7, ?_, ?_⟩
  · rw [h3]
    decide
  · rw [h8]
    decide
  · rw [h9]
    decide

/-- C20: on a state in which the finished flag is set or
`now - startTime ≥ jugglingTime`, one tick of the throw scheduler sets
`finished`, throws no ball and spawns no flight task (ball map and both queues
unchanged, as every other field), and the scheduler goroutine returns;
afterwards `IsFinished()` is true and `IsRunning()` is false at every clock
value. -/
theorem C20_scheduler_tick_stops (j : Juggler) (now : Int) (clock : Nat → Int)
    (draw : Nat → Fin 6) (h : j.finished = true ∨ now - j.startTime ≥ j.jugglingTime) :
    ∃ res, schedulerTick j now clock draw = .done res ∧ res.stopped = true ∧
      res.thrownCount = 0 ∧ res.spawned = [] ∧
      res.j = { j with finished := true } ∧
      res.j.balls = j.balls ∧ res.j.ballsInHand = j.ballsInHand ∧
      res.j.ballsInAir = j.ballsInAir ∧
      IsFinished res.j = true ∧ ∀ now₁, IsRunning res.j now₁ = false := by
  have hfin : (IsFinished j || IsJugglingTimeOver j now) = true := by
    rcases h with h | h
    · simp [IsFinished, h]
    · simp [IsJugglingTimeOver, since, h]
  refine ⟨_, schedulerTick_stop clock draw hfin, rfl, rfl, rfl, rfl, rfl, rfl, rfl, rfl, ?_⟩
  intro now₁
  simp [IsRunning, SetFinished]

/-- Witness for C20: a scheduler tick three minutes after `Reset(3, 2)`, one
ball in the air. -/
theorem C20_scheduler_tick_stops_witness :
    ((thrown (Reset (NewJuggler 3 2 0) 3 2 0) 1 [2, 3] (newBall 1) 0 2).finished = true ∨
        180000000000 - (thrown (Reset (NewJuggler 3 2 0) 3 2 0) 1 [2, 3] (newBall 1) 0 2).startTime ≥
          (thrown (Reset (NewJuggler 3 2 0) 3 2 0) 1 [2, 3] (newBall 1) 0 2).jugglingTime) ∧
      ∃ res,
        schedulerTick (thrown (Reset (NewJuggler 3 2 0) 3 2 0) 1 [2, 3] (newBall 1) 0 2)
            180000000000 (fun _ => 0) (fun _ => 0) = .done res ∧
          res.stopped = true ∧ res.thrownCount = 0 ∧ res.spawned = [] ∧
          res.j.ballsInHand = [2, 3] ∧ res.j.ballsInAir = [1] ∧ IsFinished res.j = true := by
  refine ⟨Or.inr (by decide), ?_⟩
  obtain ⟨res, h1, h2, h3, h4, _, _, h7, h8, h9, _⟩ :=
    C20_scheduler_tick_stops (thrown (Reset (NewJuggler 3 2 0) 3 2 0) 1 [2, 3] (newBall 1) 0 2)
      180000000000 (fun _ => 0) (fun _ => 0) (Or.inr (by decide))
  refine ⟨res, h1, h2, h3, h4, ?_, ?_, h9⟩
  · rw [h7]
    decide
  · rw [h8]
    decide

/-! ## Stop, the stats handler and the configuration -/

/-- C21: `Stop` changes the finished flag only.  For every state the ball map
with every field of every ball, both queues, `nextBallID`, `totalBalls`,
`jugglingTime` and `startTime` are the same after `Stop()`, so the state is
the old one with `finished = true` and `GetStats` returns the same result. -/
theorem C21_stop_frame (s : Juggler) :
    (Stop s).balls = s.balls ∧ (Stop s).ballsInHand = s.ballsInHand ∧
      (Stop s).ballsInAir = s.ballsInAir ∧ (Stop s).nextBallID = s.nextBallID ∧
      (Stop s).totalBalls = s.totalBalls ∧ (Stop s).jugglingTime = s.jugglingTime ∧
      (Stop s).startTime = s.startTime ∧ (Stop s).finished = true ∧
      (∀ k, getBall k (Stop s).balls = getBall k s.balls) ∧
      GetStats (Stop s) = GetStats s :=
  ⟨rfl, rfl, rfl, rfl, rfl, rfl, rfl, rfl, fun _ => rfl, rfl⟩

/-! ## The float conversion of a duration -/

theorem roundHalfEven_ge {y : ℚ} {K : Int} (h : (K : ℚ) ≤ y) : K ≤ roundHalfEven y := by
  have hq : K ≤ Int.floor y := Int.le_floor.2 h
  unfold roundHalfEven
  simp only []
  split_ifs <;> omega

theorem roundHalfEven_le_pred {y : ℚ} {K : Int} (h : y < (K : ℚ) - 1 / 2) :
    roundHalfEven y ≤ K - 1 := by
  have h1 : ((Int.floor y : Int) : ℚ) ≤ y := Int.floor_le y
  have hq : Int.floor y < K := by
    have : ((Int.floor y : Int) : ℚ) < (K : ℚ) := by linarith
    exact_mod_cast this
  unfold roundHalfEven
  simp only []
  split_ifs with ha hb hc
  · omega
  · have : ((Int.floor y : Int) : ℚ) < ((K - 1 : Int) : ℚ) := by
      push_cast
      linarith
    have : Int.floor y < K - 1 := by exact_mod_cast this
    omega
  · omega
  · have hr : (1 : ℚ) / 2 ≤ y - (Int.floor y : ℚ) := not_lt.1 ha
    have : ((Int.floor y : Int) : ℚ) < ((K - 1 : Int) : ℚ) := by
      push_cast
      linarith
    have : Int.floor y < K - 1 := by exact_mod_cast this
    omega

theorem roundHalfEven_ge_of_gt {y : ℚ} {K : Int} (h : (K : ℚ) - 1 / 2 < y) :
    K ≤ roundHalfEven y := by
  have h2 : y < ((Int.floor y : Int) : ℚ) + 1 := Int.lt_floor_add_one y
  have hq : K - 1 ≤ Int.floor y := by
    have : ((K - 1 : Int) : ℚ) < ((Int.floor y + 1 : Int) : ℚ) := by
      push_cast
      linarith
    have : K - 1 < Int.floor y + 1 := by exact_mod_cast this
    omega
  unfold roundHalfEven
  simp only []
  split_ifs with ha hb hc
  · have : ((K : Int) : ℚ) < ((Int.floor y + 1 : Int) : ℚ) := by
      push_cast
      linarith
    have : K < Int.floor y + 1 := by exact_mod_cast this
    omega
  · omega
  · have hr1 : (1 : ℚ) / 2 ≤ y - (Int.floor y : ℚ) := not_lt.1 ha
    have hr2 : y - (Int.floor y : ℚ) ≤ 1 / 2 := not_lt.1 hb
    have : ((K : Int) : ℚ) < ((Int.floor y + 1 : Int) : ℚ) := by
      push_cast
      linarith
    have : K < Int.floor y + 1 := by exact_mod_cast this
    omega
  · omega

theorem roundHalfEven_le {y : ℚ} {K : Int} (h : y ≤ (K : ℚ)) : roundHalfEven y ≤ K := by
  have h1 : ((Int.floor y : Int) : ℚ) ≤ y := Int.floor_le y
  have hq : Int.floor y ≤ K := by
    have : ((Int.floor y : Int) : ℚ) ≤ (K : ℚ) := by linarith
    exact_mod_cast this
  unfold roundHalfEven
  simp only []
  split_ifs with ha hb hc
  · omega
  · have : ((Int.floor y : Int) : ℚ) < ((K : Int) : ℚ) := by linarith
    have : Int.floor y < K := by exact_mod_cast this
    omega
  · omega
  · have hr : (1 : ℚ) / 2 ≤ y - (Int.floor y : ℚ) := not_lt.1 ha
    have : ((Int.floor y : Int) : ℚ) < ((K : Int) : ℚ) := by linarith
    have : Int.floor y < K := by exact_mod_cast this
    omega

theorem roundHalfEven_intCast (K : Int) : roundHalfEven (K : ℚ) = K :=
  le_antisymm (roundHalfEven_le (le_refl _)) (roundHalfEven_ge (le_refl _))

theorem roundHalfEven_le_add_half (y : ℚ) : (roundHalfEven y : ℚ) ≤ y + 1 / 2 := by
  have h1 : ((Int.floor y : Int) : ℚ) ≤ y := Int.floor_le y
  unfold roundHalfEven
  simp only []
  split_ifs with ha hb hc
  · linarith
  · push_cast
    linarith
  · linarith
  · push_cast
    have h2 : (1 : ℚ) / 2 ≤ y - (Int.floor y : ℚ) := not_lt.1 ha
    linarith

theorem roundHalfEven_ge_sub_half (y : ℚ) : y - 1 / 2 ≤ (roundHalfEven y : ℚ) := by
  have h2 : y < ((Int.floor y : Int) : ℚ) + 1 := Int.lt_floor_add_one y
  unfold roundHalfEven
  simp only []
  split_ifs with ha hb hc
  · linarith
  · push_cast
    linarith
  · have h3 : y - (Int.floor y : ℚ) ≤ 1 / 2 := not_lt.1 hb
    linarith
  · push_cast
    linarith

theorem two_zpow_neg (n : Nat) : (2 : ℚ) ^ (-(n : Int)) = 1 / (2 : ℚ) ^ n := by
  rw [zpow_neg, zpow_natCast, one_div]

theorem log_lt_of_lt {x : ℚ} (hx : 0 < x) {k : Int} (h : x < (2 : ℚ) ^ k) :
    Int.log 2 x < k := by
  have := (Int.lt_zpow_iff_log_lt (b := 2) (by norm_num) (x := k) hx).1 (by simpa using h)
  exact this

theorem le_log_of_le {x : ℚ} (hx : 0 < x) {k : Int} (h : (2 : ℚ) ^ k ≤ x) :
    k ≤ Int.log 2 x := by
  have := (Int.zpow_le_iff_le_log (b := 2) (by norm_num) (x := k) hx).1 (by simpa using h)
  exact this

theorem roundFloat64_pos {x : ℚ} (hx : 0 < x) :
    roundFloat64 x =
      (roundHalfEven (x / (2 : ℚ) ^ (Int.log 2 x - 52)) : ℚ) * (2 : ℚ) ^ (Int.log 2 x - 52) := by
  have h0 : x ≠ 0 := ne_of_gt hx
  have h1 : ¬ x < 0 := not_lt.2 (le_of_lt hx)
  simp only [roundFloat64, h0, h1, if_false, abs_of_pos hx]

/-- For `0 < x < 2 ^ k` with `k ≤ 52` the rounded value is `m / 2 ^ n` where
`m` is `x * 2 ^ n` rounded to an integer, for some `n ≥ 52 - k + 1`. -/
theorem roundFloat64_scaled {x : ℚ} (hx : 0 < x) {k : Nat} (hk : k ≤ 53)
    (h : x < (2 : ℚ) ^ k) :
    ∃ n : Nat, 53 ≤ n + k ∧
      roundFloat64 x = (roundHalfEven (x * (2 : ℚ) ^ n) : ℚ) / (2 : ℚ) ^ n := by
  have hlog : Int.log 2 x < (k : Int) := log_lt_of_lt hx (by simpa using h)
  obtain ⟨n, hn⟩ : ∃ n : Nat, Int.log 2 x - 52 = -(n : Int) :=
    ⟨(52 - Int.log 2 x).toNat, by omega⟩
  refine ⟨n, by omega, ?_⟩
  rw [roundFloat64_pos hx, hn, two_zpow_neg]
  have hp : (0 : ℚ) < (2 : ℚ) ^ n := by positivity
  rw [div_div_eq_mul_div, div_one, mul_one_div]

theorem roundFloat64_intCast {z : Int} (h0 : 0 ≤ z) (h1 : z < 9007199254740992) :
    roundFloat64 (z : ℚ) = z := by
  rcases eq_or_lt_of_le h0 with hz | hz
  · rw [← hz]
    simp [roundFloat64]
  · have hx : (0 : ℚ) < (z : ℚ) := by exact_mod_cast hz
    have hlt : (z : ℚ) < (2 : ℚ) ^ (53 : Nat) := by
      have : (z : ℚ) < 9007199254740992 := by exact_mod_cast h1
      norm_num
      exact this
    obtain ⟨n, _, hn⟩ := roundFloat64_scaled hx (le_refl 53) hlt
    have hcast : (z : ℚ) * (2 : ℚ) ^ n = ((z * 2 ^ n : Int) : ℚ) := by push_cast; ring
    rw [hn, hcast, roundHalfEven_intCast]
    have hp : (2 : ℚ) ^ n ≠ 0 := by positivity
    push_cast
    field_simp

theorem inv_two_pow_le {n m : Nat} (h : m ≤ n) : 1 / (2 : ℚ) ^ n ≤ 1 / (2 : ℚ) ^ m := by
  apply one_div_le_one_div_of_le (by positivity)
  exact pow_le_pow_right₀ (by norm_num) h

/-- The quotient `float64(nsec) / 1e9` for `0 ≤ nsec < 1e9`: within `2 ^ -54` of
the real quotient, and not negative. -/
theorem fraction_bounds {ns : Int} (h0 : 0 ≤ ns) (h1 : ns < 1000000000) :
    0 ≤ roundFloat64 ((ns : ℚ) / 1000000000) ∧
      roundFloat64 ((ns : ℚ) / 1000000000) ≤ (ns : ℚ) / 1000000000 + 1 / 2 ^ 54 ∧
      (ns : ℚ) / 1000000000 - 1 / 2 ^ 54 ≤ roundFloat64 ((ns : ℚ) / 1000000000) := by
  rcases eq_or_lt_of_le h0 with hz | hz
  · rw [← hz]
    norm_num [roundFloat64]
  · have hnsq : (0 : ℚ) < (ns : ℚ) := by exact_mod_cast hz
    have hnsq1 : (ns : ℚ) < 1000000000 := by exact_mod_cast h1
    have hx : (0 : ℚ) < (ns : ℚ) / 1000000000 := by positivity
    have hlt : (ns : ℚ) / 1000000000 < (2 : ℚ) ^ (0 : Nat) := by
      rw [pow_zero, div_lt_one (by norm_num)]
      exact hnsq1
    obtain ⟨n, hn53, hn⟩ := roundFloat64_scaled hx (by norm_num) hlt
    have hp : (0 : ℚ) < (2 : ℚ) ^ n := by positivity
    have hsmall : 1 / (2 : ℚ) ^ (n + 1) ≤ 1 / (2 : ℚ) ^ 54 := inv_two_pow_le (by omega)
    have hhalf : 1 / (2 : ℚ) ^ (n + 1) = 1 / 2 / (2 : ℚ) ^ n := by
      rw [pow_succ]
      field_simp
      ring
    have hup := roundHalfEven_le_add_half ((ns : ℚ) / 1000000000 * (2 : ℚ) ^ n)
    have hlo := roundHalfEven_ge_sub_half ((ns : ℚ) / 1000000000 * (2 : ℚ) ^ n)
    have hge : (0 : Int) ≤ roundHalfEven ((ns : ℚ) / 1000000000 * (2 : ℚ) ^ n) :=
      roundHalfEven_ge (by push_cast; positivity)
    rw [hn]
    refine ⟨?_, ?_, ?_⟩
    · have : (0 : ℚ) ≤ (roundHalfEven ((ns : ℚ) / 1000000000 * (2 : ℚ) ^ n) : ℚ) := by
        exact_mod_cast hge
      positivity
    · rw [div_le_iff₀ hp]
      have : ((ns : ℚ) / 1000000000 + 1 / 2 / (2 : ℚ) ^ n) * (2 : ℚ) ^ n =
          (ns : ℚ) / 1000000000 * (2 : ℚ) ^ n + 1 / 2 := by
        field_simp
        ring
      have h54 : ((ns : ℚ) / 1000000000 + 1 / 2 / (2 : ℚ) ^ n) * (2 : ℚ) ^ n ≤
          ((ns : ℚ) / 1000000000 + 1 / 2 ^ 54) * (2 : ℚ) ^ n := by
        apply mul_le_mul_of_nonneg_right _ (le_of_lt hp)
        linarith
      linarith
    · rw [le_div_iff₀ hp]
      have : ((ns : ℚ) / 1000000000 - 1 / 2 / (2 : ℚ) ^ n) * (2 : ℚ) ^ n =
          (ns : ℚ) / 1000000000 * (2 : ℚ) ^ n - 1 / 2 := by
        field_simp
        ring
      have h54 : ((ns : ℚ) / 1000000000 - 1 / 2 ^ 54) * (2 : ℚ) ^ n ≤
          ((ns : ℚ) / 1000000000 - 1 / 2 / (2 : ℚ) ^ n) * (2 : ℚ) ^ n := by
        apply mul_le_mul_of_nonneg_right _ (le_of_lt hp)
        linarith
      linarith

/-- The sum `float64(sec) + fraction` for fewer than `2 ^ 24` whole seconds and
a fraction at most `1 - 1e-9 + 2 ^ -54`: it stays below `sec + 1`, so the
conversion to `int` gives `sec`. -/
theorem truncate_sum {s : Int} {c : ℚ} (hs0 : 0 ≤ s) (hs1 : s < 16777216) (hc0 : 0 ≤ c)
    (hc1 : c ≤ 1 - 1 / 1000000000 + 1 / 2 ^ 54) :
    truncate (roundFloat64 ((s : ℚ) + c)) = s := by
  have hsq0 : (0 : ℚ) ≤ (s : ℚ) := by exact_mod_cast hs0
  have hsq1 : (s : ℚ) ≤ 16777215 := by
    have : s ≤ 16777215 := by omega
    exact_mod_cast this
  rcases eq_or_lt_of_le (add_nonneg hsq0 hc0) with hz | hx
  · have hs : (s : ℚ) = 0 := by linarith
    have hs' : s = 0 := by exact_mod_cast hs
    rw [← hz, hs']
    simp [roundFloat64, truncate]
  · have hlt : (s : ℚ) + c < (2 : ℚ) ^ (24 : Nat) := by
      norm_num at hc1 ⊢
      linarith
    obtain ⟨n, hn29, hn⟩ := roundFloat64_scaled hx (by norm_num) hlt
    have hp : (0 : ℚ) < (2 : ℚ) ^ n := by positivity
    have hsmall : 1 / (2 : ℚ) ^ (n + 1) ≤ 1 / (2 : ℚ) ^ 30 := inv_two_pow_le (by omega)
    have hhalf : 1 / (2 : ℚ) ^ (n + 1) * (2 : ℚ) ^ n = 1 / 2 := by
      rw [pow_succ]
      field_simp
    have hlo : s * 2 ^ n ≤ roundHalfEven (((s : ℚ) + c) * (2 : ℚ) ^ n) := by
      apply roundHalfEven_ge
      push_cast
      nlinarith
    have hup : roundHalfEven (((s : ℚ) + c) * (2 : ℚ) ^ n) ≤ (s + 1) * 2 ^ n - 1 := by
      apply roundHalfEven_le_pred
      push_cast
      have hc2 : c < 1 - 1 / (2 : ℚ) ^ (n + 1) := by
        have : (1 : ℚ) - 1 / 1000000000 + 1 / 2 ^ 54 < 1 - 1 / 2 ^ 30 := by norm_num
        linarith
      have h3 : c * (2 : ℚ) ^ n < (1 - 1 / (2 : ℚ) ^ (n + 1)) * (2 : ℚ) ^ n :=
        mul_lt_mul_of_pos_right hc2 hp
      rw [sub_mul, hhalf] at h3
      linarith
    have hloq : ((s * 2 ^ n : Int) : ℚ) ≤
        (roundHalfEven (((s : ℚ) + c) * (2 : ℚ) ^ n) : ℚ) := by exact_mod_cast hlo
    have hupq : (roundHalfEven (((s : ℚ) + c) * (2 : ℚ) ^ n) : ℚ) ≤
        (((s + 1) * 2 ^ n - 1 : Int) : ℚ) := by exact_mod_cast hup
    push_cast at hloq hupq
    have hv0 : (s : ℚ) ≤ roundFloat64 ((s : ℚ) + c) := by
      rw [hn, le_div_iff₀ hp]
      exact hloq
    have hv1 : roundFloat64 ((s : ℚ) + c) < (s : ℚ) + 1 := by
      rw [hn, div_lt_iff₀ hp]
      linarith
    have hnonneg : (0 : ℚ) ≤ roundFloat64 ((s : ℚ) + c) := le_trans hsq0 hv0
    simp only [truncate, hnonneg, if_true]
    exact Int.floor_eq_iff.2 ⟨hv0, hv1⟩

/-- What `int(d.Seconds())` is for a duration of fewer than `2 ^ 24` seconds:
the whole number of seconds in `d`. -/
theorem durationSeconds_of_lt {d : Int} (h0 : 0 ≤ d) (h1 : d < 16777216000000000) :
    durationSeconds d = d / 1000000000 := by
  have hsec : Int.tdiv d second = d / 1000000000 := by
    rw [Int.tdiv_eq_ediv h0 (by decide)]
    rfl
  have hnsec : Int.tmod d second = d % 1000000000 := by
    rw [Int.tmod_eq_emod h0 (by decide)]
    rfl
  have hs0 : 0 ≤ d / 1000000000 := by omega
  have hs1 : d / 1000000000 < 16777216 := by omega
  have hn0 : 0 ≤ d % 1000000000 := by omega
  have hn1 : d % 1000000000 < 1000000000 := by omega
  have hbil : roundFloat64 (1000000000 : ℚ) = 1000000000 := by
    have := roundFloat64_intCast (z := 1000000000) (by decide) (by decide)
    simpa using this
  obtain ⟨hc0, hc1, _⟩ := fraction_bounds hn0 hn1
  have hc1' : roundFloat64 (((d % 1000000000 : Int) : ℚ) / 1000000000) ≤
      1 - 1 / 1000000000 + 1 / 2 ^ 54 := by
    have : ((d % 1000000000 : Int) : ℚ) ≤ 999999999 := by
      have : d % 1000000000 ≤ 999999999 := by omega
      exact_mod_cast this
    have h2 : ((d % 1000000000 : Int) : ℚ) / 1000000000 ≤ 1 - 1 / 1000000000 := by
      rw [div_le_iff₀ (by norm_num)]
      norm_num
      linarith
    linarith
  unfold durationSeconds Seconds
  simp only [hsec, hnsec, hbil]
  rw [roundFloat64_intCast hs0 (by omega), roundFloat64_intCast hn0 (by omega)]
  exact truncate_sum hs0 hs1 hc0 hc1'

/-- From `2 ^ 24` seconds on the sum has a step of `2 ^ -28` or more, and a
fraction within `2 ^ -29` of one rounds up to the next second. -/
theorem durationSeconds_rounds_up : durationSeconds 16777216999999999 = 16777217 := by
  have hsec : Int.tdiv 16777216999999999 second = 16777216 := by decide
  have hnsec : Int.tmod 16777216999999999 second = 999999999 := by decide
  have hbil : roundFloat64 (1000000000 : ℚ) = 1000000000 := by
    have := roundFloat64_intCast (z := 1000000000) (by decide) (by decide)
    simpa using this
  have h16 : roundFloat64 ((16777216 : Int) : ℚ) = ((16777216 : Int) : ℚ) :=
    roundFloat64_intCast (by decide) (by decide)
  have h99 : roundFloat64 ((999999999 : Int) : ℚ) = ((999999999 : Int) : ℚ) :=
    roundFloat64_intCast (by decide) (by decide)
  obtain ⟨_, hc1, hc2⟩ := fraction_bounds (show (0 : Int) ≤ 999999999 by decide) (show (999999999 : Int) < 1000000000 by decide)
  unfold durationSeconds Seconds
  simp only [hsec, hnsec, hbil, h16, h99]
  generalize roundFloat64 (((999999999 : Int) : ℚ) / 1000000000) = c at hc1 hc2 ⊢
  push_cast at hc1 hc2 ⊢
  have hclt : c < 1 := by
    have : (999999999 : ℚ) / 1000000000 + 1 / 2 ^ 54 < 1 := by norm_num
    linarith
  have hcgt : 1 - 1 / (2 : ℚ) ^ 29 < c := by
    have : (1 : ℚ) - 1 / 2 ^ 29 < 999999999 / 1000000000 - 1 / 2 ^ 54 := by norm_num
    linarith
  have hx : (0 : ℚ) < 16777216 + c := by linarith
  have hlog : Int.log 2 ((16777216 : ℚ) + c) = 24 := by
    apply le_antisymm
    · have : Int.log 2 ((16777216 : ℚ) + c) < 25 :=
        log_lt_of_lt hx (by norm_num; linarith)
      omega
    · exact le_log_of_le hx (by norm_num; linarith)
  rw [roundFloat64_pos hx, hlog]
  have he : (2 : ℚ) ^ ((24 : Int) - 52) = 1 / 2 ^ 28 := by
    have : ((24 : Int) - 52) = -((28 : Nat) : Int) := by decide
    rw [this, two_zpow_neg]
  rw [he]
  have hm : roundHalfEven ((16777216 + c) / (1 / 2 ^ 28)) = 4503599895805952 := by
    apply le_antisymm
    · apply roundHalfEven_le
      rw [div_le_iff₀ (by norm_num)]
      norm_num
      linarith
    · apply roundHalfEven_ge_of_gt
      rw [lt_div_iff₀ (by norm_num)]
      norm_num at hcgt ⊢
      linarith
  rw [hm]
  have hv : ((4503599895805952 : Int) : ℚ) * (1 / 2 ^ 28) = ((16777217 : Int) : ℚ) := by
    norm_num
  rw [hv]
  simp [truncate]

/-- The tie rule of the rounding: a value halfway between two integers goes to
the even one. -/
theorem roundHalfEven_tie : roundHalfEven (1 / 2) = 0 ∧ roundHalfEven (3 / 2) = 2 ∧
    roundHalfEven (5 / 2) = 2 := by
  refine ⟨?_, ?_, ?_⟩
  · have : Int.floor ((1 : ℚ) / 2) = 0 := Int.floor_eq_iff.2 ⟨by norm_num, by norm_num⟩
    simp only [roundHalfEven, this]
    norm_num
  · have : Int.floor ((3 : ℚ) / 2) = 1 := Int.floor_eq_iff.2 ⟨by norm_num, by norm_num⟩
    simp only [roundHalfEven, this]
    norm_num
  · have : Int.floor ((5 : ℚ) / 2) = 2 := Int.floor_eq_iff.2 ⟨by norm_num, by norm_num⟩
    simp only [roundHalfEven, this]
    norm_num

/-- On a whole number of minutes the float sum of `Minutes()` is exact, and
`int(d.Minutes())` is the truncated quotient `durationMinutes`. -/
theorem truncate_Minutes_mul {t : Int} (h0 : 0 ≤ t) (h1 : t < 9007199254740992) :
    truncate (Minutes (t * minute)) = durationMinutes (t * minute) := by
  have hm : Int.tdiv (t * minute) minute = t := Int.mul_tdiv_cancel _ (by decide)
  have hr : Int.tmod (t * minute) minute = 0 := Int.mul_tmod_left _ _
  have hz : roundFloat64 0 = 0 := by simp [roundFloat64]
  have htq : (0 : ℚ) ≤ (t : ℚ) := by exact_mod_cast h0
  unfold durationMinutes Minutes
  simp only [hm, hr, Int.cast_zero, hz, zero_div, add_zero]
  rw [roundFloat64_intCast h0 h1, roundFloat64_intCast h0 h1]
  simp [truncate, htq]

/-! ## The stats handler -/

/-- C22, amended: the snapshot `HandleStats` builds at clock value `now`.  Its
`is_running` field is `IsRunning()` of the juggler; when that is false
`time_elapsed` is 0, when it is true `time_elapsed` is
`int(time.Since(startTime).Seconds())`.  A finished juggler gives
`time_elapsed = 0` and `is_running = false` whatever the three clock reads of
the handler are, so does every juggler that is not running at the first read
when the last read is not earlier, and `time_elapsed` is 0 after a stop
request.  When the snapshot is running and fewer than `2 ^ 24 = 16777216`
seconds have passed since `startTime`, `time_elapsed` is the whole number of
seconds since `startTime`; with three clock reads it is the whole number of
seconds at the second read whenever the juggler is running at the first. -/
theorem C22_handleStats_time_elapsed (s : Server) (now : Int) :
    (HandleStats s now now now).IsRunning = IsRunning s.juggler now ∧
      ((HandleStats s now now now).IsRunning = false →
        (HandleStats s now now now).TimeElapsed = 0) ∧
      ((HandleStats s now now now).IsRunning = true →
        (HandleStats s now now now).TimeElapsed =
          durationSeconds (now - s.juggler.startTime)) ∧
      (∀ now₁ now₂ now₃, s.juggler.finished = true →
        (HandleStats s now₁ now₂ now₃).TimeElapsed = 0 ∧
          (HandleStats s now₁ now₂ now₃).IsRunning = false) ∧
      (∀ now₁ now₂ now₃, now₁ ≤ now₃ → IsRunning s.juggler now₁ = false →
        (HandleStats s now₁ now₂ now₃).TimeElapsed = 0 ∧
          (HandleStats s now₁ now₂ now₃).IsRunning = false) ∧
      (∀ now₁ now₂ now₃,
        (HandleStats (HandleStop s "POST").2 now₁ now₂ now₃).TimeElapsed = 0) ∧
      ((HandleStats s now now now).IsRunning = true →
        0 ≤ now - s.juggler.startTime → now - s.juggler.startTime < 16777216000000000 →
        (HandleStats s now now now).TimeElapsed = (now - s.juggler.startTime) / 1000000000 ∧
          (HandleStats s now now now).TimeElapsed * 1000000000 ≤ now - s.juggler.startTime ∧
          now - s.juggler.startTime <
            ((HandleStats s now now now).TimeElapsed + 1) * 1000000000) ∧
      ∀ now₁ now₂ now₃, IsRunning s.juggler now₁ = true →
        0 ≤ now₂ - s.juggler.startTime → now₂ - s.juggler.startTime < 16777216000000000 →
        (HandleStats s now₁ now₂ now₃).TimeElapsed =
          (now₂ - s.juggler.startTime) / 1000000000 := by
  refine ⟨rfl, fun h => ?_, fun h => ?_, fun now₁ now₂ now₃ hf => ?_,
    fun now₁ now₂ now₃ hle h => ?_, fun now₁ now₂ now₃ => ?_, fun h h0 h1 => ?_,
    fun now₁ now₂ now₃ h h0 h1 => ?_⟩
  · have h' : IsRunning s.juggler now = false := h
    simp [HandleStats, h']
  · have h' : IsRunning s.juggler now = true := h
    simp [HandleStats, h', GetStartTime]
  · simp [HandleStats, IsRunning, hf]
  · refine ⟨by simp [HandleStats, h], ?_⟩
    show IsRunning s.juggler now₃ = false
    cases hf : s.juggler.finished with
    | true => simp [IsRunning, hf]
    | false =>
      simp only [IsRunning, hf, Bool.not_false, Bool.true_and, decide_eq_false_iff_not, since,
        not_lt] at h ⊢
      omega
  · simp [HandleStats, HandleStop, MethodPost, IsRunning, Stop]
  · have h' : IsRunning s.juggler now = true := h
    have he : (HandleStats s now now now).TimeElapsed =
        (now - s.juggler.startTime) / 1000000000 := by
      simp only [HandleStats, h', if_true, GetStartTime]
      exact durationSeconds_of_lt h0 h1
    rw [he]
    refine ⟨rfl, ?_, ?_⟩ <;> omega
  · simp only [HandleStats, h, if_true, GetStartTime]
    exact durationSeconds_of_lt h0 h1

/-- C22 at a concrete snapshot: one nanosecond before the end of a run of one
minute the juggler is running and `time_elapsed` is 59. -/
theorem C22_handleStats_time_elapsed_witness :
    (HandleStats { juggler := Reset (NewJuggler 0 0 0) 3 1 0, port := 8080 }
        59999999999 59999999999 59999999999).IsRunning = true ∧
      (HandleStats { juggler := Reset (NewJuggler 0 0 0) 3 1 0, port := 8080 }
        59999999999 59999999999 59999999999).TimeElapsed = 59 := by
  have hrun : (HandleStats { juggler := Reset (NewJuggler 0 0 0) 3 1 0, port := 8080 }
      59999999999 59999999999 59999999999).IsRunning = true := by
    simp only [HandleStats, IsRunning, since, Reset_eq]
    decide
  have hstart : (Reset (NewJuggler 0 0 0) 3 1 0).startTime = 0 := by
    simp only [Reset_eq]
  refine ⟨hrun, ?_⟩
  have h := ((C22_handleStats_time_elapsed
    { juggler := Reset (NewJuggler 0 0 0) 3 1 0, port := 8080 } 59999999999).2.2.2.2.2.2.1 hrun
    (by rw [hstart]; decide) (by rw [hstart]; decide)).1
  rw [h, hstart]
  decide

/-- C22 as stated fails on the code.  A start request for 3 balls and 279621
minutes is accepted; 16777216.999999999 seconds after the start the juggler is
still running and 16777216 whole seconds have passed, yet the `float64` sum of
`Seconds()` rounds up and the snapshot reports `time_elapsed = 16777217`. -/
theorem C22_rounding_counterexample :
    (HandleStart { juggler := NewJuggler 0 0 0, port := 8080 }
        { Method := "POST", body := some { TotalBalls := 3, TimeMinutes := 279621 } }
        0).server = { juggler := Reset (NewJuggler 0 0 0) 3 279621 0, port := 8080 } ∧
      (HandleStats { juggler := Reset (NewJuggler 0 0 0) 3 279621 0, port := 8080 }
        16777216999999999 16777216999999999 16777216999999999).IsRunning = true ∧
      (HandleStats { juggler := Reset (NewJuggler 0 0 0) 3 279621 0, port := 8080 }
        16777216999999999 16777216999999999 16777216999999999).TimeElapsed = 16777217 ∧
      (16777216999999999 - (Reset (NewJuggler 0 0 0) 3 279621 0).startTime) / 1000000000 =
        16777216 ∧
      (HandleStats { juggler := Reset (NewJuggler 0 0 0) 3 279621 0, port := 8080 }
        16777216999999999 16777216999999999 16777216999999999).TimeElapsed ≠
        (16777216999999999 - (Reset (NewJuggler 0 0 0) 3 279621 0).startTime) / 1000000000 := by
  have hrun : (HandleStats { juggler := Reset (NewJuggler 0 0 0) 3 279621 0, port := 8080 }
      16777216999999999 16777216999999999 16777216999999999).IsRunning = true := by
    simp only [HandleStats, IsRunning, since, Reset_eq]
    decide
  have hstart : (Reset (NewJuggler 0 0 0) 3 279621 0).startTime = 0 := by
    simp only [Reset_eq]
  have hrun' : IsRunning (Reset (NewJuggler 0 0 0) 3 279621 0) 16777216999999999 = true := hrun
  have hel : (HandleStats { juggler := Reset (NewJuggler 0 0 0) 3 279621 0, port := 8080 }
      16777216999999999 16777216999999999 16777216999999999).TimeElapsed = 16777217 := by
    simp only [HandleStats, hrun', if_true, GetStartTime, hstart, sub_zero]
    exact durationSeconds_rounds_up
  refine ⟨?_, hrun, hel, ?_, ?_⟩
  · simp [HandleStart, MethodPost]
  · rw [hstart]
    decide
  · rw [hel, hstart]
    decide

/-- The three clock reads of `HandleStats` can straddle the end of the run: with
the first two reads one nanosecond before the end of a run of one minute and
the third at its end, the snapshot has `is_running = false` and
`time_elapsed = 59`. -/
theorem handleStats_straddling_reads :
    (HandleStats { juggler := Reset (NewJuggler 0 0 0) 3 1 0, port := 8080 }
        59999999999 59999999999 60000000000).IsRunning = false ∧
      (HandleStats { juggler := Reset (NewJuggler 0 0 0) 3 1 0, port := 8080 }
        59999999999 59999999999 60000000000).TimeElapsed = 59 := by
  have hstart : (Reset (NewJuggler 0 0 0) 3 1 0).startTime = 0 := by
    simp only [Reset_eq]
  have hrun : IsRunning (Reset (NewJuggler 0 0 0) 3 1 0) 59999999999 = true := by
    simp only [IsRunning, since, Reset_eq]
    decide
  refine ⟨?_, ?_⟩
  · simp only [HandleStats, IsRunning, since, Reset_eq]
    decide
  · simp only [HandleStats, hrun, if_true, GetStartTime, hstart, sub_zero]
    rw [durationSeconds_of_lt (by decide) (by decide)]
    decide

theorem durationMinutes_mul (t : Int) : durationMinutes (t * minute) = t := by
  unfold durationMinutes minute
  exact Int.mul_tdiv_cancel _ (by decide)

theorem minutesToDuration_of_fits {t : Int} (h0 : 0 ≤ t) (h1 : t ≤ 153722867) :
    minutesToDuration t = t * minute := by
  unfold minutesToDuration minute
  exact wrap64_of_fits (by omega) (by omega)

/-- C23 as stated fails on the code: for `t = 153722868` minutes the duration
stored by `Reset(3, t)` has wrapped, and the snapshot reports
`total_time = -153722866`. -/
theorem C23_round_trip_counterexample :
    (0 : Int) ≤ 3 ∧ (0 : Int) ≤ 153722868 ∧
      (HandleStats { juggler := Reset (NewJuggler 0 0 0) 3 153722868 0, port := 8080 }
          0 0 0).TotalBalls = 3 ∧
      (HandleStats { juggler := Reset (NewJuggler 0 0 0) 3 153722868 0, port := 8080 }
          0 0 0).TotalTime = -153722866 ∧
      (HandleStats { juggler := Reset (NewJuggler 0 0 0) 3 153722868 0, port := 8080 }
          0 0 0).TotalTime ≠ 153722868 := by
  refine ⟨by decide, by decide, ?_, ?_, ?_⟩ <;>
    simp only [HandleStats, GetTotalBalls, GetJugglingTime, Reset_eq] <;> decide

/-- C23, amended: for every `n` and every duration in minutes `t` with
`0 ≤ t ≤ 153722867`, the largest number of minutes that fits a 64-bit
nanosecond duration, after `Reset(n, t)` and after `NewJuggler(n, t)` the
snapshot of `HandleStats` reports `total_balls = n` and `total_time = t`,
whatever the clock reads are. -/
theorem C23_config_round_trip (j : Juggler) (port n t now now₁ now₂ now₃ : Int)
    (h0 : 0 ≤ t) (h1 : t ≤ 153722867) :
    (HandleStats { juggler := Reset j n t now, port := port } now₁ now₂ now₃).TotalBalls = n ∧
      (HandleStats { juggler := Reset j n t now, port := port } now₁ now₂ now₃).TotalTime = t ∧
      (HandleStats { juggler := NewJuggler n t now, port := port } now₁ now₂ now₃).TotalBalls
        = n ∧
      (HandleStats { juggler := NewJuggler n t now, port := port } now₁ now₂ now₃).TotalTime
        = t ∧
      durationMinutes (minutesToDuration t) = t := by
  have hd : durationMinutes (minutesToDuration t) = t := by
    rw [minutesToDuration_of_fits h0 h1, durationMinutes_mul]
  refine ⟨?_, ?_, ?_, ?_, hd⟩
  · simp only [HandleStats, GetTotalBalls, Reset_eq]
  · simp only [HandleStats, GetJugglingTime, Reset_eq, hd]
  · simp only [HandleStats, GetTotalBalls, NewJuggler_eq]
  · simp only [HandleStats, GetJugglingTime, NewJuggler_eq, hd]

/-- Witness for C23, amended: `Reset(3, 2)` and `NewJuggler(3, 2)`. -/
theorem C23_config_round_trip_witness :
    (0 : Int) ≤ 2 ∧ (2 : Int) ≤ 153722867 ∧
      (HandleStats { juggler := Reset (NewJuggler 0 0 0) 3 2 5, port := 8080 } 6 6 6).TotalBalls
        = 3 ∧
      (HandleStats { juggler := Reset (NewJuggler 0 0 0) 3 2 5, port := 8080 } 6 6 6).TotalTime
        = 2 ∧
      (HandleStats { juggler := NewJuggler 3 2 5, port := 8080 } 6 6 6).TotalBalls = 3 ∧
      (HandleStats { juggler := NewJuggler 3 2 5, port := 8080 } 6 6 6).TotalTime = 2 ∧
      durationMinutes (minutesToDuration 2) = 2 :=
  ⟨by decide, by decide,
    C23_config_round_trip (NewJuggler 0 0 0) 8080 3 2 5 6 6 6 (by decide) (by decide)⟩

/-- C24: `Validate` returns an error iff `WebPort ≤ 0` or `WebPort > 65535`; it
returns nil exactly for the ports from 1 to 65535, both included. -/
theorem C24_validate (c : Config) :
    ((Validate c).isSome = true ↔ (c.WebPort ≤ 0 ∨ c.WebPort > 65535)) ∧
      (Validate c = none ↔ (1 ≤ c.WebPort ∧ c.WebPort ≤ 65535)) ∧
      Validate { WebPort := 1 } = none ∧ Validate { WebPort := 65535 } = none ∧
      (Validate { WebPort := 0 }).isSome = true ∧
      (Validate { WebPort := 65536 }).isSome = true := by
  refine ⟨?_, ?_, by decide, by decide, by decide, by decide⟩
  · by_cases h : c.WebPort ≤ 0 ∨ c.WebPort > 65535 <;> simp [Validate, h]
  · by_cases h : c.WebPort ≤ 0 ∨ c.WebPort > 65535
    · simp only [Validate, h, if_true]
      constructor
      · intro h'
        cases h'
      · intro h'
        omega
    · simp only [Validate, h, if_false]
      constructor
      · intro _
        omega
      · intro _
        trivial

/-- C25: `LoadFromArgs`.  With fewer than two arguments the result is
`DefaultConfig()`, whose `WebPort` is 8080, and no error.  With two or more,
when `strconv.Atoi` accepts `args[1]` (an optional sign and decimal digits, in
the `int` range) the result is that port and no error, whatever follows
`args[1]`; there is an error, and no configuration, iff `Atoi` rejects
`args[1]`.  The four cases of `TestLoadFromArgs` are evaluated as well. -/
theorem C25_loadFromArgs (args : List String) :
    (args.length < 2 → LoadFromArgs args = .ok DefaultConfig) ∧
      DefaultConfig.WebPort = 8080 ∧
      (∀ a₀ a₁ rest, args = a₀ :: a₁ :: rest →
        (∀ port, Atoi a₁ = .ok port → LoadFromArgs args = .ok { WebPort := port }) ∧
          (∀ err, Atoi a₁ = .error err →
            LoadFromArgs args = .error (.wrongPortFormat err)) ∧
          ((∃ err, LoadFromArgs args = .error err) ↔ ∃ err, Atoi a₁ = .error err) ∧
          LoadFromArgs args = LoadFromArgs [a₀, a₁]) ∧
      LoadFromArgs ["program"] = .ok { WebPort := 8080 } ∧
      LoadFromArgs ["program", "9000"] = .ok { WebPort := 9000 } ∧
      LoadFromArgs ["program", "abc"] = .error (.wrongPortFormat .errSyntax) ∧
      LoadFromArgs ["program", "3000", "extra"] = .ok { WebPort := 3000 } := by
  refine ⟨fun h => ?_, rfl, fun a₀ a₁ rest h => ?_, rfl, rfl, rfl, rfl⟩
  · match args, h with
    | [], _ => rfl
    | [_], _ => rfl
    | _ :: _ :: _, h =>
      simp only [List.length_cons] at h
      omega
  · subst h
    cases ha : Atoi a₁ with
    | error err =>
      have hl : ∀ r, LoadFromArgs (a₀ :: a₁ :: r) = .error (.wrongPortFormat err) := fun r => by
        simp only [LoadFromArgs, ha]
      refine ⟨fun port hp => (by cases hp), fun err' he => ?_, ?_, ?_⟩
      · cases he
        exact hl rest
      · exact ⟨fun _ => ⟨err, rfl⟩, fun _ => ⟨_, hl rest⟩⟩
      · rw [hl rest, hl []]
    | ok port =>
      have hl : ∀ r, LoadFromArgs (a₀ :: a₁ :: r) = .ok { WebPort := port } := fun r => by
        simp only [LoadFromArgs, ha]
      refine ⟨fun port' hp => ?_, fun err he => (by cases he), ?_, ?_⟩
      · cases hp
        exact hl rest
      · constructor
        · rintro ⟨err, he⟩
          rw [hl rest] at he
          cases he
        · rintro ⟨err, he⟩
          cases he
      · rw [hl rest, hl []]

/-! ## The finished flag and what `Reset` keeps -/

theorem genStep_finished {w w' : World} (a : GenAction) (hs : genStep w a = some w')
    (hf : w.j.finished = true) : w'.j.finished = true := by
  cases a with
  | throw now r =>
    cases hT : ThrowBall w.j now r with
    | none => simp [genStep, hT] at hs
    | some res =>
      simp only [genStep, hT, Option.some.injEq] at hs
      subst hs
      rcases ThrowBall_cases hT with ⟨_, rfl⟩ | ⟨id, rest, ball, _, _, rfl⟩ <;> exact hf
  | tick k =>
    by_cases hm : k ∈ w.timers
    · cases hF : flyBallTick w.j k with
      | none => simp [genStep, hm, hF] at hs
      | some p =>
        obtain ⟨j', f⟩ := p
        obtain ⟨b, _, hc | hc⟩ := flyBallTick_cases hF
        · obtain ⟨_, rfl, rfl⟩ := hc
          simp only [genStep, hm, if_true, hF, Option.some.injEq] at hs
          subst hs
          exact hf
        · obtain ⟨_, rfl, rfl⟩ := hc
          simp only [genStep, hm, if_true, hF, Option.some.injEq] at hs
          subst hs
          exact hf
    · simp [genStep, hm] at hs
  | sched now clock draw =>
    have hfin : (IsFinished w.j || IsJugglingTimeOver w.j now) = true := by
      simp [IsFinished, hf]
    simp only [genStep, schedulerTick_stop _ _ hfin, Option.some.injEq] at hs
    subst hs
    rfl
  | stop =>
    simp only [genStep, Option.some.injEq] at hs
    subst hs
    rfl

theorem genRun_finished {w w' : World} (acts : List GenAction)
    (hr : genRun w acts = some w') (hf : w.j.finished = true) : w'.j.finished = true := by
  induction acts generalizing w with
  | nil =>
    simp only [genRun, Option.some.injEq] at hr
    rw [← hr]
    exact hf
  | cons a acts ih =>
    cases hs : genStep w a with
    | none => simp [genRun, hs] at hr
    | some w₁ =>
      simp only [genRun, hs] at hr
      exact ih hr (genStep_finished a hs hf)

/-- C29: once `IsFinished()` is true, every `ThrowBall`, every tick of a live
flight task, every scheduler tick and every `Stop`, and so every sequence of
them, leaves it true, whatever live flight tasks there are; `SetFinished` and
`Stop` set it; `Reset` is the operation that makes it false. -/
theorem C29_finished_stays (w : World) (hfin : IsFinished w.j = true) :
    (∀ a w', genStep w a = some w' → IsFinished w'.j = true) ∧
      (∀ acts w', genRun w acts = some w' → IsFinished w'.j = true) ∧
      IsFinished (SetFinished w.j) = true ∧ IsFinished (Stop w.j) = true ∧
      ∀ n t now, IsFinished (Reset w.j n t now) = false := by
  refine ⟨fun a w' hs => genStep_finished a hs hfin, fun acts w' hr => genRun_finished acts hr hfin,
    rfl, rfl, fun n t now => ?_⟩
  rw [Reset_eq]
  rfl

/-- Witness for C29: the stopped juggler at the end of `demoRun`, then a
scheduler tick, a tick of the flight task of ball 1 and a `ThrowBall`. -/
theorem C29_finished_stays_witness :
    IsFinished demoWorld.j = true ∧
      ∃ w', genRun demoWorld [.sched 9 (fun _ => 9) (fun _ => 0), .tick 1, .throw 9 0] =
          some w' ∧ IsFinished w'.j = true := by
  refine ⟨by decide, ?_⟩
  have h := (C29_finished_stays demoWorld (by decide)).2.1
    [.sched 9 (fun _ => 9) (fun _ => 0), .tick 1, .throw 9 0]
  cases hr : genRun demoWorld [.sched 9 (fun _ => 9) (fun _ => 0), .tick 1, .throw 9 0] with
  | none => exact absurd hr (by decide)
  | some w' => exact ⟨w', rfl, h w' hr⟩

/-- C30: `Reset` does not read the prior state.  For any two prior states and
the same arguments and clock value the results are equal, `finished` is false,
and every record of the new snapshot is a fresh ball: status `in_hand`,
`FlightTime = 0`, `Elapsed = 0` and the zero `StartTime`. -/
theorem C30_reset_discards (s₁ s₂ : Juggler) (n t now : Int) :
    Reset s₁ n t now = Reset s₂ n t now ∧
      (Reset s₁ n t now).finished = false ∧
      (Reset s₁ n t now).ballsInAir = [] ∧
      (Reset s₁ n t now).startTime = now ∧
      (Reset s₁ n t now).totalBalls = n ∧
      (Reset s₁ n t now).jugglingTime = minutesToDuration t ∧
      ∀ k b, getBall k (Reset s₁ n t now).balls = some b → b = newBall k := by
  refine ⟨rfl, ?_, ?_, ?_, ?_, ?_, fun k b hb => getBall_Reset hb⟩ <;> rw [Reset_eq]

/-! ## Snapshot reads between the operations of a generation -/

theorem GenInv.partition {w : World} (h : GenInv w) : Partition w.j := by
  have hnd := h.nodup
  obtain ⟨hh, ha, hdis⟩ := List.nodup_append.1 hnd
  have hmem : ∀ k, k ∈ keys w.j.balls ↔ (k ∈ w.j.ballsInHand ∨ k ∈ w.j.ballsInAir) := fun k => by
    rw [← h.queues.mem_iff, List.mem_append]
  refine ⟨hh, ha, hdis, h.keysNodup, hmem, fun k b hb => ?_⟩
  rcases (hmem k).1 (mem_keys_of_getBall hb) with hk | hk
  · have h1 := (h.hand k hk b hb).1
    refine ⟨⟨fun _ => hk, fun _ => h1⟩, ⟨fun h2 => ?_, fun hk' => absurd hk' (fun hk' => hdis hk hk')⟩⟩
    rw [h1] at h2
    exact absurd h2 (by decide)
  · have h1 := (h.air k hk b hb).1
    refine ⟨⟨fun h2 => ?_, fun hk' => absurd hk (fun hk => hdis hk' hk)⟩, ⟨fun _ => hk, fun _ => h1⟩⟩
    rw [h1] at h2
    exact absurd h2 (by decide)

/-- What a snapshot of a state with the partition invariant shows: the records
with status `in_hand` are as many as `inHand`, those with status `in_flight` as
many as `inAir`, and there are `inHand + inAir` records. -/
theorem Partition.counts {j : Juggler} (h : Partition j) :
    ((GetStats j).2.2).countP (fun b => b.Status == "in_hand") = (GetStats j).1 ∧
      ((GetStats j).2.2).countP (fun b => b.Status == "in_flight") = (GetStats j).2.1 ∧
      ((GetStats j).2.2).length = (GetStats j).1 + (GetStats j).2.1 := by
  obtain ⟨hh, ha, hdis, hk, hmem, hst⟩ := h
  refine ⟨?_, ?_, ?_⟩
  · exact countP_status _ _ _ hk hh (fun k hk' => (hmem k).2 (Or.inl hk'))
      (fun k b hb => (hst k b hb).1)
  · exact countP_status _ _ _ hk ha (fun k hk' => (hmem k).2 (Or.inr hk'))
      (fun k b hb => (hst k b hb).2)
  · have hnd : (j.ballsInHand ++ j.ballsInAir).Nodup := List.nodup_append.2 ⟨hh, ha, hdis⟩
    have hperm : (keys j.balls).Perm (j.ballsInHand ++ j.ballsInAir) :=
      (List.perm_ext_iff_of_nodup hk hnd).2 fun k => by
        rw [hmem k, List.mem_append]
    have hlen := hperm.length_eq
    simp only [keys, List.length_map, List.length_append] at hlen
    simpa [GetStats] using hlen

/-- Every snapshot read along a run is the snapshot of a state the run goes
through; a property kept by every operation holds of that state. -/
theorem snapshots_inv (P : World → Prop)
    (hstep : ∀ w a w', P w → genStep w a = some w' → P w') :
    ∀ (acts : List GenAction) (w : World) (snaps : List (Nat × Nat × List Ball)), P w →
      snapshots w acts = some snaps →
      snaps.length = acts.length + 1 ∧ ∀ s ∈ snaps, ∃ w', P w' ∧ GetStats w'.j = s := by
  intro acts
  induction acts with
  | nil =>
    intro w snaps hP hs
    simp only [snapshots, Option.some.injEq] at hs
    subst hs
    refine ⟨rfl, fun s hm => ⟨w, hP, ?_⟩⟩
    rw [List.mem_singleton.1 hm]
  | cons a acts ih =>
    intro w snaps hP hs
    cases hg : genStep w a with
    | none => simp [snapshots, hg] at hs
    | some w₁ =>
      cases hsn : snapshots w₁ acts with
      | none => simp [snapshots, hg, hsn] at hs
      | some rest =>
        simp only [snapshots, hg, hsn, Option.map_some', Option.some.injEq] at hs
        subst hs
        obtain ⟨hlen, hall⟩ := ih w₁ rest (hstep w a w₁ hP hg) hsn
        refine ⟨by simp [hlen], fun s hm => ?_⟩
        rcases List.mem_cons.1 hm with e | e
        · exact ⟨w, hP, e.symm⟩
        · exact hall s e

/-- A run that goes through can be read at every point. -/
theorem snapshots_of_genRun :
    ∀ (acts : List GenAction) (w w' : World), genRun w acts = some w' →
      ∃ snaps, snapshots w acts = some snaps := by
  intro acts
  induction acts with
  | nil =>
    intro w w' _
    exact ⟨_, rfl⟩
  | cons a acts ih =>
    intro w w' hr
    cases hg : genStep w a with
    | none => simp [genRun, hg] at hr
    | some w₁ =>
      simp only [genRun, hg] at hr
      obtain ⟨rest, hrest⟩ := ih w₁ w' hr
      exact ⟨GetStats w.j :: rest, by simp only [snapshots, hg, hrest, Option.map_some']⟩

/-- C26: every method body runs under the lock, so a `GetStats` call running
concurrently with throws and catches reads the state between two operations.
Along every run of one generation (`Reset`, then any interleaving of
`ThrowBall` calls, ticks of the flight tasks they spawned, scheduler ticks and
`Stop`), each snapshot read before or after any operation is the snapshot of a
state with the partition invariant: no ball is in both queues or in neither,
and the snapshot has `inHand` records with status `in_hand`, `inAir` with
status `in_flight`, and `inHand + inAir` records in all. -/
theorem C26_snapshot_reads_consistent (j₀ : Juggler) (n t now : Int) (acts : List GenAction)
    (snaps : List (Nat × Nat × List Ball))
    (h : snapshots (freshWorld j₀ n t now) acts = some snaps) :
    snaps.length = acts.length + 1 ∧
      ∀ s ∈ snaps, ∃ j, Partition j ∧ GetStats j = s ∧
        (s.2.2).countP (fun b => b.Status == "in_hand") = s.1 ∧
        (s.2.2).countP (fun b => b.Status == "in_flight") = s.2.1 ∧
        (s.2.2).length = s.1 + s.2.1 := by
  obtain ⟨hlen, hall⟩ :=
    snapshots_inv GenInv (fun w a w' hP hs => genStep_inv a hP hs) acts _ snaps
      (GenInv_fresh j₀ n t now) h
  refine ⟨hlen, fun s hs => ?_⟩
  obtain ⟨w', hinv, rfl⟩ := hall s hs
  exact ⟨w'.j, hinv.partition, rfl, hinv.partition.counts⟩

/-- Witness for C26: the nine snapshots read along `demoRun`. -/
theorem C26_snapshot_reads_consistent_witness :
    ∃ snaps, snapshots (freshWorld (NewJuggler 3 2 0) 3 2 0) demoRun = some snaps ∧
      snaps.length = 9 ∧
      ∀ s ∈ snaps, (s.2.2).length = s.1 + s.2.1 := by
  obtain ⟨snaps, hs⟩ := snapshots_of_genRun demoRun _ _ demoRun_eq
  obtain ⟨hlen, hall⟩ :=
    C26_snapshot_reads_consistent (NewJuggler 3 2 0) 3 2 0 demoRun snaps hs
  refine ⟨snaps, hs, hlen, fun s hm => ?_⟩
  obtain ⟨_, _, _, _, _, h3⟩ := hall s hm
  exact h3

/-! ## Flights that end after `Stop` -/

theorem remaining_of_air {j : Juggler} {k : Int} {b : Ball} (hk : k ∈ j.ballsInAir)
    (hb : getBall k j.balls = some b) : remaining j k = (b.FlightTime - b.Elapsed).toNat := by
  simp [remaining, hk, hb]

theorem remaining_of_not_air {j : Juggler} {k : Int} (hk : k ∉ j.ballsInAir) :
    remaining j k = 0 := by
  simp [remaining, hk]

theorem GenInv.remaining_le {w : World} (h : GenInv w) (k : Int) : remaining w.j k ≤ 10 := by
  by_cases hk : k ∈ w.j.ballsInAir
  · obtain ⟨b, hb⟩ := exists_getBall_of_mem_keys
      (h.queues.subset (List.mem_append_right _ hk))
    obtain ⟨_, h0, _, _, h10⟩ := h.air k hk b hb
    rw [remaining_of_air hk hb]
    omega
  · rw [remaining_of_not_air hk]
    exact Nat.zero_le _

theorem GenInv.remaining_pos {w : World} (h : GenInv w) {k : Int} (hk : k ∈ w.timers) :
    1 ≤ remaining w.j k := by
  have hka : k ∈ w.j.ballsInAir := h.tasks.subset hk
  obtain ⟨b, hb⟩ := exists_getBall_of_mem_keys
    (h.queues.subset (List.mem_append_right _ hka))
  obtain ⟨_, _, hlt, _, _⟩ := h.air k hka b hb
  rw [remaining_of_air hka hb]
  omega

/-- A tick of the flight task of `k'` takes one tick off what `k'` has left and
leaves every other ball as it is. -/
theorem remaining_tick {w w' : World} (h : GenInv w) {k' : Int}
    (hs : genStep w (.tick k') = some w') (k : Int) :
    remaining w'.j k + (if k' = k then 1 else 0) = remaining w.j k := by
  by_cases hm : k' ∈ w.timers
  · have hka : k' ∈ w.j.ballsInAir := h.tasks.subset hm
    have hair : w.j.ballsInAir.Nodup := (List.nodup_append.1 h.nodup).2.1
    cases hF : flyBallTick w.j k' with
    | none => simp [genStep, hm, hF] at hs
    | some p =>
      obtain ⟨j', f⟩ := p
      obtain ⟨b, hb, hc | hc⟩ := flyBallTick_cases hF
      · obtain ⟨hlt, rfl, rfl⟩ := hc
        simp only [genStep, hm, if_true, hF, Option.some.injEq] at hs
        subst hs
        by_cases hkk : k' = k
        · subst hkk
          have hb' : getBall k' (ticked w.j k' b).balls = some { b with Elapsed := b.Elapsed + 1 } :=
            getBall_setBall_self _ _ _
          have hka' : k' ∈ (ticked w.j k' b).ballsInAir := hka
          rw [remaining_of_air hka' hb', remaining_of_air hka hb]
          simp only [if_true]
          omega
        · have hne : k ≠ k' := fun e => hkk e.symm
          simp only [hkk, if_false, Nat.add_zero]
          unfold remaining
          show (if k ∈ w.j.ballsInAir then
              match getBall k (setBall k' { b with Elapsed := b.Elapsed + 1 } w.j.balls) with
              | some b => (b.FlightTime - b.Elapsed).toNat
              | none => 0
            else 0) = _
          rw [getBall_setBall_ne hne]
      · obtain ⟨hle, rfl, rfl⟩ := hc
        simp only [genStep, hm, if_true, hF, Option.some.injEq] at hs
        subst hs
        by_cases hkk : k' = k
        · subst hkk
          have hnot : k' ∉ (caught w.j k' b).ballsInAir := by
            show k' ∉ removeFirst k' w.j.ballsInAir
            rw [removeFirst_eq_erase, hair.mem_erase_iff]
            exact fun hx => hx.1 rfl
          obtain ⟨_, _, hlt, _, _⟩ := h.air k' hka b hb
          rw [remaining_of_not_air hnot, remaining_of_air hka hb]
          simp only [if_true]
          omega
        · have hne : k ≠ k' := fun e => hkk e.symm
          simp only [hkk, if_false, Nat.add_zero]
          unfold remaining
          show (if k ∈ removeFirst k' w.j.ballsInAir then
              match getBall k
                (setBall k' { b with Status := "in_hand", Elapsed := 0 } w.j.balls) with
              | some b => (b.FlightTime - b.Elapsed).toNat
              | none => 0
            else 0) = _
          rw [getBall_setBall_ne hne, removeFirst_eq_erase]
          have hiff : k ∈ w.j.ballsInAir.erase k' ↔ k ∈ w.j.ballsInAir := by
            rw [hair.mem_erase_iff]
            exact ⟨fun hx => hx.2, fun hx => ⟨hne, hx⟩⟩
          simp only [hiff]
  · simp [genStep, hm] at hs

/-- On a finished juggler an operation other than a direct `ThrowBall` call
changes what a flight task has left only by the tick it is. -/
theorem remaining_step {w w' : World} (h : GenInv w) (hf : w.j.finished = true)
    (a : GenAction) (ha : isThrow a = false) (hs : genStep w a = some w') (k : Int) :
    tickCount k [a] + remaining w'.j k = remaining w.j k := by
  cases a with
  | throw now r => simp [isThrow] at ha
  | tick k' =>
    have := remaining_tick h hs k
    simp only [tickCount, Nat.add_zero]
    omega
  | sched now clock draw =>
    have hfin : (IsFinished w.j || IsJugglingTimeOver w.j now) = true := by
      simp [IsFinished, hf]
    simp only [genStep, schedulerTick_stop _ _ hfin, Option.some.injEq] at hs
    subst hs
    simp [tickCount, remaining, SetFinished]
  | stop =>
    simp only [genStep, Option.some.injEq] at hs
    subst hs
    simp [tickCount, remaining, Stop]

theorem tickCount_cons (k : Int) (a : GenAction) (as : List GenAction) :
    tickCount k (a :: as) = tickCount k [a] + tickCount k as := by
  cases a <;> simp [tickCount]

theorem remaining_run (k : Int) :
    ∀ (acts : List GenAction) (w w' : World), GenInv w → w.j.finished = true →
      (∀ a ∈ acts, isThrow a = false) → genRun w acts = some w' →
      tickCount k acts + remaining w'.j k = remaining w.j k := by
  intro acts
  induction acts with
  | nil =>
    intro w w' _ _ _ hr
    simp only [genRun, Option.some.injEq] at hr
    subst hr
    simp [tickCount]
  | cons a acts ih =>
    intro w w' h hf hno hr
    cases hs : genStep w a with
    | none => simp [genRun, hs] at hr
    | some w₁ =>
      simp only [genRun, hs] at hr
      have h1 := remaining_step h hf a (hno a (List.mem_cons_self _ _)) hs k
      have h2 := ih w₁ w' (genStep_inv a h hs) (genStep_finished a hs hf)
        (fun b hb => hno b (List.mem_cons_of_mem _ hb)) hr
      rw [tickCount_cons]
      omega

theorem genRun_append (as bs : List GenAction) :
    ∀ (w w₁ w₂ : World), genRun w as = some w₁ → genRun w₁ bs = some w₂ →
      genRun w (as ++ bs) = some w₂ := by
  induction as with
  | nil =>
    intro w w₁ w₂ h1 h2
    simp only [genRun, Option.some.injEq] at h1
    subst h1
    exact h2
  | cons a as ih =>
    intro w w₁ w₂ h1 h2
    cases hs : genStep w a with
    | none => simp [genRun, hs] at h1
    | some w' =>
      simp only [genRun, hs] at h1
      simp only [List.cons_append, genRun, hs]
      exact ih w' w₁ w₂ h1 h2

/-- A live flight task with `r + 1` ticks left returns at its `(r + 1)`-th
tick. -/
theorem tick_until_caught (k : Int) :
    ∀ (r : Nat) (w : World), GenInv w → k ∈ w.timers → remaining w.j k = r + 1 →
      ∃ w₁, genRun w (List.replicate (r + 1) (.tick k)) = some w₁ ∧
        w₁.timers = w.timers.erase k := by
  intro r
  induction r with
  | zero =>
    intro w h hk hrem
    have hka : k ∈ w.j.ballsInAir := h.tasks.subset hk
    obtain ⟨b, hb⟩ := exists_getBall_of_mem_keys
      (h.queues.subset (List.mem_append_right _ hka))
    rw [remaining_of_air hka hb] at hrem
    have hle : b.FlightTime ≤ b.Elapsed + 1 := by omega
    refine ⟨{ j := caught w.j k b, timers := w.timers.erase k }, ?_, rfl⟩
    simp only [List.replicate, genRun, genStep, hk, if_true, flyBallTick_catch hb hle]
  | succ r ih =>
    intro w h hk hrem
    have hka : k ∈ w.j.ballsInAir := h.tasks.subset hk
    obtain ⟨b, hb⟩ := exists_getBall_of_mem_keys
      (h.queues.subset (List.mem_append_right _ hka))
    have hrem' := hrem
    rw [remaining_of_air hka hb] at hrem'
    have hlt : b.Elapsed + 1 < b.FlightTime := by omega
    have hs : genStep w (.tick k) = some { j := ticked w.j k b, timers := w.timers } := by
      simp only [genStep, hk, if_true, flyBallTick_continue hb hlt]
    have h1 : remaining (ticked w.j k b) k + 1 = remaining w.j k := by
      simpa using remaining_tick h hs k
    obtain ⟨w₁, hr, ht⟩ :=
      ih { j := ticked w.j k b, timers := w.timers } (GenInv_ticked h hka hb hlt) hk
        (show remaining (ticked w.j k b) k = r + 1 by omega)
    refine ⟨w₁, ?_, ht⟩
    rw [List.replicate_succ]
    simp only [genRun, hs]
    exact hr

/-- From every state of a generation the live flight tasks can be ticked until
all of them have returned. -/
theorem drain_exists :
    ∀ (m : Nat) (w : World), GenInv w → w.timers.length = m →
      ∃ acts w₁, (∀ a ∈ acts, isThrow a = false) ∧ genRun w acts = some w₁ ∧
        w₁.timers = [] := by
  intro m
  induction m with
  | zero =>
    intro w _ hlen
    exact ⟨[], w, fun a ha => absurd ha (List.not_mem_nil a), rfl, List.length_eq_zero.1 hlen⟩
  | succ m ih =>
    intro w h hlen
    cases ht : w.timers with
    | nil => simp [ht] at hlen
    | cons k ts =>
      have hk : k ∈ w.timers := by simp [ht]
      have hpos := h.remaining_pos hk
      obtain ⟨r, hr⟩ : ∃ r, remaining w.j k = r + 1 := ⟨remaining w.j k - 1, by omega⟩
      obtain ⟨w₁, hrun, htim⟩ := tick_until_caught k r w h hk hr
      have htim' : w₁.timers = ts := by
        rw [htim, ht]
        simp
      have hlen' : w₁.timers.length = m := by
        rw [htim']
        rw [ht] at hlen
        simpa using hlen
      obtain ⟨acts, w₂, hno, hrun₂, hnil⟩ := ih w₁ (genRun_inv _ h hrun) hlen'
      refine ⟨List.replicate (r + 1) (.tick k) ++ acts, w₂, fun a ha => ?_,
        genRun_append _ _ _ _ _ hrun hrun₂, hnil⟩
      rcases List.mem_append.1 ha with ha | ha
      · rw [List.eq_of_mem_replicate ha]
        rfl
      · exact hno a ha

/-- C27: `Stop` strands no ball.  Take a state reached within one generation
started by `Reset(n, t)` with `n ≥ 0`, call `Stop()`, and then run any
sequence of ticks of live flight tasks, scheduler ticks and further `Stop`
calls.  Every flight task has at most 10 ticks left at the `Stop`, and the
ticks it makes and the ticks it has left always add up to that number, so no
task ticks more than 10 times; a live task can always tick; the remaining
tasks can be ticked until all have returned; and whenever no flight task is
left the in-air queue is empty, the in-hand queue holds `totalBalls = n` ids,
and every ball has status `in_hand` and `Elapsed = 0`. -/
theorem C27_stop_strands_no_ball (j₀ : Juggler) (n t now : Int) (hn : 0 ≤ n)
    (acts : List GenAction) (w : World)
    (hrun : genRun (freshWorld j₀ n t now) acts = some w) :
    (∀ k, remaining (Stop w.j) k ≤ 10) ∧
      ∀ (acts' : List GenAction) (w' : World), (∀ a ∈ acts', isThrow a = false) →
        genRun { j := Stop w.j, timers := w.timers } acts' = some w' →
        (∀ k, tickCount k acts' + remaining w'.j k = remaining (Stop w.j) k) ∧
          (∀ k, tickCount k acts' ≤ 10) ∧
          (∀ k ∈ w'.timers, ∃ w'', genStep w' (.tick k) = some w'') ∧
          (∃ acts'' w'', (∀ a ∈ acts'', isThrow a = false) ∧
            genRun w' acts'' = some w'' ∧ w''.timers = []) ∧
          (w'.timers = [] →
            w'.j.ballsInAir = [] ∧ (w'.j.ballsInHand.length : Int) = GetTotalBalls w'.j ∧
              GetTotalBalls w'.j = n ∧
              ∀ b ∈ (GetStats w'.j).2.2, b.Status = "in_hand" ∧ b.Elapsed = 0) := by
  have hinv : GenInv w := genRun_inv acts (GenInv_fresh j₀ n t now) hrun
  have hinvs : GenInv { j := Stop w.j, timers := w.timers } :=
    genStep_inv .stop hinv rfl
  have htot : w.j.totalBalls = n := by
    rw [genRun_totalBalls acts hrun]
    exact totalBalls_Reset j₀ n t now
  refine ⟨fun k => hinvs.remaining_le k, fun acts' w' hno hrun' => ?_⟩
  have hinv' : GenInv w' := genRun_inv acts' hinvs hrun'
  have hrem : ∀ k, tickCount k acts' + remaining w'.j k = remaining (Stop w.j) k := fun k =>
    remaining_run k acts' { j := Stop w.j, timers := w.timers } w' hinvs rfl hno hrun'
  have htot' : w'.j.totalBalls = n := by
    rw [genRun_totalBalls acts' hrun']
    exact htot
  refine ⟨hrem, fun k => ?_, fun k hk => genStep_progress hinv' (.tick k) (fun k' e => ?_),
    drain_exists _ w' hinv' rfl, fun hnil => ?_⟩
  · have h1 := hrem k
    have h2 := hinvs.remaining_le k
    have h2' : remaining (Stop w.j) k ≤ 10 := h2
    omega
  · cases e
    exact hk
  · have hair : w'.j.ballsInAir = [] := by
      have hp := hinv'.tasks
      rw [hnil] at hp
      exact List.nil_perm.1 hp
    have hlen := hinv'.queues.length_eq
    rw [hinv'.total, hair, List.append_nil, htot'] at hlen
    refine ⟨hair, ?_, htot', fun b hb => ?_⟩
    · show ((w'.j.ballsInHand.length : Nat) : Int) = w'.j.totalBalls
      rw [htot', hlen]
      exact Int.toNat_of_nonneg hn
    · obtain ⟨⟨k, b'⟩, hmem, rfl⟩ := List.mem_map.1 hb
      have hget : getBall k w'.j.balls = some b' := getBall_of_mem hinv'.keysNodup hmem
      have hk : k ∈ w'.j.ballsInHand ++ w'.j.ballsInAir :=
        hinv'.queues.mem_iff.2 (mem_keys_of_getBall hget)
      rw [hair, List.append_nil] at hk
      exact hinv'.hand k hk b' hget

/-- Witness for C27: `Stop` at the end of `demoRun`, balls 1 and 3 in the air;
four ticks of the task of ball 1 and five of the task of ball 3 bring both
back. -/
theorem C27_stop_strands_no_ball_witness :
    (0 : Int) ≤ 3 ∧ genRun (freshWorld (NewJuggler 3 2 0) 3 2 0) demoRun = some demoWorld ∧
      (∀ k, remaining (Stop demoWorld.j) k ≤ 10) ∧
      ∃ w', genRun { j := Stop demoWorld.j, timers := demoWorld.timers }
            [.tick 1, .tick 3, .tick 1, .tick 3, .tick 1, .tick 3, .tick 1, .tick 3, .tick 3] =
          some w' ∧
        w'.timers = [] ∧ w'.j.ballsInAir = [] ∧
        (w'.j.ballsInHand.length : Int) = GetTotalBalls w'.j := by
  obtain ⟨h1, h2⟩ :=
    C27_stop_strands_no_ball (NewJuggler 3 2 0) 3 2 0 (by decide) demoRun demoWorld demoRun_eq
  refine ⟨by decide, demoRun_eq, h1, ?_⟩
  cases hr : genRun { j := Stop demoWorld.j, timers := demoWorld.timers }
      [.tick 1, .tick 3, .tick 1, .tick 3, .tick 1, .tick 3, .tick 1, .tick 3, .tick 3] with
  | none => exact absurd hr (by decide)
  | some w' =>
    have hnil : w'.timers = [] := by
      have : (genRun { j := Stop demoWorld.j, timers := demoWorld.timers }
          [.tick 1, .tick 3, .tick 1, .tick 3, .tick 1, .tick 3, .tick 1, .tick 3,
            .tick 3]).map (fun x => x.timers) = some [] := by decide
      rw [hr] at this
      simpa using this
    obtain ⟨_, _, _, _, h5⟩ := h2 _ w' (by decide) hr
    obtain ⟨ha, hl, _, _⟩ := h5 hnil
    exact ⟨w', rfl, hnil, ha, hl⟩

/-! ## Throw schedulers started by the control surface -/

/-- C28, evaluated on the code: two accepted start requests in a row leave two
throw schedulers alive, and so does a start request that follows a stop
request before the first scheduler has ticked again, because `Reset` clears
the finished flag the first scheduler was to see; both schedulers then pass
the check of their next tick and go on. -/
theorem C28_two_schedulers_live :
    (processRun (NewApp DefaultConfig 0)
        [.startRequest { Method := "POST", body := some { TotalBalls := 3, TimeMinutes := 2 } } 0]
      ).map (fun p => p.schedulers) = some 1 ∧
      (processRun (NewApp DefaultConfig 0)
        [.startRequest { Method := "POST", body := some { TotalBalls := 3, TimeMinutes := 2 } } 0,
          .startRequest { Method := "POST", body := some { TotalBalls := 3, TimeMinutes := 2 } } 1,
          .schedulerTick 2 (fun _ => 2) (fun _ => 0),
          .schedulerTick 2 (fun _ => 2) (fun _ => 0)]
      ).map (fun p => p.schedulers) = some 2 ∧
      (processRun (NewApp DefaultConfig 0)
        [.startRequest { Method := "POST", body := some { TotalBalls := 3, TimeMinutes := 2 } } 0,
          .schedulerTick 1 (fun _ => 1) (fun _ => 0),
          .stopRequest "POST",
          .startRequest { Method := "POST", body := some { TotalBalls := 3, TimeMinutes := 2 } } 2,
          .schedulerTick 3 (fun _ => 3) (fun _ => 0),
          .schedulerTick 3 (fun _ => 3) (fun _ => 0)]
      ).map (fun p => p.schedulers) = some 2 := by
  refine ⟨?_, ?_, ?_⟩ <;> decide

/-! ## Queue order -/

theorem catchBall_eq {j : Juggler} {k : Int} {b : Ball} (hb : getBall k j.balls = some b) :
    catchBall j k = some (caught j k b) := by
  simp only [catchBall, hb, caught]

theorem removeFirst_filter (k : Int) :
    ∀ l : List Int, l.count k = 1 → removeFirst k l = l.filter (fun x => decide (x ≠ k)) := by
  intro l
  induction l with
  | nil => intro h; simp at h
  | cons a l ih =>
    intro h
    by_cases ha : a = k
    · subst ha
      have h0 : l.count a = 0 := by simpa using h
      have hnot : a ∉ l := List.count_eq_zero.1 h0
      have hall : l.filter (fun x => decide (x ≠ a)) = l :=
        List.filter_eq_self.2 fun x hx => by
          have : x ≠ a := fun e => hnot (e ▸ hx)
          simpa using this
      rw [List.filter_cons_of_neg (by simp), hall]
      simp [removeFirst]
    · have h1 : l.count k = 1 := by
        rw [List.count_cons_of_ne (Ne.symm ha)] at h
        exact h
      simp [removeFirst, ha, ih h1]

theorem split_of_count_one (k : Int) :
    ∀ l : List Int, l.count k = 1 →
      ∃ pre post, l = pre ++ k :: post ∧ k ∉ pre ∧ k ∉ post ∧ removeFirst k l = pre ++ post := by
  intro l
  induction l with
  | nil => intro h; simp at h
  | cons a l ih =>
    intro h
    by_cases ha : a = k
    · subst ha
      have h0 : l.count a = 0 := by simpa using h
      exact ⟨[], l, rfl, List.not_mem_nil _, List.count_eq_zero.1 h0, by simp [removeFirst]⟩
    · have h1 : l.count k = 1 := by
        rw [List.count_cons_of_ne (Ne.symm ha)] at h
        exact h
      obtain ⟨pre, post, hl, hpre, hpost, hrem⟩ := ih h1
      refine ⟨a :: pre, post, by simp [hl], ?_, hpost, by simp [removeFirst, ha, hrem]⟩
      intro hm
      rcases List.mem_cons.1 hm with e | e
      · exact ha e.symm
      · exact hpre e

/-- C31: catching keeps the order of both queues.  On every state in which ball
`k` has a record and occurs exactly once in the in-air queue, `catchBall(k)`
returns a state whose in-air queue is the old one with that occurrence taken
out, the ids before it and after it in their old order (it is the old queue
filtered by `≠ k`, one shorter, and `k` is no longer in it), and whose in-hand
queue is the old one with `k` appended at the end. -/
theorem C31_catch_keeps_order (j : Juggler) (k : Int) (b : Ball)
    (hb : getBall k j.balls = some b) (hone : j.ballsInAir.count k = 1) :
    ∃ j', catchBall j k = some j' ∧
      (∃ pre post, j.ballsInAir = pre ++ k :: post ∧ k ∉ pre ∧ k ∉ post ∧
        j'.ballsInAir = pre ++ post) ∧
      j'.ballsInAir = j.ballsInAir.filter (fun x => decide (x ≠ k)) ∧
      j'.ballsInAir.length + 1 = j.ballsInAir.length ∧
      k ∉ j'.ballsInAir ∧
      j'.ballsInHand = j.ballsInHand ++ [k] := by
  obtain ⟨pre, post, hl, hpre, hpost, hrem⟩ := split_of_count_one k j.ballsInAir hone
  have hair : (caught j k b).ballsInAir = pre ++ post := hrem
  refine ⟨caught j k b, catchBall_eq hb, ⟨pre, post, hl, hpre, hpost, hair⟩,
    removeFirst_filter k _ hone, ?_, ?_, rfl⟩
  · rw [hair, hl]
    simp
    omega
  · rw [hair]
    intro hm
    rcases List.mem_append.1 hm with e | e
    · exact hpre e
    · exact hpost e

/-- Witness for C31: catching ball 5 out of the in-air queue `[4, 5, 6]`. -/
theorem C31_catch_keeps_order_witness :
    getBall 5
        ({ balls := [(4, newBall 4), (5, newBall 5), (6, newBall 6), (7, newBall 7)]
           ballsInHand := [7]
           ballsInAir := [4, 5, 6]
           nextBallID := 8
           totalBalls := 4
           jugglingTime := minute
           startTime := 0
           finished := false } : Juggler).balls = some (newBall 5) ∧
      ∃ j',
        catchBall
            { balls := [(4, newBall 4), (5, newBall 5), (6, newBall 6), (7, newBall 7)]
              ballsInHand := [7]
              ballsInAir := [4, 5, 6]
              nextBallID := 8
              totalBalls := 4
              jugglingTime := minute
              startTime := 0
              finished := false } 5 = some j' ∧
          j'.ballsInAir = [4, 6] ∧ j'.ballsInHand = [7, 5] := by
  refine ⟨by decide, ?_⟩
  obtain ⟨j', h1, _, h3, _, _, h6⟩ :=
    C31_catch_keeps_order
      { balls := [(4, newBall 4), (5, newBall 5), (6, newBall 6), (7, newBall 7)]
        ballsInHand := [7]
        ballsInAir := [4, 5, 6]
        nextBallID := 8
        totalBalls := 4
        jugglingTime := minute
        startTime := 0
        finished := false } 5 (newBall 5) (by decide) (by decide)
  refine ⟨j', h1, ?_, ?_⟩
  · rw [h3]
    decide
  · rw [h6]
    decide

/-- A throw followed by the whole flight of the thrown ball, nothing else in
between: the ball taken from the head of the in-hand queue comes back at its
end. -/
theorem throw_then_flight {j : Juggler} (now : Int) (r : Fin 6) {h : Int} {rest : List Int}
    {ball : Ball} (hh : j.ballsInHand = h :: rest) (hb : getBall h j.balls = some ball) :
    ThrowBall j now r =
        some { j := thrown j h rest ball now r, ok := true, spawned := some h } ∧
      (∀ k : Nat, k < r.val + 5 →
        ∃ jk, flyBallTicks k (thrown j h rest ball now r) h = some (jk, false)) ∧
      flyBallTicks (r.val + 5) (thrown j h rest ball now r) h =
        some (caught (thrown j h rest ball now r) h (thrownBall ball now r), true) := by
  have hget : getBall h (thrown j h rest ball now r).balls = some (thrownBall ball now r) :=
    getBall_setBall_self _ _ _
  have hft : (thrownBall ball now r).FlightTime =
      (thrownBall ball now r).Elapsed + ((r.val + 4 : Nat) : Int) + 1 := by
    show (r.val : Int) + 5 = 0 + ((r.val + 4 : Nat) : Int) + 1
    push_cast
    ring
  refine ⟨ThrowBall_cons hh hb, fun k hk => ?_, ?_⟩
  · exact ⟨_, (flyBallTicks_spec h (r.val + 4) _ _ hget hft k).1 (by omega)⟩
  · exact (flyBallTicks_spec h (r.val + 4) _ _ hget hft (r.val + 5)).2 (by omega)

/-- C32: a throw followed by the full flight of the thrown ball rotates the
hand.  For every `n ≥ 1`, from `Reset(n, t)`, whose in-hand queue is
`[1, ..., n]`, one `ThrowBall` and then the ticks of the flight task of ball 1
up to the one at which it returns, nothing else in between, give the in-hand
queue `[2, ..., n, 1]` and an empty in-air queue.  In general, on a state with
in-hand queue `h :: rest`, ball `h` having a record, the same steps give the
in-hand queue `rest ++ [h]`, the old one rotated left by one, and, `h` not
being in the air before, the old in-air queue. -/
theorem C32_throw_catch_rotates (j₀ : Juggler) (n t now₀ now : Int) (r : Fin 6) (hn : 1 ≤ n) :
    (∃ res jd, ThrowBall (Reset j₀ n t now₀) now r = some res ∧ res.ok = true ∧
        res.spawned = some 1 ∧
        flyBallTicks (r.val + 5) res.j 1 = some (jd, true) ∧
        (∀ k : Nat, k < r.val + 5 → ∃ jk, flyBallTicks k res.j 1 = some (jk, false)) ∧
        (Reset j₀ n t now₀).ballsInHand =
          (List.range n.toNat).map (fun (i : Nat) => (i : Int) + 1) ∧
        jd.ballsInHand =
          (List.range (n.toNat - 1)).map (fun (i : Nat) => (i : Int) + 2) ++ [1] ∧
        jd.ballsInHand = (Reset j₀ n t now₀).ballsInHand.rotate 1 ∧
        jd.ballsInAir = []) ∧
      ∀ (j : Juggler) (h : Int) (rest : List Int) (ball : Ball),
        j.ballsInHand = h :: rest → getBall h j.balls = some ball →
        ∃ res jd, ThrowBall j now r = some res ∧ res.ok = true ∧ res.spawned = some h ∧
          flyBallTicks (r.val + 5) res.j h = some (jd, true) ∧
          (∀ k : Nat, k < r.val + 5 → ∃ jk, flyBallTicks k res.j h = some (jk, false)) ∧
          jd.ballsInHand = rest ++ [h] ∧
          jd.ballsInHand = j.ballsInHand.rotate 1 ∧
          jd.ballsInAir = (j.ballsInAir ++ [h]).erase h ∧
          (h ∉ j.ballsInAir → jd.ballsInAir = j.ballsInAir) := by
  have hgen : ∀ (j : Juggler) (h : Int) (rest : List Int) (ball : Ball),
      j.ballsInHand = h :: rest → getBall h j.balls = some ball →
      ∃ res jd, ThrowBall j now r = some res ∧ res.ok = true ∧ res.spawned = some h ∧
        flyBallTicks (r.val + 5) res.j h = some (jd, true) ∧
        (∀ k : Nat, k < r.val + 5 → ∃ jk, flyBallTicks k res.j h = some (jk, false)) ∧
        jd.ballsInHand = rest ++ [h] ∧
        jd.ballsInHand = j.ballsInHand.rotate 1 ∧
        jd.ballsInAir = (j.ballsInAir ++ [h]).erase h ∧
        (h ∉ j.ballsInAir → jd.ballsInAir = j.ballsInAir) := by
    intro j h rest ball hh hb
    obtain ⟨h1, h2, h3⟩ := throw_then_flight now r hh hb
    refine ⟨_, _, h1, rfl, rfl, h3, h2, rfl, ?_, removeFirst_eq_erase _ _, fun hnot => ?_⟩
    · show rest ++ [h] = j.ballsInHand.rotate 1
      rw [hh]
      simp [List.rotate_cons_succ]
    · show removeFirst h (j.ballsInAir ++ [h]) = j.ballsInAir
      rw [removeFirst_eq_erase, List.erase_append_right _ hnot]
      simp
  refine ⟨?_, hgen⟩
  obtain ⟨m, hm⟩ : ∃ m : Nat, n.toNat = m + 1 := ⟨n.toNat - 1, by omega⟩
  have hhand : (Reset j₀ n t now₀).ballsInHand = 1 :: freshIds 2 m := by
    rw [Reset_eq]
    show freshIds 1 n.toNat = _
    rw [hm, freshIds_succ]
    rfl
  have hball : getBall 1 (Reset j₀ n t now₀).balls = some (newBall 1) := by
    rw [Reset_eq]
    show getBall 1 ((freshIds 1 n.toNat).map fun k => (k, newBall k)) = _
    rw [hm, freshIds_succ]
    simp [getBall]
  have hair : (Reset j₀ n t now₀).ballsInAir = [] := by
    rw [Reset_eq]
  obtain ⟨res, jd, h1, h2, h3, h4, h5, h6, h7, _, h9⟩ :=
    hgen (Reset j₀ n t now₀) 1 (freshIds 2 m) (newBall 1) hhand hball
  refine ⟨res, jd, h1, h2, h3, h4, h5, ?_, ?_, h7, ?_⟩
  · rw [Reset_eq]
    show freshIds 1 n.toNat = _
    unfold freshIds
    exact List.map_congr_left fun i _ => add_comm _ _
  · rw [h6]
    have hm' : n.toNat - 1 = m := by omega
    rw [hm']
    unfold freshIds
    congr 1
    exact List.map_congr_left fun i _ => add_comm _ _
  · rw [h9 (by rw [hair]; exact List.not_mem_nil _), hair]

/-- Witness for C32: three balls, draw 0; after the throw and five ticks the
in-hand queue is `[2, 3, 1]`. -/
theorem C32_throw_catch_rotates_witness :
    (1 : Int) ≤ 3 ∧
      ∃ res jd, ThrowBall (Reset (NewJuggler 0 0 0) 3 2 0) 1 0 = some res ∧
        flyBallTicks 5 res.j 1 = some (jd, true) ∧
        jd.ballsInHand = [2, 3, 1] ∧ jd.ballsInAir = [] := by
  refine ⟨by decide, ?_⟩
  obtain ⟨res, jd, h1, _, _, h4, _, _, h7, _, h9⟩ :=
    (C32_throw_catch_rotates (NewJuggler 0 0 0) 3 2 0 1 0 (by decide)).1
  refine ⟨res, jd, h1, h4, ?_, h9⟩
  rw [h7]
  decide

/-! ## What `ThrowBall` does not read -/

/-- C33: `ThrowBall` reads neither the finished flag nor the clock.  On two
states with the same ball map and the same queues, whatever their `finished`,
`startTime` and `jugglingTime` are, it returns the same boolean, spawns the
same flight task and leaves the same ball map and queues, and it leaves
`finished`, `startTime` and `jugglingTime` of each state as they were; the
value of `time.Now()` does not change the boolean, the task or the queues.  In
particular on `NewJuggler(n, t)` with `n ≥ 1`, which is finished, and on a
stopped juggler with a ball in hand, it returns true and puts the head of the
in-hand queue in flight. -/
theorem C33_throwBall_ignores_finished (j₁ j₂ : Juggler) (now : Int) (r : Fin 6)
    (hb : j₁.balls = j₂.balls) (hh : j₁.ballsInHand = j₂.ballsInHand)
    (ha : j₁.ballsInAir = j₂.ballsInAir) :
    (ThrowBall j₁ now r).map throwEffect = (ThrowBall j₂ now r).map throwEffect ∧
      (∀ res, ThrowBall j₁ now r = some res →
        res.j.finished = j₁.finished ∧ res.j.startTime = j₁.startTime ∧
          res.j.jugglingTime = j₁.jugglingTime) ∧
      (∀ now₁,
        (ThrowBall j₁ now₁ r).map (fun res => (res.ok, res.spawned, res.j.ballsInHand,
            res.j.ballsInAir)) =
          (ThrowBall j₁ now r).map (fun res => (res.ok, res.spawned, res.j.ballsInHand,
            res.j.ballsInAir))) ∧
      (∀ n t now₀, 1 ≤ n →
        IsFinished (NewJuggler n t now₀) = true ∧
          ∃ res b, ThrowBall (NewJuggler n t now₀) now r = some res ∧ res.ok = true ∧
            res.j.ballsInAir = [1] ∧ getBall 1 res.j.balls = some b ∧
            b.Status = "in_flight") ∧
      (HandKnown j₁ → j₁.ballsInHand ≠ [] →
        IsFinished (Stop j₁) = true ∧
          ∃ res id b, ThrowBall (Stop j₁) now r = some res ∧ res.ok = true ∧
            j₁.ballsInHand.head? = some id ∧
            res.j.ballsInAir = j₁.ballsInAir ++ [id] ∧ getBall id res.j.balls = some b ∧
            b.Status = "in_flight") := by
  refine ⟨?_, fun res hres => ?_, fun now₁ => ?_, fun n t now₀ hn => ?_, fun hk hne => ?_⟩
  · cases h1 : j₁.ballsInHand with
    | nil =>
      have h2 : j₂.ballsInHand = [] := by rw [← hh, h1]
      rw [ThrowBall_nil now r h1, ThrowBall_nil now r h2]
      simp [throwEffect, hb, hh, ha]
    | cons id rest =>
      have h2 : j₂.ballsInHand = id :: rest := by rw [← hh, h1]
      cases hg : getBall id j₁.balls with
      | none =>
        have hg2 : getBall id j₂.balls = none := by rw [← hb, hg]
        simp [ThrowBall, h1, h2, hg, hg2]
      | some ball =>
        have hg2 : getBall id j₂.balls = some ball := by rw [← hb, hg]
        rw [ThrowBall_cons h1 hg, ThrowBall_cons h2 hg2]
        simp [throwEffect, thrown, hb, ha]
  · rcases ThrowBall_cases hres with ⟨_, rfl⟩ | ⟨id, rest, ball, _, _, rfl⟩
    · exact ⟨rfl, rfl, rfl⟩
    · exact ⟨rfl, rfl, rfl⟩
  · cases h1 : j₁.ballsInHand with
    | nil =>
      rw [ThrowBall_nil now r h1, ThrowBall_nil now₁ r h1]
    | cons id rest =>
      cases hg : getBall id j₁.balls with
      | none => simp [ThrowBall, h1, hg]
      | some ball =>
        rw [ThrowBall_cons h1 hg, ThrowBall_cons h1 hg]
        simp [thrown]
  · obtain ⟨m, hm⟩ : ∃ m : Nat, n.toNat = m + 1 := ⟨n.toNat - 1, by omega⟩
    have hhand : (NewJuggler n t now₀).ballsInHand = 1 :: freshIds 2 m := by
      rw [NewJuggler_eq]
      show freshIds 1 n.toNat = _
      rw [hm, freshIds_succ]
      rfl
    have hball : getBall 1 (NewJuggler n t now₀).balls = some (newBall 1) := by
      rw [NewJuggler_eq]
      show getBall 1 ((freshIds 1 n.toNat).map fun k => (k, newBall k)) = _
      rw [hm, freshIds_succ]
      simp [getBall]
    have hair : (NewJuggler n t now₀).ballsInAir = [] := by
      rw [NewJuggler_eq]
    refine ⟨by rw [NewJuggler_eq]; rfl, _, thrownBall (newBall 1) now r,
      ThrowBall_cons hhand hball, rfl, ?_, getBall_setBall_self _ _ _, rfl⟩
    show (NewJuggler n t now₀).ballsInAir ++ [1] = [1]
    rw [hair]
    rfl
  · cases h1 : j₁.ballsInHand with
    | nil => exact absurd h1 hne
    | cons id rest =>
      obtain ⟨ball, hg⟩ := exists_getBall_of_mem_keys (hk id (by simp [h1]))
      have h1' : (Stop j₁).ballsInHand = id :: rest := h1
      have hg' : getBall id (Stop j₁).balls = some ball := hg
      exact ⟨rfl, _, id, thrownBall ball now r, ThrowBall_cons h1' hg', rfl, rfl, rfl,
        getBall_setBall_self _ _ _, rfl⟩

/-- Witness for C33: the juggler right after `Reset(2, 1)` and the same juggler
stopped and with another start time and duration. -/
theorem C33_throwBall_ignores_finished_witness :
    (Reset (NewJuggler 0 0 0) 2 1 0).balls = (Stop (Reset (NewJuggler 0 0 0) 2 5 9)).balls ∧
      (Reset (NewJuggler 0 0 0) 2 1 0).ballsInHand =
        (Stop (Reset (NewJuggler 0 0 0) 2 5 9)).ballsInHand ∧
      (Reset (NewJuggler 0 0 0) 2 1 0).ballsInAir =
        (Stop (Reset (NewJuggler 0 0 0) 2 5 9)).ballsInAir ∧
      (ThrowBall (Reset (NewJuggler 0 0 0) 2 1 0) 3 4).map throwEffect =
        (ThrowBall (Stop (Reset (NewJuggler 0 0 0) 2 5 9)) 3 4).map throwEffect :=
  ⟨by decide, by decide, by decide,
    (C33_throwBall_ignores_finished (Reset (NewJuggler 0 0 0) 2 1 0)
      (Stop (Reset (NewJuggler 0 0 0) 2 5 9)) 3 4 (by decide) (by decide) (by decide)).1⟩

end juggler
